import Mathlib

/-!
# EPH_Spline (src/eph_spline.h): a shallow embedding in exact arithmetic

The class `EPH_Spline<double>` is embedded over `ℚ` (exact arithmetic).

* The coefficient buffer `c` is a memory of slots `Nat → Coefficients`.  Slots `0 .. points-1`
  are the elements of the `std::vector` (value-initialised, i.e. all zero, by `c(y.size())`);
  the slots from `points` on stand for whatever lies behind the vector in memory.  The
  builder reads `c[points].b` (line 86-92 with `i = points-1`), so the content of that
  memory is a parameter `past` of the builder.
* `for` loops are folds over the index range, each iteration updating the buffer in place.
* The conversion `size_t index = x * inv_dx` of forward evaluation is the truncation as long
  as the 64-bit `size_t` holds the product; beyond that, where the conversion is undefined,
  the index is the `0` that the conversion sequence of x86-64 leaves.
* `assert` is failure: the builder and forward evaluation return `Option`, the inverse
  search returns an `Outcome`.
* The `while(true)` loop of `reverse` is iterated under a fuel bound; running out of fuel is
  an outcome of its own (`Outcome.timeout`), different from a failed assertion.
-/

namespace EPH_Spline

/-- The struct `Coefficients` of the class: `Float a, b, c, d`. -/
structure Coefficients where
  a : ℚ
  b : ℚ
  c : ℚ
  d : ℚ
deriving DecidableEq, Repr

/-- The data members of the class: `Float inv_dx` and the container `c`. -/
structure Spline where
  inv_dx : ℚ
  c : List Coefficients

/-- The constant `min_size {3}`. -/
def min_size : Nat := 3

/-- The constant `epsilon {1e-3}`. -/
def epsilon : ℚ := 1 / 1000

/-- The constant `max_loops {128}`. -/
def max_loops : Nat := 128

/-- The coefficient buffer while it is being built: `slot i` is `c[i]`, slots beyond the
vector included. -/
structure Buffer where
  slot : Nat → Coefficients

instance : CoeFun Buffer (fun _ => Nat → Coefficients) := ⟨Buffer.slot⟩

/-- Assignment `c[i].a = v`. -/
def setA (c : Buffer) (i : Nat) (v : ℚ) : Buffer :=
  let k : Coefficients := { c i with a := v }
  ⟨fun j => if j = i then k else c j⟩

/-- Assignment `c[i].b = v`. -/
def setB (c : Buffer) (i : Nat) (v : ℚ) : Buffer :=
  let k : Coefficients := { c i with b := v }
  ⟨fun j => if j = i then k else c j⟩

/-- Assignment `c[i].c = v`. -/
def setC (c : Buffer) (i : Nat) (v : ℚ) : Buffer :=
  let k : Coefficients := { c i with c := v }
  ⟨fun j => if j = i then k else c j⟩

/-- Assignment `c[i].d = v`. -/
def setD (c : Buffer) (i : Nat) (v : ℚ) : Buffer :=
  let k : Coefficients := { c i with d := v }
  ⟨fun j => if j = i then k else c j⟩

/-- The loop `for(size_t i = lo; i < hi; ++i) body`. -/
def forLoop {σ : Type} (lo hi : Nat) (body : Nat → σ → σ) (st : σ) : σ :=
  (List.range' lo (hi - lo)).foldl (fun s i => body i s) st

/-- The buffer right after `c(y.size())`: `points` zero elements, then foreign memory. -/
def initBuffer (points : Nat) (past : Coefficients) : Buffer :=
  ⟨fun j => if j < points then ⟨0, 0, 0, 0⟩ else past⟩

/-- Lines 47-50: `c[i].b = (y[i+1]-y[i]) / dx` for `i < points-1`. -/
def slopeLoop (dx : ℚ) (y : List ℚ) (points : Nat) (c : Buffer) : Buffer :=
  forLoop 0 (points - 1) (fun i c => setB c i ((y.getD (i + 1) 0 - y.getD i 0) / dx)) c

/-- Lines 63-64: the body of the loop over the inner samples. -/
def weightStep (i : Nat) (c : Buffer) : Buffer :=
  let c := setC c i |(c (i + 1)).b - (c i).b|
  setD c i |(c (i - 1)).b - (c (i - 2)).b|

/-- Lines 60-65: the weights of the inner samples, `2 ≤ i < points-2`. -/
def weightLoop (points : Nat) (c : Buffer) : Buffer :=
  forLoop 2 (points - 2) weightStep c

/-- Lines 97-107: the table of special cases and the weighted average. -/
def derivative (d_2 d_1 d0 d1 w0 w1 : ℚ) : ℚ :=
  if d_2 = d_1 ∧ d0 ≠ d1 then d_1
  else if d0 = d1 ∧ d_2 = d_1 then d0
  else if d_1 = d0 then d0
  else if d_2 = d_1 ∧ d0 = d1 ∧ d0 ≠ d_1 then 0.5 * (d_1 + d0)
  else (d_1 * w1 + d0 * w0) / (w1 + w0)

/-- Lines 82-107: the body of the derivative loop for sample `i`. -/
def derivativeStep (z0 z1 : ℚ) (i : Nat) (c : Buffer) : Buffer :=
  let d_2 := if i = 0 then z0 else if i = 1 then z1 else (c (i - 2)).b
  let d_1 := if i = 0 then z1 else (c (i - 1)).b
  let d1 := (c (i + 1)).b
  let d0 := (c i).b
  let w1 := (c i).c
  let w0 := (c i).d
  setA c i (derivative d_2 d_1 d0 d1 w0 w1)

/-- Lines 81-108: `for(size_t i = 0; i < points; ++i)`. -/
def derivativeLoop (z0 z1 : ℚ) (points : Nat) (c : Buffer) : Buffer :=
  forLoop 0 points (derivativeStep z0 z1) c

/-- Lines 112-125: the body of the loop that solves for the coefficients of segment `i`. -/
def solveStep (dx : ℚ) (y : List ℚ) (i : Nat) (c : Buffer) : Buffer :=
  let dx3 := dx * dx * dx
  let x0_1 := (i : ℚ) * dx
  let x0_2 := (i : ℚ) * dx * x0_1
  let x0_3 := (i : ℚ) * dx * x0_2
  let x1_1 := ((i + 1 : Nat) : ℚ) * dx
  let x1_2 := ((i + 1 : Nat) : ℚ) * dx * x1_1
  let x1_3 := ((i + 1 : Nat) : ℚ) * dx * x1_2
  let c := setD c i ((-(c i).a * x0_1 - (c (i + 1)).a * x0_1 + (c i).a * x1_1
      + (c (i + 1)).a * x1_1 + 2.0 * y.getD i 0 - 2.0 * y.getD (i + 1) 0) / dx3)
  let c := setC c i ((-(c i).a + (c (i + 1)).a + 3.0 * (c i).d * x0_2
      - 3.0 * (c i).d * x1_2) / 2.0 / dx)
  let c := setB c i (((c i).c * x0_2 + (c i).d * x0_3 - (c i).c * x1_2 - (c i).d * x1_3
      - y.getD i 0 + y.getD (i + 1) 0) / dx)
  setA c i (y.getD i 0 - (c i).b * x0_1 - (c i).c * x0_2 - (c i).d * x0_3)

/-- Lines 111-126: `for(size_t i = 0; i < points-1; ++i)`. -/
def solveLoop (dx : ℚ) (y : List ℚ) (points : Nat) (c : Buffer) : Buffer :=
  forLoop 0 (points - 1) (solveStep dx y) c

/-- Lines 40-108 of the constructor: the slopes, their extrapolations, the weights and the
derivative estimates.  On return `c[i].a` holds the derivative estimate of sample `i` and
`c[i].b` the slope that follows sample `i`. -/
def estimateDerivatives (dx : ℚ) (y : List ℚ) (past : Coefficients) : Buffer :=
  let points := y.length
  let c := initBuffer points past
  let c := slopeLoop dx y points c
  let z1 := 2.0 * (c 0).b - (c 1).b
  let z0 := 2.0 * z1 - (c 0).b
  let z2 := 2.0 * (c (points - 2)).b - (c (points - 1)).b
  let z3 := 2.0 * z2 - (c (points - 1)).b
  let c := setB c (points - 1) z2
  let c := weightLoop points c
  let c := setC c 0 |(c 1).b - (c 0).b|
  let c := setD c 0 |z1 - z0|
  let c := setC c 1 |(c 2).b - (c 1).b|
  let c := setD c 1 |(c 0).b - z1|
  let c := setC c (points - 2) |z2 - (c (points - 2)).b|
  let c := setD c (points - 2) |(c (points - 3)).b - (c (points - 4)).b|
  let c := setC c (points - 1) |z3 - z2|
  let c := setD c (points - 1) |(c (points - 2)).b - (c (points - 3)).b|
  derivativeLoop z0 z1 points c

/-- The body of the constructor after its two assertions (lines 40-131): the derivative
estimates, then the coefficients of the segments and the constant last segment. -/
def fillBuffer (dx : ℚ) (y : List ℚ) (past : Coefficients) : Buffer :=
  let points := y.length
  let c := estimateDerivatives dx y past
  let c := solveLoop dx y points c
  let c := setA c (points - 1) (y.getD (points - 1) 0)
  let c := setB c (points - 1) 0.0
  let c := setC c (points - 1) 0.0
  setD c (points - 1) 0.0

/-- The engine the constructor leaves behind when both assertions hold: `inv_dx {1./dx}`
and the `points` elements of the buffer. -/
def construct (dx : ℚ) (y : List ℚ) (past : Coefficients) : Spline :=
  { inv_dx := 1 / dx, c := (List.range y.length).map (fillBuffer dx y past).slot }

/-- The constructor `EPH_Spline(Float dx, Container<> const& y)`: `none` when one of the
assertions `dx > 0`, `points > min_size` fails. -/
def build (dx : ℚ) (y : List ℚ) (past : Coefficients) : Option Spline :=
  if 0 < dx ∧ min_size < y.length then some (construct dx y past) else none

/-- The number of values of `size_t`, the type of `index` and of `c.size()`: `2^64`, and
in any case enough to hold `c.size()`. -/
def sizeRange (s : Spline) : Nat := max (2 ^ 64) (s.c.length + 1)

/-- The conversion `size_t index = x * inv_dx` of line 138, which no range check precedes:
truncation of a non-negative value that `size_t` can hold.  For a larger product the
conversion is undefined; the conversion sequence of x86-64 (`cvttsd2si` of the value less
`2^63`, sign bit flipped) then leaves `0`, which is the value taken here. -/
def indexOf (s : Spline) (x : ℚ) : Nat :=
  if Int.toNat ⌊x * s.inv_dx⌋ < sizeRange s then Int.toNat ⌊x * s.inv_dx⌋ else 0

/-- Horner evaluation of one segment, line 141. -/
def horner (k : Coefficients) (x : ℚ) : ℚ := k.a + x * (k.b + x * (k.c + x * k.d))

/-- The call operator `operator()(Float x)`: `none` when an assertion fails. -/
def evaluate (s : Spline) (x : ℚ) : Option ℚ :=
  if x < 0 then none
  else
    match s.c[indexOf s x]? with
    | some k => some (horner k x)
    | none => none

/-- How a call of `reverse` ends: it returns `x`, an assertion fails, or the fuel given to
the model of the `while(true)` loop is used up before the loop is left. -/
inductive Outcome where
  | value (x : ℚ)
  | failed
  | timeout
deriving DecidableEq, Repr

/-- The local variables of `reverse` that live across loop iterations. -/
structure Probes where
  x0 : ℚ
  y0 : ℚ
  x1 : ℚ
  y1 : ℚ
  x2 : ℚ
  y2 : ℚ
  counter : Nat
deriving DecidableEq, Repr

/-- Lines 188-190 with the value `x` holds when the loop is left: the final assertion
`x >= 0.0`, then `return x`. -/
def finish (x : ℚ) : Outcome := if 0 ≤ x then Outcome.value x else Outcome.failed

/-- Lines 162-186, the `while(true)` loop, run for at most `fuel` iterations.  The variable
`x` is `-1.0` until a `break` that follows `x = x1`. -/
def reverseLoop (s : Spline) (y : ℚ) : Nat → Probes → Outcome
  | 0, _ => Outcome.timeout
  | fuel + 1, p =>
    if p.y0 ≤ y ∧ y ≤ p.y1 then
      let x2 := p.x1
      let y2 := p.y1
      let x1 := 0.5 * (p.x0 + x2)
      match evaluate s x1 with
      | none => Outcome.failed
      | some y1 =>
        if |y1 - y| < epsilon then finish x1
        else if max_loops < p.counter then finish (-1.0)
        else reverseLoop s y fuel { p with x1 := x1, y1 := y1, x2 := x2, y2 := y2 }
    else if p.y1 < y ∧ y ≤ p.y2 then
      let x0 := p.x1
      let y0 := p.y1
      let x1 := 0.5 * (x0 + p.x2)
      match evaluate s x1 with
      | none => Outcome.failed
      | some y1 =>
        if |y1 - y| < epsilon then finish x1
        else if max_loops < p.counter then finish (-1.0)
        else reverseLoop s y fuel { p with x0 := x0, y0 := y0, x1 := x1, y1 := y1 }
    else
      let x1 := p.x1 * 0.5
      match evaluate s x1 with
      | none => Outcome.failed
      | some y1 =>
        let counter := p.counter + 1
        if max_loops < counter then finish (-1.0)
        else reverseLoop s y fuel { p with x1 := x1, y1 := y1, counter := counter }

/-- Lines 149-159: the three initial probes and their ordinates; `none` when one of the
three forward evaluations fails. -/
def initProbes (s : Spline) : Option Probes :=
  let dx := 1.0 / s.inv_dx
  let x0 : ℚ := 0.0
  match evaluate s x0 with
  | none => none
  | some y0 =>
    let x1 := (s.c.length : ℚ) * 0.5 * dx
    match evaluate s x1 with
    | none => none
    | some y1 =>
      let x2 := ((s.c.length - 1 : Nat) : ℚ) * dx
      match evaluate s x2 with
      | none => none
      | some y2 => some ⟨x0, y0, x1, y1, x2, y2, 0⟩

/-- The member function `reverse(Float y)`, its loop run with the given fuel. -/
def reverse (s : Spline) (y : ℚ) (fuel : Nat) : Outcome :=
  match initProbes s with
  | none => Outcome.failed
  | some p => reverseLoop s y fuel p

/-! ## Closed forms used in the proofs -/

/-- The coefficients lines 122-125 store for segment `i`, as a function of the two samples
`y0 = y[i]`, `y1 = y[i+1]` and the two derivative estimates `t0 = c[i].a`, `t1 = c[i+1].a`
read by that iteration. -/
def segment (dx : ℚ) (i : Nat) (y0 y1 t0 t1 : ℚ) : Coefficients :=
  let x0 := (i : ℚ) * dx
  let x1 := ((i + 1 : Nat) : ℚ) * dx
  let d := (-t0 * x0 - t1 * x0 + t0 * x1 + t1 * x1 + 2.0 * y0 - 2.0 * y1) / (dx * dx * dx)
  let c := (-t0 + t1 + 3.0 * d * (x0 * x0) - 3.0 * d * (x1 * x1)) / 2.0 / dx
  let b := (c * (x0 * x0) + d * (x0 * (x0 * x0)) - c * (x1 * x1) - d * (x1 * (x1 * x1))
      - y0 + y1) / dx
  ⟨y0 - b * x0 - c * (x0 * x0) - d * (x0 * (x0 * x0)), b, c, d⟩

/-- The first derivative `b + 2·c·x + 3·d·x²` of the cubic of one segment. -/
def hornerDeriv (k : Coefficients) (x : ℚ) : ℚ := k.b + 2 * k.c * x + 3 * k.d * x ^ 2

/-- The derivative estimate `t_i` of sample `i`: the content of `c[i].a` when the loop
that solves for the coefficients starts. -/
def tangent (dx : ℚ) (y : List ℚ) (past : Coefficients) (i : Nat) : ℚ :=
  ((estimateDerivatives dx y past).slot i).a

/-- The finite-difference slope `(y[j+1]-y[j]) / dx` of line 49. -/
def slope (dx : ℚ) (y : List ℚ) (j : Nat) : ℚ := (y.getD (j + 1) 0 - y.getD j 0) / dx

/-- The content of `c[j].b` during the derivative loop: the slope that follows sample `j`
for `j < points-1`, the extrapolated `z2` for `j = points-1` (computed on line 55 from
`c[points-2].b` and the still zero `c[points-1].b`), and foreign memory beyond. -/
def slopeB (dx : ℚ) (y : List ℚ) (past : Coefficients) (j : Nat) : ℚ :=
  if j + 1 < y.length then slope dx y j
  else if j + 1 = y.length then 2.0 * slope dx y (y.length - 2) - 0
  else past.b

/-- The value `d_1` of the derivative loop for sample `j` (`z1` for the first sample). -/
def prevSlope (dx : ℚ) (y : List ℚ) (past : Coefficients) (j : Nat) : ℚ :=
  if j = 0 then 2.0 * slope dx y 0 - slope dx y 1 else slopeB dx y past (j - 1)

/-- The value `d_2` of the derivative loop for sample `j` (`z0`, `z1` for the first two). -/
def prevSlope2 (dx : ℚ) (y : List ℚ) (past : Coefficients) (j : Nat) : ℚ :=
  if j = 0 then 2.0 * (2.0 * slope dx y 0 - slope dx y 1) - slope dx y 0
  else if j = 1 then 2.0 * slope dx y 0 - slope dx y 1
  else slopeB dx y past (j - 2)

/-- The weight `w1 = c[j].c` of the derivative loop for sample `j`. -/
def weight1 (dx : ℚ) (y : List ℚ) (past : Coefficients) (j : Nat) : ℚ :=
  if j + 1 = y.length then
    |(2.0 * (2.0 * slope dx y (y.length - 2) - 0) - 0) - (2.0 * slope dx y (y.length - 2) - 0)|
  else |slopeB dx y past (j + 1) - slopeB dx y past j|

/-- The weight `w0 = c[j].d` of the derivative loop for sample `j`. -/
def weight0 (dx : ℚ) (y : List ℚ) (past : Coefficients) (j : Nat) : ℚ :=
  |prevSlope dx y past j - prevSlope2 dx y past j|

/-- A bound on the slope of the cubic of one segment over `[0, X]`:
`|b| + 2·|c|·X + 3·|d|·X²`. -/
def segmentBound (k : Coefficients) (X : ℚ) : ℚ := |k.b| + 2 * |k.c| * X + 3 * |k.d| * X ^ 2

/-- A bound on the slope of every segment of an engine over `[0, X]`. -/
def slopeBound (s : Spline) (X : ℚ) : ℚ := (s.c.map (fun k => segmentBound k X)).sum

/-- The bracket invariant of the search for the target `t` on `[0, L]`: the probes are
ordered inside the domain, carry their ordinates, enclose the target between `y0` and
`y2`, and the recovery counter has not passed `max_loops`. -/
def Bracketed (s : Spline) (t L : ℚ) (p : Probes) : Prop :=
  0 ≤ p.x0 ∧ p.x0 ≤ p.x1 ∧ p.x1 ≤ p.x2 ∧ p.x2 ≤ L ∧
  evaluate s p.x0 = some p.y0 ∧ evaluate s p.x1 = some p.y1 ∧
  evaluate s p.x2 = some p.y2 ∧ p.y0 ≤ t ∧ t ≤ p.y2 ∧ p.counter ≤ max_loops

/-- The six values the derivative loop reads for one sample (lines 82-95). -/
structure DerivativeInputs where
  d_2 : ℚ
  d_1 : ℚ
  d0 : ℚ
  d1 : ℚ
  w0 : ℚ
  w1 : ℚ

/-- Lines 85-95: what the derivative loop reads for sample `i` from the buffer `c`, given
the extrapolated leading slopes `z0`, `z1`. -/
def derivativeInputs (z0 z1 : ℚ) (i : Nat) (c : Buffer) : DerivativeInputs :=
  { d_2 := if i = 0 then z0 else if i = 1 then z1 else (c (i - 2)).b
    d_1 := if i = 0 then z1 else (c (i - 1)).b
    d0 := (c i).b
    d1 := (c (i + 1)).b
    w0 := (c i).d
    w1 := (c i).c }

/-- The six values the builder's derivative loop reads for sample `i`: the loop leaves
`c[j].b`, `c[j].c`, `c[j].d` in place, so they are read off the buffer it returns, with
`z1 = 2.0*c[0].b - c[1].b` and `z0 = 2.0*z1 - c[0].b` as on lines 52-53. -/
def builderInputs (dx : ℚ) (y : List ℚ) (past : Coefficients) (i : Nat) : DerivativeInputs :=
  let c := estimateDerivatives dx y past
  let z1 := 2.0 * (c 0).b - (c 1).b
  let z0 := 2.0 * z1 - (c 0).b
  derivativeInputs z0 z1 i c

/-- The indices of `c` that the derivative loop reads for sample `i` (lines 85-95): those
of `d_2`, `d_1` (where they come from the array), `d1`, `d0`, `w1`, `w0`. -/
def derivativeReadIndices (i : Nat) : List Nat :=
  if i = 0 then [i + 1, i, i, i]
  else if i = 1 then [i - 1, i + 1, i, i, i]
  else [i - 2, i - 1, i + 1, i, i, i]

/-- Spec §4.1 steps 1-2, the slope sequence with its leading extrapolations: `m_k` for
`k ≥ 0` is the finite difference `(y[k+1]-y[k])/dx`, `m_{-1} = 2·m_0 - m_1` and
`m_{-2} = 2·m_{-1} - m_0`. -/
def specSlope (dx : ℚ) (y : List ℚ) (k : ℤ) : ℚ :=
  if k = -1 then 2 * slope dx y 0 - slope dx y 1
  else if k = -2 then 2 * (2 * slope dx y 0 - slope dx y 1) - slope dx y 0
  else slope dx y k.toNat

/-- Spec §4.1 step 3, the priority-ordered case table for the derivative estimate from
the four neighbouring slopes `m_{i-2}, m_{i-1}, m_i, m_{i+1}`, with the weights
`w1 = |m_{i+1} - m_i|` and `w0 = |m_{i-1} - m_{i-2}|`. -/
def specDerivative (m_2 m_1 m0 m1 : ℚ) : ℚ :=
  let w1 := |m1 - m0|
  let w0 := |m_1 - m_2|
  if m_2 = m_1 ∧ m0 ≠ m1 then m_1
  else if m0 = m1 ∧ m_2 = m_1 then m0
  else if m_1 = m0 then m0
  else if m_2 = m_1 ∧ m0 = m1 ∧ m0 ≠ m_1 then (1 / 2) * (m_1 + m0)
  else (m_1 * w1 + m0 * w0) / (w1 + w0)

/-- The abscissa at which one iteration of the search loop calls forward evaluation:
the midpoint of `(x0, x1)` in the first branch (line 166, after `x2 = x1`), the midpoint of
`(x1, x2)` in the second (line 174, after `x0 = x1`), half of `x1` in the recovery branch
(line 180). -/
def nextProbe (t : ℚ) (p : Probes) : ℚ :=
  if p.y0 ≤ t ∧ t ≤ p.y1 then 0.5 * (p.x0 + p.x1)
  else if p.y1 < t ∧ t ≤ p.y2 then 0.5 * (p.x1 + p.x2)
  else p.x1 * 0.5

/-- The local variables after one iteration of the search loop that does not leave the
loop, `v` being the ordinate evaluated at `nextProbe` (lines 163-183). -/
def stepProbes (t : ℚ) (p : Probes) (v : ℚ) : Probes :=
  if p.y0 ≤ t ∧ t ≤ p.y1 then
    { p with x1 := 0.5 * (p.x0 + p.x1), y1 := v, x2 := p.x1, y2 := p.y1 }
  else if p.y1 < t ∧ t ≤ p.y2 then
    { p with x0 := p.x1, y0 := p.y1, x1 := 0.5 * (p.x1 + p.x2), y1 := v }
  else { p with x1 := p.x1 * 0.5, y1 := v, counter := p.counter + 1 }

/-- The three abscissas of the search lie in `[0, L]`. -/
def InDomain (L : ℚ) (p : Probes) : Prop :=
  0 ≤ p.x0 ∧ p.x0 ≤ L ∧ 0 ≤ p.x1 ∧ p.x1 ≤ L ∧ 0 ≤ p.x2 ∧ p.x2 ≤ L

/-- Lines 98-106: the number, 1 to 5, of the case of the table that the `if`/`else if`
chain selects for the four slopes (5 is the final `else`, the weighted average). -/
def derivativeCase (d_2 d_1 d0 d1 : ℚ) : Nat :=
  if d_2 = d_1 ∧ d0 ≠ d1 then 1
  else if d0 = d1 ∧ d_2 = d_1 then 2
  else if d_1 = d0 then 3
  else if d_2 = d_1 ∧ d0 = d1 ∧ d0 ≠ d_1 then 4
  else 5

/-- Lines 99-107: the value the numbered case of the table assigns to `c[i].a`. -/
def caseValue (k : Nat) (d_1 d0 w0 w1 : ℚ) : ℚ :=
  if k = 1 then d_1
  else if k = 2 then d0
  else if k = 3 then d0
  else if k = 4 then 0.5 * (d_1 + d0)
  else (d_1 * w1 + d0 * w0) / (w1 + w0)

/-- Lines 163-185, one iteration of the search loop: the local variables it leaves for the
next iteration; `none` when it leaves the loop, through an accepted probe, the cap on the
counter, or a failed forward evaluation. -/
def loopStep (s : Spline) (t : ℚ) (p : Probes) : Option Probes :=
  match evaluate s (nextProbe t p) with
  | none => none
  | some v =>
    if ((p.y0 ≤ t ∧ t ≤ p.y1) ∨ (p.y1 < t ∧ t ≤ p.y2)) ∧ |v - t| < epsilon then none
    else if max_loops < (stepProbes t p v).counter then none
    else some (stepProbes t p v)

/-- Lines 162-186: the local variables after `k` iterations of the search loop none of
which left the loop; `none` when one of them leaves it. -/
def loopState (s : Spline) (t : ℚ) : Nat → Probes → Option Probes
  | 0, p => some p
  | k + 1, p => (loopStep s t p).bind (loopState s t k)

/-! ## The buffer operations -/

theorem setA_slot (c : Buffer) (i j : Nat) (v : ℚ) :
    (setA c i v).slot j = if j = i then { c.slot i with a := v } else c.slot j := rfl

theorem setB_slot (c : Buffer) (i j : Nat) (v : ℚ) :
    (setB c i v).slot j = if j = i then { c.slot i with b := v } else c.slot j := rfl

theorem setC_slot (c : Buffer) (i j : Nat) (v : ℚ) :
    (setC c i v).slot j = if j = i then { c.slot i with c := v } else c.slot j := rfl

theorem setD_slot (c : Buffer) (i j : Nat) (v : ℚ) :
    (setD c i v).slot j = if j = i then { c.slot i with d := v } else c.slot j := rfl

theorem forLoop_of_le {σ : Type} (lo hi : Nat) (body : Nat → σ → σ) (st : σ) (h : hi ≤ lo) :
    forLoop lo hi body st = st := by
  simp [forLoop, Nat.sub_eq_zero_of_le h]

theorem forLoop_succ {σ : Type} (lo hi : Nat) (body : Nat → σ → σ) (st : σ) (h : lo ≤ hi) :
    forLoop lo (hi + 1) body st = body hi (forLoop lo hi body st) := by
  have e : hi + 1 - lo = (hi - lo) + 1 := by omega
  simp [forLoop, e, List.range'_concat, List.foldl_append]
  congr 1
  omega

/-! ## The loop that solves for the coefficients -/

theorem solveStep_slot_self (dx : ℚ) (y : List ℚ) (i : Nat) (c : Buffer) :
    (solveStep dx y i c).slot i
      = segment dx i (y.getD i 0) (y.getD (i + 1) 0) (c.slot i).a (c.slot (i + 1)).a := by
  simp [solveStep, segment, setA_slot, setB_slot, setC_slot, setD_slot]

theorem solveStep_slot_other (dx : ℚ) (y : List ℚ) (i j : Nat) (c : Buffer) (h : j ≠ i) :
    (solveStep dx y i c).slot j = c.slot j := by
  simp [solveStep, h, setA_slot, setB_slot, setC_slot, setD_slot]

theorem solveLoop_slots (dx : ℚ) (y : List ℚ) (c : Buffer) (m : Nat) :
    (∀ j, m ≤ j → (forLoop 0 m (solveStep dx y) c).slot j = c.slot j) ∧
    (∀ i, i < m → (forLoop 0 m (solveStep dx y) c).slot i
      = segment dx i (y.getD i 0) (y.getD (i + 1) 0) (c.slot i).a (c.slot (i + 1)).a) := by
  induction m with
  | zero =>
    refine ⟨fun j _ => ?_, fun i hi => absurd hi (Nat.not_lt_zero i)⟩
    rw [forLoop_of_le 0 0 _ _ (Nat.le_refl 0)]
  | succ m ih =>
    obtain ⟨ihge, ihlt⟩ := ih
    rw [forLoop_succ 0 m _ _ (Nat.zero_le m)]
    constructor
    · intro j hj
      rw [solveStep_slot_other _ _ _ _ _ (by omega), ihge j (by omega)]
    · intro i hi
      rcases Nat.lt_succ_iff_lt_or_eq.mp hi with h | h
      · rw [solveStep_slot_other _ _ _ _ _ (by omega), ihlt i h]
      · subst h
        rw [solveStep_slot_self, ihge i (Nat.le_refl i), ihge (i + 1) (Nat.le_succ i)]

/-- Segment `i < points-1` of the finished buffer. -/
theorem fillBuffer_segment (dx : ℚ) (y : List ℚ) (past : Coefficients) (i : Nat)
    (hi : i + 1 < y.length) :
    (fillBuffer dx y past).slot i
      = segment dx i (y.getD i 0) (y.getD (i + 1) 0)
          (tangent dx y past i) (tangent dx y past (i + 1)) := by
  have hne : i ≠ y.length - 1 := by omega
  have h := (solveLoop_slots dx y (estimateDerivatives dx y past) (y.length - 1)).2 i
    (by omega)
  simp [fillBuffer, solveLoop, hne, h, tangent, setA_slot, setB_slot, setC_slot, setD_slot]

/-- The last segment of the finished buffer is the constant `y[points-1]`. -/
theorem fillBuffer_last (dx : ℚ) (y : List ℚ) (past : Coefficients) :
    (fillBuffer dx y past).slot (y.length - 1) = ⟨y.getD (y.length - 1) 0, 0, 0, 0⟩ := by
  simp [fillBuffer, setA_slot, setB_slot, setC_slot, setD_slot]
  norm_num

/-! ## The built engine and forward evaluation -/

theorem build_eq_some_iff (dx : ℚ) (y : List ℚ) (past : Coefficients) (s : Spline) :
    build dx y past = some s ↔ 0 < dx ∧ 3 < y.length ∧ s = construct dx y past := by
  unfold build min_size
  by_cases h : 0 < dx ∧ 3 < y.length
  · rw [if_pos h]
    constructor
    · intro e
      exact ⟨h.1, h.2, (Option.some.inj e).symm⟩
    · rintro ⟨-, -, e⟩
      rw [e]
  · rw [if_neg h]
    constructor
    · intro e
      cases e
    · rintro ⟨h1, h2, -⟩
      exact absurd ⟨h1, h2⟩ h

theorem construct_length (dx : ℚ) (y : List ℚ) (past : Coefficients) :
    (construct dx y past).c.length = y.length := by
  simp [construct]

theorem construct_get (dx : ℚ) (y : List ℚ) (past : Coefficients) (i : Nat)
    (hi : i < y.length) :
    (construct dx y past).c[i]? = some ((fillBuffer dx y past).slot i) := by
  simp [construct, List.getElem?_range hi]

theorem construct_get_none (dx : ℚ) (y : List ℚ) (past : Coefficients) (i : Nat)
    (hi : y.length ≤ i) : (construct dx y past).c[i]? = none := by
  simp [construct, hi]

/-- The range of `size_t` for a built engine. -/
theorem construct_sizeRange (dx : ℚ) (y : List ℚ) (past : Coefficients) :
    sizeRange (construct dx y past) = max (2 ^ 64) (y.length + 1) := by
  unfold sizeRange
  rw [construct_length]

/-- The product `x * inv_dx` of a built engine is `x / dx`. -/
theorem construct_product (dx : ℚ) (y : List ℚ) (past : Coefficients) (x : ℚ) :
    x * (construct dx y past).inv_dx = x / dx := by
  simp [construct, div_eq_mul_inv]

/-- The index computed for `x` by a built engine: `floor(x / dx)`, when `size_t` holds
it. -/
theorem construct_indexOf (dx : ℚ) (y : List ℚ) (past : Coefficients) (x : ℚ)
    (h : Int.toNat ⌊x / dx⌋ < max (2 ^ 64) (y.length + 1)) :
    indexOf (construct dx y past) x = Int.toNat ⌊x / dx⌋ := by
  unfold indexOf
  rw [construct_sizeRange, construct_product, if_pos h]

/-- The index a built engine computes when the product is beyond the range of `size_t`. -/
theorem construct_indexOf_wide (dx : ℚ) (y : List ℚ) (past : Coefficients) (x : ℚ)
    (h : max (2 ^ 64) (y.length + 1) ≤ Int.toNat ⌊x / dx⌋) :
    indexOf (construct dx y past) x = 0 := by
  unfold indexOf
  rw [construct_sizeRange, construct_product, if_neg (by omega)]

/-- For `i·dx ≤ x < (i+1)·dx`, `i` an index of the table, the index is `i`. -/
theorem construct_indexOf_eq (dx : ℚ) (y : List ℚ) (past : Coefficients) (x : ℚ) (i : Nat)
    (hdx : 0 < dx) (hi : i < y.length) (h0 : (i : ℚ) * dx ≤ x)
    (h1 : x < ((i : ℚ) + 1) * dx) :
    indexOf (construct dx y past) x = i := by
  have hf : ⌊x / dx⌋ = (i : ℤ) := by
    rw [Int.floor_eq_iff]
    constructor
    · rw [le_div_iff₀ hdx]
      exact_mod_cast h0
    · rw [div_lt_iff₀ hdx]
      exact_mod_cast h1
  have ht : Int.toNat ⌊x / dx⌋ = i := by
    rw [hf]
    exact Int.toNat_natCast i
  have hlt : Int.toNat ⌊x / dx⌋ < max (2 ^ 64) (y.length + 1) := by
    rw [ht]
    exact lt_of_lt_of_le (Nat.lt_succ_of_lt hi) (le_max_right _ _)
  rw [construct_indexOf dx y past x hlt, ht]

theorem horner_eq (k : Coefficients) (x : ℚ) :
    horner k x = k.a + k.b * x + k.c * x ^ 2 + k.d * x ^ 3 := by
  unfold horner
  ring

/-- Forward evaluation of a built engine on the cell `[i·dx, (i+1)·dx)`. -/
theorem evaluate_construct (dx : ℚ) (y : List ℚ) (past : Coefficients) (x : ℚ) (i : Nat)
    (hdx : 0 < dx) (hi : i < y.length) (h0 : (i : ℚ) * dx ≤ x)
    (h1 : x < ((i : ℚ) + 1) * dx) :
    evaluate (construct dx y past) x = some (horner ((fillBuffer dx y past).slot i) x) := by
  have hx : ¬ x < 0 := not_lt.mpr (le_trans (by positivity) h0)
  unfold evaluate
  rw [if_neg hx, construct_indexOf_eq dx y past x i hdx hi h0 h1, construct_get dx y past i hi]

/-! ## The four Hermite conditions of a segment -/

theorem segment_value_left (dx : ℚ) (i : Nat) (y0 y1 t0 t1 : ℚ) :
    horner (segment dx i y0 y1 t0 t1) ((i : ℚ) * dx) = y0 := by
  simp only [horner, segment]
  ring

theorem segment_value_right (dx : ℚ) (i : Nat) (y0 y1 t0 t1 : ℚ) (hdx : dx ≠ 0) :
    horner (segment dx i y0 y1 t0 t1) (((i : ℚ) + 1) * dx) = y1 := by
  simp only [horner, segment, Nat.cast_add, Nat.cast_one]
  field_simp
  ring

theorem segment_deriv_left (dx : ℚ) (i : Nat) (y0 y1 t0 t1 : ℚ) (hdx : dx ≠ 0) :
    hornerDeriv (segment dx i y0 y1 t0 t1) ((i : ℚ) * dx) = t0 := by
  simp only [hornerDeriv, segment, Nat.cast_add, Nat.cast_one]
  field_simp
  ring

theorem segment_deriv_right (dx : ℚ) (i : Nat) (y0 y1 t0 t1 : ℚ) (hdx : dx ≠ 0) :
    hornerDeriv (segment dx i y0 y1 t0 t1) (((i : ℚ) + 1) * dx) = t1 := by
  simp only [hornerDeriv, segment, Nat.cast_add, Nat.cast_one]
  field_simp
  ring

/-! ## C1: interpolation exactness -/

/-- C1: for a built engine (`dx > 0`, more than 3 samples) and every sample index
`i < n-1`, the index computed for `x = i·dx` is `i` and forward evaluation at `i·dx`
returns exactly `y[i]`. -/
theorem interpolation_exact (dx : ℚ) (y : List ℚ) (past : Coefficients) (s : Spline)
    (i : Nat) (hb : build dx y past = some s) (hi : i + 1 < y.length) :
    indexOf s ((i : ℚ) * dx) = i ∧ evaluate s ((i : ℚ) * dx) = some (y.getD i 0) := by
  obtain ⟨hdx, -, rfl⟩ := (build_eq_some_iff dx y past s).mp hb
  have h1 : (i : ℚ) * dx < ((i : ℚ) + 1) * dx := by nlinarith
  refine ⟨construct_indexOf_eq dx y past _ i hdx (by omega) le_rfl h1, ?_⟩
  rw [evaluate_construct dx y past _ i hdx (by omega) le_rfl h1,
    fillBuffer_segment dx y past i hi, segment_value_left]

/-! ## C2: continuity at the interior knots -/

/-- C2: for a built engine and every `i < n-2`, the segments `i` and `i+1` agree at the
shared knot `x = (i+1)·dx` in value and in first derivative `b + 2·c·x + 3·d·x²`. -/
theorem knot_continuity (dx : ℚ) (y : List ℚ) (past : Coefficients) (s : Spline)
    (i : Nat) (hb : build dx y past = some s) (hi : i + 2 < y.length) :
    ∃ p q : Coefficients, s.c[i]? = some p ∧ s.c[i + 1]? = some q ∧
      horner p (((i : ℚ) + 1) * dx) = horner q (((i : ℚ) + 1) * dx) ∧
      hornerDeriv p (((i : ℚ) + 1) * dx) = hornerDeriv q (((i : ℚ) + 1) * dx) := by
  obtain ⟨hdx, -, rfl⟩ := (build_eq_some_iff dx y past s).mp hb
  have hne : dx ≠ 0 := ne_of_gt hdx
  refine ⟨_, _, construct_get dx y past i (by omega),
    construct_get dx y past (i + 1) (by omega), ?_, ?_⟩
  · rw [fillBuffer_segment dx y past i (by omega),
      fillBuffer_segment dx y past (i + 1) (by omega), segment_value_right _ _ _ _ _ _ hne]
    have h := segment_value_left dx (i + 1) (y.getD (i + 1) 0) (y.getD (i + 1 + 1) 0)
      (tangent dx y past (i + 1)) (tangent dx y past (i + 1 + 1))
    rw [Nat.cast_add, Nat.cast_one] at h
    exact h.symm
  · rw [fillBuffer_segment dx y past i (by omega),
      fillBuffer_segment dx y past (i + 1) (by omega), segment_deriv_right _ _ _ _ _ _ hne]
    have h := segment_deriv_left dx (i + 1) (y.getD (i + 1) 0) (y.getD (i + 1 + 1) 0)
      (tangent dx y past (i + 1)) (tangent dx y past (i + 1 + 1)) hne
    rw [Nat.cast_add, Nat.cast_one] at h
    exact h.symm

theorem build_construct (dx : ℚ) (y : List ℚ) (past : Coefficients) (hdx : 0 < dx)
    (hn : 3 < y.length) : build dx y past = some (construct dx y past) :=
  (build_eq_some_iff dx y past _).mpr ⟨hdx, hn, rfl⟩

/-- C1 at `y = [10, 9, 8, 7, 6]`, `dx = 1`, sample `i = 2`. -/
theorem interpolation_exact_witness :
    indexOf (construct 1 [10, 9, 8, 7, 6] ⟨0, 0, 0, 0⟩) (((2 : Nat) : ℚ) * 1) = 2 ∧
    evaluate (construct 1 [10, 9, 8, 7, 6] ⟨0, 0, 0, 0⟩) (((2 : Nat) : ℚ) * 1)
      = some ([10, 9, 8, 7, 6].getD 2 0) :=
  interpolation_exact 1 [10, 9, 8, 7, 6] ⟨0, 0, 0, 0⟩ _ 2
    (build_construct 1 _ _ (by norm_num) (by simp)) (by simp)

/-- C2 at `y = [10, 9, 8, 7, 6]`, `dx = 1`, knot `i + 1 = 2`. -/
theorem knot_continuity_witness :
    ∃ p q : Coefficients, (construct 1 [10, 9, 8, 7, 6] ⟨0, 0, 0, 0⟩).c[1]? = some p ∧
      (construct 1 [10, 9, 8, 7, 6] ⟨0, 0, 0, 0⟩).c[1 + 1]? = some q ∧
      horner p ((((1 : Nat) : ℚ) + 1) * 1) = horner q ((((1 : Nat) : ℚ) + 1) * 1) ∧
      hornerDeriv p ((((1 : Nat) : ℚ) + 1) * 1) = hornerDeriv q ((((1 : Nat) : ℚ) + 1) * 1) :=
  knot_continuity 1 [10, 9, 8, 7, 6] ⟨0, 0, 0, 0⟩ _ 1
    (build_construct 1 _ _ (by norm_num) (by simp)) (by simp)

/-! ## C7: the preconditions of the builder -/

/-- C7: building succeeds if and only if `dx > 0` and the number of samples exceeds 3
(so 4 samples are enough, 3 or fewer fail, and `dx ≤ 0` fails). -/
theorem build_succeeds_iff (dx : ℚ) (y : List ℚ) (past : Coefficients) :
    (build dx y past).isSome ↔ 0 < dx ∧ 3 < y.length := by
  unfold build min_size
  by_cases h : 0 < dx ∧ 3 < y.length
  · simp [h]
  · simp only [if_neg h, Option.isSome_none]
    exact ⟨fun e => absurd e (by decide), fun e => absurd e h⟩

/-! ## C8: forward evaluation -/

theorem evaluate_isSome_iff (s : Spline) (x : ℚ) :
    (evaluate s x).isSome ↔ 0 ≤ x ∧ indexOf s x < s.c.length := by
  unfold evaluate
  by_cases hx : x < 0
  · simp [hx]
  · rw [if_neg hx]
    by_cases hi : indexOf s x < s.c.length
    · simp [List.getElem?_eq_getElem hi, hi, not_lt.mp hx]
    · simp [List.getElem?_eq_none (not_lt.mp hi), hi]

theorem evaluate_eq_some (s : Spline) (x v : ℚ) (h : evaluate s x = some v) :
    ∃ k, s.c[indexOf s x]? = some k ∧ v = horner k x := by
  unfold evaluate at h
  by_cases hx : x < 0
  · simp [hx] at h
  · rw [if_neg hx] at h
    cases hk : s.c[indexOf s x]? with
    | none => simp [hk] at h
    | some k =>
      rw [hk] at h
      exact ⟨k, rfl, (Option.some.inj h).symm⟩

/-- Forward evaluation of a built engine where the conversion of line 138 is defined, that
is for a product `x·inv_dx` below `2^64`: `evaluate x` succeeds if and only if `x ≥ 0` and
`floor(x·inv_dx) < n`; it fails for `x < 0`, and otherwise returns
`a + x·(b + x·(c + x·d))` for the coefficients of the segment with index `floor(x·inv_dx)`
(when there is one), which is `a + b·x + c·x² + d·x³`. -/
theorem evaluate_in_range (dx : ℚ) (y : List ℚ) (past : Coefficients) (s : Spline) (x : ℚ)
    (hb : build dx y past = some s) (hr : x * s.inv_dx < 2 ^ 64) :
    ((evaluate s x).isSome ↔ 0 ≤ x ∧ ⌊x * s.inv_dx⌋ < (y.length : ℤ)) ∧
    evaluate s x = (if x < 0 then none else
      (s.c[Int.toNat ⌊x * s.inv_dx⌋]?).map
        (fun k => k.a + x * (k.b + x * (k.c + x * k.d)))) ∧
    evaluate s x = (if x < 0 then none else
      (s.c[Int.toNat ⌊x * s.inv_dx⌋]?).map
        (fun k => k.a + k.b * x + k.c * x ^ 2 + k.d * x ^ 3)) := by
  obtain ⟨hdx, -, rfl⟩ := (build_eq_some_iff dx y past s).mp hb
  have hfl : ⌊x * (construct dx y past).inv_dx⌋ < (2 : ℤ) ^ 64 := by
    rw [Int.floor_lt]
    exact_mod_cast hr
  have hidx : indexOf (construct dx y past) x
      = Int.toNat ⌊x * (construct dx y past).inv_dx⌋ := by
    unfold indexOf
    rw [if_pos]
    refine lt_of_lt_of_le ?_ (le_max_left _ _)
    exact (Int.toNat_lt' (by norm_num)).mpr (by exact_mod_cast hfl)
  have hev : ∀ g : Coefficients → ℚ, (∀ k, horner k x = g k) →
      evaluate (construct dx y past) x = (if x < 0 then none else
        ((construct dx y past).c[Int.toNat ⌊x * (construct dx y past).inv_dx⌋]?).map g) := by
    intro g hg
    unfold evaluate
    rw [hidx]
    by_cases hx : x < 0
    · rw [if_pos hx, if_pos hx]
    · rw [if_neg hx, if_neg hx]
      cases (construct dx y past).c[Int.toNat ⌊x * (construct dx y past).inv_dx⌋]? with
      | none => rfl
      | some k => simp [hg k]
  refine ⟨?_, hev _ (fun k => rfl), hev _ (fun k => horner_eq k x)⟩
  rw [evaluate_isSome_iff, construct_length, hidx]
  constructor
  · rintro ⟨hx, hi⟩
    refine ⟨hx, ?_⟩
    have := Int.self_le_toNat ⌊x * (construct dx y past).inv_dx⌋
    have hi2 : ((Int.toNat ⌊x * (construct dx y past).inv_dx⌋ : Nat) : ℤ)
        < (y.length : ℤ) := by
      exact_mod_cast hi
    exact lt_of_le_of_lt this hi2
  · rintro ⟨hx, hi⟩
    refine ⟨hx, ?_⟩
    have hinv : 0 ≤ (construct dx y past).inv_dx := by
      simp only [construct]
      positivity
    have h0 : 0 ≤ ⌊x * (construct dx y past).inv_dx⌋ :=
      Int.floor_nonneg.mpr (mul_nonneg hx hinv)
    exact (Int.toNat_lt h0).mpr hi

/-! ## Field-wise view of the buffer operations -/

@[simp] theorem setA_a (c : Buffer) (i j : Nat) (v : ℚ) :
    ((setA c i v).slot j).a = if j = i then v else (c.slot j).a := by
  rw [setA_slot]; split <;> rfl

@[simp] theorem setA_b (c : Buffer) (i j : Nat) (v : ℚ) :
    ((setA c i v).slot j).b = (c.slot j).b := by
  rw [setA_slot]; split
  · next h => rw [h]
  · rfl

@[simp] theorem setA_c (c : Buffer) (i j : Nat) (v : ℚ) :
    ((setA c i v).slot j).c = (c.slot j).c := by
  rw [setA_slot]; split
  · next h => rw [h]
  · rfl

@[simp] theorem setA_d (c : Buffer) (i j : Nat) (v : ℚ) :
    ((setA c i v).slot j).d = (c.slot j).d := by
  rw [setA_slot]; split
  · next h => rw [h]
  · rfl

@[simp] theorem setB_a (c : Buffer) (i j : Nat) (v : ℚ) :
    ((setB c i v).slot j).a = (c.slot j).a := by
  rw [setB_slot]; split
  · next h => rw [h]
  · rfl

@[simp] theorem setB_b (c : Buffer) (i j : Nat) (v : ℚ) :
    ((setB c i v).slot j).b = if j = i then v else (c.slot j).b := by
  rw [setB_slot]; split <;> rfl

@[simp] theorem setB_c (c : Buffer) (i j : Nat) (v : ℚ) :
    ((setB c i v).slot j).c = (c.slot j).c := by
  rw [setB_slot]; split
  · next h => rw [h]
  · rfl

@[simp] theorem setB_d (c : Buffer) (i j : Nat) (v : ℚ) :
    ((setB c i v).slot j).d = (c.slot j).d := by
  rw [setB_slot]; split
  · next h => rw [h]
  · rfl

@[simp] theorem setC_a (c : Buffer) (i j : Nat) (v : ℚ) :
    ((setC c i v).slot j).a = (c.slot j).a := by
  rw [setC_slot]; split
  · next h => rw [h]
  · rfl

@[simp] theorem setC_b (c : Buffer) (i j : Nat) (v : ℚ) :
    ((setC c i v).slot j).b = (c.slot j).b := by
  rw [setC_slot]; split
  · next h => rw [h]
  · rfl

@[simp] theorem setC_c (c : Buffer) (i j : Nat) (v : ℚ) :
    ((setC c i v).slot j).c = if j = i then v else (c.slot j).c := by
  rw [setC_slot]; split <;> rfl

@[simp] theorem setC_d (c : Buffer) (i j : Nat) (v : ℚ) :
    ((setC c i v).slot j).d = (c.slot j).d := by
  rw [setC_slot]; split
  · next h => rw [h]
  · rfl

@[simp] theorem setD_a (c : Buffer) (i j : Nat) (v : ℚ) :
    ((setD c i v).slot j).a = (c.slot j).a := by
  rw [setD_slot]; split
  · next h => rw [h]
  · rfl

@[simp] theorem setD_b (c : Buffer) (i j : Nat) (v : ℚ) :
    ((setD c i v).slot j).b = (c.slot j).b := by
  rw [setD_slot]; split
  · next h => rw [h]
  · rfl

@[simp] theorem setD_c (c : Buffer) (i j : Nat) (v : ℚ) :
    ((setD c i v).slot j).c = (c.slot j).c := by
  rw [setD_slot]; split
  · next h => rw [h]
  · rfl

@[simp] theorem setD_d (c : Buffer) (i j : Nat) (v : ℚ) :
    ((setD c i v).slot j).d = if j = i then v else (c.slot j).d := by
  rw [setD_slot]; split <;> rfl

/-! ## The loops of the derivative estimation -/

/-- An invariant of the loop body is an invariant of the loop. -/
theorem forLoop_invariant {σ : Type} (P : σ → Prop) (lo : Nat) (body : Nat → σ → σ) (st : σ)
    (h0 : P st) (hstep : ∀ i s, P s → P (body i s)) (hi : Nat) :
    P (forLoop lo hi body st) := by
  induction hi with
  | zero => rw [forLoop_of_le lo 0 _ _ (Nat.zero_le lo)]; exact h0
  | succ m ih =>
    by_cases h : lo ≤ m
    · rw [forLoop_succ lo m _ _ h]; exact hstep _ _ ih
    · rw [forLoop_of_le lo (m + 1) _ _ (by omega)]; exact h0

/-- Lines 47-50 store the slopes in `c[j].b`, `j < points-1`, and touch nothing else. -/
theorem slopeLoop_b (dx : ℚ) (y : List ℚ) (c : Buffer) (m j : Nat) :
    ((forLoop 0 m (fun i c => setB c i ((y.getD (i + 1) 0 - y.getD i 0) / dx)) c).slot j).b
      = if j < m then slope dx y j else (c.slot j).b := by
  induction m with
  | zero => rw [forLoop_of_le 0 0 _ _ (Nat.le_refl 0)]; simp
  | succ m ih =>
    rw [forLoop_succ 0 m _ _ (Nat.zero_le m), setB_b, ih]
    by_cases h : j = m
    · subst h; simp [slope]
    · by_cases h2 : j < m
      · simp [h, h2, Nat.lt_succ_of_lt h2]
      · have h3 : ¬ j < m + 1 := by omega
        simp [h, h2, h3]

/-- The loop of lines 60-65 leaves the slopes in place. -/
theorem weightLoop_b (points : Nat) (c : Buffer) (j : Nat) :
    ((weightLoop points c).slot j).b = (c.slot j).b := by
  unfold weightLoop
  exact forLoop_invariant (fun s => (s.slot j).b = (c.slot j).b) 2 _ c rfl
    (fun i s hs => by simp [weightStep, hs]) (points - 2)

/-- The weight `c[j].c` after the loop of lines 60-65. -/
theorem weightLoop_c (c : Buffer) (m j : Nat) :
    ((forLoop 2 m weightStep c).slot j).c
      = if 2 ≤ j ∧ j < m then |(c.slot (j + 1)).b - (c.slot j).b| else (c.slot j).c := by
  induction m with
  | zero => rw [forLoop_of_le 2 0 _ _ (by omega)]; simp
  | succ m ih =>
    by_cases hm : 2 ≤ m
    · rw [forLoop_succ 2 m _ _ hm]
      have hb : ∀ k, ((forLoop 2 m weightStep c).slot k).b = (c.slot k).b :=
        fun k => forLoop_invariant (fun s => (s.slot k).b = (c.slot k).b) 2 _ c rfl
          (fun i s hs => by simp [weightStep, hs]) m
      simp only [weightStep, setD_c, setC_c, ih, hb]
      by_cases h : j = m
      · subst h; simp [hm]
      · by_cases h2 : j < m
        · simp [h, h2, Nat.lt_succ_of_lt h2]
        · have h3 : ¬ j < m + 1 := by omega
          simp [h, h2, h3]
    · rw [forLoop_of_le 2 (m + 1) _ _ (by omega)]
      have : ¬ (2 ≤ j ∧ j < m + 1) := by omega
      simp [this]

/-- The weight `c[j].d` after the loop of lines 60-65. -/
theorem weightLoop_d (c : Buffer) (m j : Nat) :
    ((forLoop 2 m weightStep c).slot j).d
      = if 2 ≤ j ∧ j < m then |(c.slot (j - 1)).b - (c.slot (j - 2)).b|
        else (c.slot j).d := by
  induction m with
  | zero => rw [forLoop_of_le 2 0 _ _ (by omega)]; simp
  | succ m ih =>
    by_cases hm : 2 ≤ m
    · rw [forLoop_succ 2 m _ _ hm]
      have hb : ∀ k, ((forLoop 2 m weightStep c).slot k).b = (c.slot k).b :=
        fun k => forLoop_invariant (fun s => (s.slot k).b = (c.slot k).b) 2 _ c rfl
          (fun i s hs => by simp [weightStep, hs]) m
      simp only [weightStep, setD_d, setC_d, setC_b, ih, hb]
      by_cases h : j = m
      · subst h; simp [hm]
      · by_cases h2 : j < m
        · simp [h, h2, Nat.lt_succ_of_lt h2]
        · have h3 : ¬ j < m + 1 := by omega
          simp [h, h2, h3]
    · rw [forLoop_of_le 2 (m + 1) _ _ (by omega)]
      have : ¬ (2 ≤ j ∧ j < m + 1) := by omega
      simp [this]

/-- The derivative loop leaves `c[j].b`, `c[j].c` and `c[j].d` in place. -/
theorem derivativeLoop_bcd (z0 z1 : ℚ) (c : Buffer) (m j : Nat) :
    ((forLoop 0 m (derivativeStep z0 z1) c).slot j).b = (c.slot j).b ∧
    ((forLoop 0 m (derivativeStep z0 z1) c).slot j).c = (c.slot j).c ∧
    ((forLoop 0 m (derivativeStep z0 z1) c).slot j).d = (c.slot j).d :=
  forLoop_invariant (fun s => (s.slot j).b = (c.slot j).b ∧ (s.slot j).c = (c.slot j).c ∧
      (s.slot j).d = (c.slot j).d) 0 _ c ⟨rfl, rfl, rfl⟩
    (fun i s hs => by simpa [derivativeStep] using hs) m

/-- The derivative estimate `c[j].a` after the loop of lines 81-108. -/
theorem derivativeLoop_a (z0 z1 : ℚ) (c : Buffer) (m j : Nat) :
    ((forLoop 0 m (derivativeStep z0 z1) c).slot j).a
      = if j < m then
          derivative (if j = 0 then z0 else if j = 1 then z1 else (c.slot (j - 2)).b)
            (if j = 0 then z1 else (c.slot (j - 1)).b) (c.slot j).b (c.slot (j + 1)).b
            (c.slot j).d (c.slot j).c
        else (c.slot j).a := by
  induction m with
  | zero => rw [forLoop_of_le 0 0 _ _ (Nat.le_refl 0)]; simp
  | succ m ih =>
    rw [forLoop_succ 0 m _ _ (Nat.zero_le m)]
    have hb := fun k => (derivativeLoop_bcd z0 z1 c m k).1
    have hc := fun k => (derivativeLoop_bcd z0 z1 c m k).2.1
    have hd := fun k => (derivativeLoop_bcd z0 z1 c m k).2.2
    simp only [derivativeStep, setA_a, ih, hb, hc, hd]
    by_cases h : j = m
    · subst h; simp
    · by_cases h2 : j < m
      · simp [h, h2, Nat.lt_succ_of_lt h2]
      · have h3 : ¬ j < m + 1 := by omega
        simp [h, h2, h3]

/-- The loop of lines 60-65 leaves the slopes in place (loop form). -/
theorem weightSteps_b (c : Buffer) (m j : Nat) :
    ((forLoop 2 m weightStep c).slot j).b = (c.slot j).b :=
  forLoop_invariant (fun s => (s.slot j).b = (c.slot j).b) 2 _ c rfl
    (fun i s hs => by simp [weightStep, hs]) m

/-- The content of `c[k].b` after lines 47-50, starting from the fresh buffer. -/
theorem slopeLoop_init_b (dx : ℚ) (y : List ℚ) (past : Coefficients) (m k : Nat) :
    ((forLoop 0 (m + 3) (fun i c => setB c i ((y.getD (i + 1) 0 - y.getD i 0) / dx))
        (initBuffer (m + 4) past)).slot k).b
      = if k < m + 3 then slope dx y k else if k < m + 4 then 0 else past.b := by
  rw [slopeLoop_b]
  by_cases h : k < m + 3
  · simp [h]
  · by_cases h2 : k < m + 4
    · simp [h, h2, initBuffer]
    · simp [h, h2, initBuffer]

/-- The derivative estimate of sample `j` in closed form: the case table of lines 97-107
applied to the slopes and weights the builder holds for sample `j`. -/
theorem tangent_eq (dx : ℚ) (y : List ℚ) (past : Coefficients) (j : Nat)
    (hn : 3 < y.length) (hj : j < y.length) :
    tangent dx y past j
      = derivative (prevSlope2 dx y past j) (prevSlope dx y past j) (slopeB dx y past j)
          (slopeB dx y past (j + 1)) (weight0 dx y past j) (weight1 dx y past j) := by
  obtain ⟨m, hm⟩ : ∃ m, y.length = m + 4 := ⟨y.length - 4, by omega⟩
  unfold tangent estimateDerivatives
  simp only [derivativeLoop, derivativeLoop_a, if_pos hj, weightLoop, slopeLoop]
  simp only [hm, Nat.add_sub_cancel, show m + 4 - 1 = m + 3 from rfl, show m + 4 - 2 = m + 2 from rfl,
    show m + 4 - 3 = m + 1 from rfl]
  simp only [setD_b, setC_b, setD_c, setC_c, setD_d, setC_d, weightSteps_b, weightLoop_c, weightLoop_d, setB_b, setB_c, setB_d, slopeLoop_init_b]
  unfold prevSlope2 prevSlope slopeB weight0 weight1 prevSlope prevSlope2 slopeB
  simp only [hm, Nat.add_sub_cancel, show m + 4 - 1 = m + 3 from rfl, show m + 4 - 2 = m + 2 from rfl,
    show m + 4 - 3 = m + 1 from rfl]
  rw [hm] at hj
  by_cases h0 : j = 0
  · subst h0
    simp
  by_cases h1 : j = 1
  · subst h1
    simp
  by_cases h2 : j = m + 3
  · subst h2
    simp
  by_cases h3 : j = m + 2
  · subst h3
    simp
  have f1 : 2 ≤ j ∧ j < m + 2 := by omega
  have f2 : j - 2 < m + 3 := by omega
  have f3 : j - 1 < m + 3 := by omega
  have f4 : j < m + 3 := by omega
  have f5 : j + 1 < m + 3 := by omega
  have f6 : j - 2 ≠ m + 3 := by omega
  have f7 : j - 1 ≠ m + 3 := by omega
  have f8 : j + 1 ≠ m + 3 := by omega
  have f9 : j - 2 + 1 < m + 4 := by omega
  have f10 : j - 1 + 1 < m + 4 := by omega
  have f11 : j + 1 < m + 4 := by omega
  have f12 : j + 1 + 1 < m + 4 := by omega
  have f13 : j + 1 ≠ m + 4 := by omega
  simp [h0, h1, h2, h3, f1, f2, f3, f4, f5, f6, f7, f8, f9, f10, f11, f12, f13]

/-! ## Samples on a line -/

/-- Every non-negative abscissa lies in exactly one grid cell `[i·dx, (i+1)·dx)`. -/
theorem exists_cell (dx x : ℚ) (hdx : 0 < dx) (hx : 0 ≤ x) :
    ∃ i : Nat, (i : ℚ) * dx ≤ x ∧ x < ((i : ℚ) + 1) * dx := by
  refine ⟨Int.toNat ⌊x / dx⌋, ?_, ?_⟩
  · have h0 : 0 ≤ ⌊x / dx⌋ := Int.floor_nonneg.mpr (div_nonneg hx hdx.le)
    have hc : ((Int.toNat ⌊x / dx⌋ : Nat) : ℚ) = ((⌊x / dx⌋ : ℤ) : ℚ) := by
      exact_mod_cast congrArg (fun z : ℤ => (z : ℚ)) (Int.toNat_of_nonneg h0)
    rw [hc]
    have := Int.floor_le (x / dx)
    calc ((⌊x / dx⌋ : ℤ) : ℚ) * dx ≤ x / dx * dx := by nlinarith
      _ = x := div_mul_cancel₀ x (ne_of_gt hdx)
  · have h0 : 0 ≤ ⌊x / dx⌋ := Int.floor_nonneg.mpr (div_nonneg hx hdx.le)
    have hc : ((Int.toNat ⌊x / dx⌋ : Nat) : ℚ) = ((⌊x / dx⌋ : ℤ) : ℚ) := by
      exact_mod_cast congrArg (fun z : ℤ => (z : ℚ)) (Int.toNat_of_nonneg h0)
    rw [hc]
    have := Int.lt_floor_add_one (x / dx)
    calc x = x / dx * dx := (div_mul_cancel₀ x (ne_of_gt hdx)).symm
      _ < (((⌊x / dx⌋ : ℤ) : ℚ) + 1) * dx := by nlinarith

/-- The slopes of samples on a line: every real slope is `β`. -/
theorem slope_linear (dx α β : ℚ) (y : List ℚ) (j : Nat) (hdx : dx ≠ 0)
    (hy : ∀ i, i < y.length → y.getD i 0 = α + β * ((i : ℚ) * dx)) (hj : j + 1 < y.length) :
    slope dx y j = β := by
  unfold slope
  rw [hy j (by omega), hy (j + 1) hj]
  push_cast
  field_simp
  ring

theorem derivative_flat (a d1 w0 w1 : ℚ) : derivative a a a d1 w0 w1 = a := by
  unfold derivative
  by_cases h : a = d1
  · simp [h]
  · simp [h]

theorem derivative_prev (a d0 d1 w0 w1 : ℚ) (h : d0 ≠ d1) :
    derivative a a d0 d1 w0 w1 = a := by
  unfold derivative
  simp [h]

theorem slopeB_linear (dx α β : ℚ) (y : List ℚ) (past : Coefficients) (j : Nat) (hdx : dx ≠ 0)
    (hy : ∀ i, i < y.length → y.getD i 0 = α + β * ((i : ℚ) * dx)) (hj : j + 1 < y.length) :
    slopeB dx y past j = β := by
  unfold slopeB
  rw [if_pos hj, slope_linear dx α β y j hdx hy hj]

theorem prevSlope_linear (dx α β : ℚ) (y : List ℚ) (past : Coefficients) (j : Nat)
    (hdx : dx ≠ 0) (hn : 3 < y.length)
    (hy : ∀ i, i < y.length → y.getD i 0 = α + β * ((i : ℚ) * dx)) (hj : j < y.length) :
    prevSlope dx y past j = β := by
  unfold prevSlope
  by_cases h0 : j = 0
  · rw [if_pos h0, slope_linear dx α β y 0 hdx hy (by omega),
      slope_linear dx α β y 1 hdx hy (by omega)]
    norm_num
    ring
  · rw [if_neg h0, slopeB_linear dx α β y past (j - 1) hdx hy (by omega)]

theorem prevSlope2_linear (dx α β : ℚ) (y : List ℚ) (past : Coefficients) (j : Nat)
    (hdx : dx ≠ 0) (hn : 3 < y.length)
    (hy : ∀ i, i < y.length → y.getD i 0 = α + β * ((i : ℚ) * dx)) (hj : j < y.length) :
    prevSlope2 dx y past j = β := by
  unfold prevSlope2
  by_cases h0 : j = 0
  · rw [if_pos h0, slope_linear dx α β y 0 hdx hy (by omega),
      slope_linear dx α β y 1 hdx hy (by omega)]
    norm_num
    ring
  · rw [if_neg h0]
    by_cases h1 : j = 1
    · rw [if_pos h1, slope_linear dx α β y 0 hdx hy (by omega),
        slope_linear dx α β y 1 hdx hy (by omega)]
      norm_num
      ring
    · rw [if_neg h1, slopeB_linear dx α β y past (j - 2) hdx hy (by omega)]

/-- The derivative estimates of samples on a line are all `β`, provided the value read
behind the buffer for the last sample differs from `2·β` (or `β = 0`). -/
theorem tangent_linear (dx α β : ℚ) (y : List ℚ) (past : Coefficients) (j : Nat) (hdx : dx ≠ 0)
    (hn : 3 < y.length)
    (hy : ∀ i, i < y.length → y.getD i 0 = α + β * ((i : ℚ) * dx))
    (hp : past.b ≠ 2 * β ∨ β = 0) (hj : j < y.length) :
    tangent dx y past j = β := by
  rw [tangent_eq dx y past j hn hj, prevSlope_linear dx α β y past j hdx hn hy hj,
    prevSlope2_linear dx α β y past j hdx hn hy hj]
  by_cases h : j + 1 < y.length
  · rw [slopeB_linear dx α β y past j hdx hy h, derivative_flat]
  · have hj1 : j + 1 = y.length := by omega
    have e : slopeB dx y past j = 2 * β := by
      unfold slopeB
      rw [if_neg h, if_pos hj1, slope_linear dx α β y (y.length - 2) hdx hy (by omega)]
      norm_num
    have e1 : slopeB dx y past (j + 1) = past.b := by
      unfold slopeB
      rw [if_neg (by omega), if_neg (by omega)]
    rw [e, e1]
    rcases hp with hp | hp
    · exact derivative_prev _ _ _ _ _ (Ne.symm hp)
    · rw [hp]
      norm_num
      exact derivative_flat _ _ _ _

/-- The segments built from samples on a line are that line. -/
theorem segment_linear (dx α β : ℚ) (i : Nat) (hdx : dx ≠ 0) :
    segment dx i (α + β * ((i : ℚ) * dx)) (α + β * (((i + 1 : Nat) : ℚ) * dx)) β β
      = ⟨α, β, 0, 0⟩ := by
  have hd : (-β * ((i : ℚ) * dx) - β * ((i : ℚ) * dx) + β * (((i + 1 : Nat) : ℚ) * dx)
      + β * (((i + 1 : Nat) : ℚ) * dx) + 2.0 * (α + β * ((i : ℚ) * dx))
      - 2.0 * (α + β * (((i + 1 : Nat) : ℚ) * dx))) / (dx * dx * dx) = 0 := by
    rw [div_eq_zero_iff]
    left
    push_cast
    norm_num
    ring
  simp only [segment, hd]
  norm_num
  constructor
  · field_simp
    ring
  · field_simp
    ring

/-- Linear data are reproduced exactly on the whole domain, provided the value read behind
the buffer for the last sample differs from `2·β` (or `β = 0`). -/
theorem evaluate_linear (dx α β : ℚ) (y : List ℚ) (past : Coefficients) (x : ℚ) (hdx : 0 < dx)
    (hn : 3 < y.length)
    (hy : ∀ i, i < y.length → y.getD i 0 = α + β * ((i : ℚ) * dx))
    (hp : past.b ≠ 2 * β ∨ β = 0) (hx0 : 0 ≤ x) (hx1 : x ≤ ((y.length : ℚ) - 1) * dx) :
    evaluate (construct dx y past) x = some (α + β * x) := by
  have hne : dx ≠ 0 := ne_of_gt hdx
  obtain ⟨i, hi0, hi1⟩ := exists_cell dx x hdx hx0
  have hile : (i : ℚ) ≤ (y.length : ℚ) - 1 := by
    by_contra hc
    push_neg at hc
    have : ((y.length : ℚ) - 1) * dx < (i : ℚ) * dx := by nlinarith
    linarith
  have hilt : i < y.length := by
    have : (i : ℚ) < (y.length : ℚ) := by linarith
    exact_mod_cast this
  rw [evaluate_construct dx y past x i hdx hilt hi0 hi1]
  by_cases h : i + 1 < y.length
  · rw [fillBuffer_segment dx y past i h, tangent_linear dx α β y past i hne hn hy hp hilt,
      tangent_linear dx α β y past (i + 1) hne hn hy hp h, hy i hilt, hy (i + 1) h,
      segment_linear dx α β i hne]
    simp [horner, mul_comm]
  · have hi : i = y.length - 1 := by omega
    have hxe : x = ((y.length : ℚ) - 1) * dx := by
      have hc : (i : ℚ) = (y.length : ℚ) - 1 := by
        rw [hi, Nat.cast_sub (by omega)]
        simp
      rw [hc] at hi0
      linarith
    rw [hi, fillBuffer_last, hy (y.length - 1) (by omega), Nat.cast_sub (by omega), hxe]
    simp [horner]

/-! ## C5: linear data -/

/-- The one content of the word read behind the coefficient array (`c[points].b`, line 92
with `i = points-1`) for which the last derivative estimate of samples on a line is not
`β`, namely `2·β`: for `y = [0, 1, 2, 3, 4]`, `dx = 1`, on the line `evaluate(x) = x`, and
the word `2`, forward evaluation at `x = 7/2` returns `27/8`. -/
theorem linear_data_not_reproduced :
    build 1 [0, 1, 2, 3, 4] ⟨0, 2, 0, 0⟩ = some (construct 1 [0, 1, 2, 3, 4] ⟨0, 2, 0, 0⟩) ∧
    (∀ i, i < 5 → ([0, 1, 2, 3, 4] : List ℚ).getD i 0 = 0 + 1 * ((i : ℚ) * 1)) ∧
    evaluate (construct 1 [0, 1, 2, 3, 4] ⟨0, 2, 0, 0⟩) (7 / 2) = some (27 / 8) ∧
    (27 / 8 : ℚ) ≠ 0 + 1 * (7 / 2) := by
  refine ⟨build_construct 1 _ _ (by norm_num) (by simp), ?_, ?_, by norm_num⟩
  · intro i hi
    interval_cases i <;> simp
  · rw [evaluate_construct 1 _ _ (7 / 2) 3 (by norm_num) (by simp) (by norm_num)
        (by norm_num),
      fillBuffer_segment 1 _ _ 3 (by simp),
      tangent_eq 1 _ _ 3 (by simp) (by simp), tangent_eq 1 _ _ (3 + 1) (by simp) (by simp)]
    simp [prevSlope2, prevSlope, slopeB, weight0, weight1, slope, derivative, segment, horner]
    norm_num

/-- C5: for samples on a line, `y[i] = α + β·i·dx` with `n > 3` and `dx > 0`, forward
evaluation of the built engine returns `α + β·x` for every `x` in `[0, (n-1)·dx]`, for
every content of the word that line 92 reads behind the coefficient array except `2·β`
(and for every content when `β = 0`). -/
theorem linear_data_reproduced (dx α β : ℚ) (y : List ℚ) (past : Coefficients) (s : Spline)
    (x : ℚ) (hb : build dx y past = some s)
    (hy : ∀ i, i < y.length → y.getD i 0 = α + β * ((i : ℚ) * dx))
    (hp : past.b ≠ 2 * β ∨ β = 0) (hx0 : 0 ≤ x) (hx1 : x ≤ ((y.length : ℚ) - 1) * dx) :
    evaluate s x = some (α + β * x) := by
  obtain ⟨hdx, hn, rfl⟩ := (build_eq_some_iff dx y past s).mp hb
  exact evaluate_linear dx α β y past x hdx hn hy hp hx0 hx1

/-- C5 at the two scenarios of the claim: `y = [0, 1, 2, 3, 4]`, `dx = 1`, `x = 7/2`, and
`y = [10, 9, 8, 7, 6]`, `dx = 1`, `x = 3/2`. -/
theorem linear_data_reproduced_witness :
    evaluate (construct 1 [0, 1, 2, 3, 4] ⟨0, 0, 0, 0⟩) (7 / 2) = some (0 + 1 * (7 / 2)) ∧
    evaluate (construct 1 [10, 9, 8, 7, 6] ⟨0, 0, 0, 0⟩) (3 / 2)
      = some (10 + (-1) * (3 / 2)) :=
  ⟨linear_data_reproduced 1 0 1 [0, 1, 2, 3, 4] ⟨0, 0, 0, 0⟩ _ (7 / 2)
      (build_construct 1 _ _ (by norm_num) (by simp))
      (fun i hi => by
        simp only [List.length_cons, List.length_nil] at hi
        interval_cases i <;> simp)
      (Or.inl (by norm_num)) (by norm_num)
      (by simp only [List.length_cons, List.length_nil]; norm_num),
    linear_data_reproduced 1 10 (-1) [10, 9, 8, 7, 6] ⟨0, 0, 0, 0⟩ _ (3 / 2)
      (build_construct 1 _ _ (by norm_num) (by simp))
      (fun i hi => by
        simp only [List.length_cons, List.length_nil] at hi
        interval_cases i <;> simp <;> norm_num)
      (Or.inl (by norm_num)) (by norm_num)
      (by simp only [List.length_cons, List.length_nil]; norm_num)⟩

/-- The scenario `y = [10, 9, 8, 7, 6]`, `dx = 1` of C5, whatever lies behind the buffer:
the five knots are reproduced and `evaluate(1.5) = 8.5`. -/
theorem decreasing_scenario_values (past : Coefficients) :
    evaluate (construct 1 [10, 9, 8, 7, 6] past) 0 = some 10 ∧
    evaluate (construct 1 [10, 9, 8, 7, 6] past) 1 = some 9 ∧
    evaluate (construct 1 [10, 9, 8, 7, 6] past) 2 = some 8 ∧
    evaluate (construct 1 [10, 9, 8, 7, 6] past) 3 = some 7 ∧
    evaluate (construct 1 [10, 9, 8, 7, 6] past) 4 = some 6 ∧
    evaluate (construct 1 [10, 9, 8, 7, 6] past) (3 / 2) = some (17 / 2) := by
  have hk : ∀ i : Nat, i + 1 < 5 →
      evaluate (construct 1 [10, 9, 8, 7, 6] past) ((i : ℚ) * 1)
        = some (([10, 9, 8, 7, 6] : List ℚ).getD i 0) := fun i hi => by
    have h1 : (i : ℚ) * 1 < ((i : ℚ) + 1) * 1 := by linarith
    rw [evaluate_construct 1 _ past _ i (by norm_num) (by simp; omega) le_rfl h1,
      fillBuffer_segment 1 _ past i (by simpa using hi), segment_value_left]
  refine ⟨?_, ?_, ?_, ?_, ?_, ?_⟩
  · simpa using hk 0 (by omega)
  · simpa using hk 1 (by omega)
  · simpa using hk 2 (by omega)
  · simpa using hk 3 (by omega)
  · rw [evaluate_construct 1 _ past 4 4 (by norm_num) (by simp) (by norm_num) (by norm_num)]
    have h := fillBuffer_last 1 [10, 9, 8, 7, 6] past
    simp only [List.length_cons, List.length_nil] at h
    rw [show (0 + 1 + 1 + 1 + 1 + 1 - 1 : Nat) = 4 from rfl] at h
    rw [h]
    simp [horner]
  · rw [evaluate_construct 1 _ past (3 / 2) 1 (by norm_num) (by simp) (by norm_num)
        (by norm_num),
      fillBuffer_segment 1 _ past 1 (by simp),
      tangent_eq 1 _ past 1 (by simp) (by simp), tangent_eq 1 _ past (1 + 1) (by simp) (by simp)]
    simp [prevSlope2, prevSlope, slopeB, weight0, weight1, slope, derivative, segment, horner]
    norm_num

/-! ## C6: the curve at the grid midpoints -/

/-- The value of a segment at the midpoint of its cell. -/
theorem segment_midpoint (dx : ℚ) (i : Nat) (y0 y1 t0 t1 : ℚ) (hdx : dx ≠ 0) :
    horner (segment dx i y0 y1 t0 t1) (((i : ℚ) + 1 / 2) * dx)
      = (y0 + y1) / 2 + dx * (t0 - t1) / 8 := by
  simp only [horner, segment, Nat.cast_add, Nat.cast_one]
  field_simp
  ring

/-- C6 (counterexample): the samples `[0, 100, 200, 201, 203, 303, 403]`, `dx = 1`, are
strictly increasing, yet the curve overshoots at the midpoint of cell 2
(`evaluate(2.5) = 41924/197 > y[3] = 201`) and the midpoint values decrease from cell 2 to
cell 3 (`evaluate(3.5) = 74737/394 < evaluate(2.5)`). -/
theorem midpoint_overshoot_counterexample :
    List.Pairwise (fun a b : ℚ => a < b) [0, 100, 200, 201, 203, 303, 403] ∧
    build 1 [0, 100, 200, 201, 203, 303, 403] ⟨0, 0, 0, 0⟩
      = some (construct 1 [0, 100, 200, 201, 203, 303, 403] ⟨0, 0, 0, 0⟩) ∧
    evaluate (construct 1 [0, 100, 200, 201, 203, 303, 403] ⟨0, 0, 0, 0⟩) (5 / 2)
      = some (41924 / 197) ∧
    evaluate (construct 1 [0, 100, 200, 201, 203, 303, 403] ⟨0, 0, 0, 0⟩) (7 / 2)
      = some (74737 / 394) ∧
    ¬ ((41924 / 197 : ℚ) ≤ ([0, 100, 200, 201, 203, 303, 403] : List ℚ).getD 3 0) ∧
    ¬ ((41924 / 197 : ℚ) ≤ 74737 / 394) := by
  refine ⟨by simp; norm_num, build_construct 1 _ _ (by norm_num) (by simp), ?_, ?_,
    by norm_num, by norm_num⟩
  · rw [evaluate_construct 1 _ _ (5 / 2) 2 (by norm_num) (by simp) (by norm_num)
        (by norm_num),
      fillBuffer_segment 1 _ _ 2 (by simp),
      tangent_eq 1 _ _ 2 (by simp) (by simp), tangent_eq 1 _ _ (2 + 1) (by simp) (by simp)]
    simp [prevSlope2, prevSlope, slopeB, weight0, weight1, slope, derivative, segment, horner]
    norm_num
  · rw [evaluate_construct 1 _ _ (7 / 2) 3 (by norm_num) (by simp) (by norm_num)
        (by norm_num),
      fillBuffer_segment 1 _ _ 3 (by simp),
      tangent_eq 1 _ _ 3 (by simp) (by simp), tangent_eq 1 _ _ (3 + 1) (by simp) (by simp)]
    simp [prevSlope2, prevSlope, slopeB, weight0, weight1, slope, derivative, segment, horner]
    norm_num

/-- C6 (amended): for a built engine and every cell `i < n-1` the value at the midpoint is
`(y[i] + y[i+1])/2 + dx·(t_i - t_{i+1})/8`, with `t_i`, `t_{i+1}` the derivative estimates of
the builder; it lies in `[y[i], y[i+1]]` exactly when
`dx·|t_i - t_{i+1}| ≤ 4·(y[i+1] - y[i])`. -/
theorem midpoint_value (dx : ℚ) (y : List ℚ) (past : Coefficients) (s : Spline) (i : Nat)
    (hb : build dx y past = some s) (hi : i + 1 < y.length) :
    ∃ v, evaluate s (((i : ℚ) + 1 / 2) * dx) = some v ∧
      v = (y.getD i 0 + y.getD (i + 1) 0) / 2
            + dx * (tangent dx y past i - tangent dx y past (i + 1)) / 8 ∧
      ((y.getD i 0 ≤ v ∧ v ≤ y.getD (i + 1) 0) ↔
        dx * |tangent dx y past i - tangent dx y past (i + 1)|
          ≤ 4 * (y.getD (i + 1) 0 - y.getD i 0)) := by
  obtain ⟨hdx, -, rfl⟩ := (build_eq_some_iff dx y past s).mp hb
  have h0 : (i : ℚ) * dx ≤ ((i : ℚ) + 1 / 2) * dx := by nlinarith
  have h1 : ((i : ℚ) + 1 / 2) * dx < ((i : ℚ) + 1) * dx := by nlinarith
  refine ⟨_, evaluate_construct dx y past _ i hdx (by omega) h0 h1, ?_, ?_⟩
  · rw [fillBuffer_segment dx y past i hi, segment_midpoint _ _ _ _ _ _ (ne_of_gt hdx)]
  · rw [fillBuffer_segment dx y past i hi, segment_midpoint _ _ _ _ _ _ (ne_of_gt hdx)]
    have habs : dx * |tangent dx y past i - tangent dx y past (i + 1)|
        = |dx * (tangent dx y past i - tangent dx y past (i + 1))| := by
      rw [abs_mul, abs_of_pos hdx]
    rw [habs, abs_le]
    constructor
    · rintro ⟨ha, hb2⟩
      constructor <;> linarith
    · rintro ⟨ha, hb2⟩
      constructor <;> linarith

/-- C6 (amended) at `y = [0, 100, 200, 201, 203, 303, 403]`, `dx = 1`, cell `i = 2`. -/
theorem midpoint_value_witness :
    ∃ v, evaluate (construct 1 [0, 100, 200, 201, 203, 303, 403] ⟨0, 0, 0, 0⟩)
        ((((2 : Nat) : ℚ) + 1 / 2) * 1) = some v ∧
      v = (([0, 100, 200, 201, 203, 303, 403] : List ℚ).getD 2 0
            + ([0, 100, 200, 201, 203, 303, 403] : List ℚ).getD (2 + 1) 0) / 2
          + 1 * (tangent 1 [0, 100, 200, 201, 203, 303, 403] ⟨0, 0, 0, 0⟩ 2
              - tangent 1 [0, 100, 200, 201, 203, 303, 403] ⟨0, 0, 0, 0⟩ (2 + 1)) / 8 ∧
      ((([0, 100, 200, 201, 203, 303, 403] : List ℚ).getD 2 0 ≤ v ∧
          v ≤ ([0, 100, 200, 201, 203, 303, 403] : List ℚ).getD (2 + 1) 0) ↔
        1 * |tangent 1 [0, 100, 200, 201, 203, 303, 403] ⟨0, 0, 0, 0⟩ 2
              - tangent 1 [0, 100, 200, 201, 203, 303, 403] ⟨0, 0, 0, 0⟩ (2 + 1)|
          ≤ 4 * (([0, 100, 200, 201, 203, 303, 403] : List ℚ).getD (2 + 1) 0
              - ([0, 100, 200, 201, 203, 303, 403] : List ℚ).getD 2 0)) :=
  midpoint_value 1 [0, 100, 200, 201, 203, 303, 403] ⟨0, 0, 0, 0⟩ _ 2
    (build_construct 1 _ _ (by norm_num) (by simp)) (by simp)

/-! ## C9: forward evaluation beyond the last knot -/

/-- The last cell `[(n-1)·dx, n·dx)` belongs to the constant last segment. -/
theorem evaluate_last_cell (dx : ℚ) (y : List ℚ) (past : Coefficients) (x : ℚ) (hdx : 0 < dx)
    (hn : 0 < y.length) (h0 : ((y.length : ℚ) - 1) * dx ≤ x) (h1 : x < (y.length : ℚ) * dx) :
    evaluate (construct dx y past) x = some (y.getD (y.length - 1) 0) := by
  have hc : ((y.length - 1 : Nat) : ℚ) = (y.length : ℚ) - 1 := by
    rw [Nat.cast_sub (by omega)]
    simp
  rw [evaluate_construct dx y past x (y.length - 1) hdx (by omega) (by rw [hc]; exact h0)
    (by rw [hc]; linarith), fillBuffer_last]
  simp [horner]

/-- From `n·dx` on, and as long as the product `x·inv_dx` is below `2^64`, the index is
out of range. -/
theorem evaluate_out_of_range (dx : ℚ) (y : List ℚ) (past : Coefficients) (x : ℚ)
    (hdx : 0 < dx) (h : (y.length : ℚ) * dx ≤ x) (hr : x < 2 ^ 64 * dx) :
    evaluate (construct dx y past) x = none := by
  have hx : ¬ x < 0 := not_lt.mpr (le_trans (by positivity) h)
  have hfl : (y.length : ℤ) ≤ ⌊x / dx⌋ := by
    rw [Int.le_floor, le_div_iff₀ hdx]
    exact_mod_cast h
  have hfu : ⌊x / dx⌋ < (2 : ℤ) ^ 64 := by
    rw [Int.floor_lt, div_lt_iff₀ hdx]
    exact_mod_cast hr
  have hidx : y.length ≤ indexOf (construct dx y past) x := by
    have hlt : Int.toNat ⌊x / dx⌋ < max (2 ^ 64) (y.length + 1) :=
      lt_of_lt_of_le ((Int.toNat_lt' (by norm_num)).mpr (by exact_mod_cast hfu))
        (le_max_left _ _)
    rw [construct_indexOf dx y past x hlt]
    have := Int.self_le_toNat ⌊x / dx⌋
    omega
  unfold evaluate
  rw [if_neg hx, construct_get_none dx y past _ hidx]

/-- C9 (counterexample): on the 5 samples `[10, 9, 8, 7, 6]` with `dx = 1` the abscissa
`x = 4.1` exceeds the built domain `[0, 4]`, and forward evaluation returns `6`. -/
theorem evaluate_beyond_domain_counterexample :
    build 1 [10, 9, 8, 7, 6] ⟨0, 0, 0, 0⟩ = some (construct 1 [10, 9, 8, 7, 6] ⟨0, 0, 0, 0⟩) ∧
    ((([10, 9, 8, 7, 6] : List ℚ).length : ℚ) - 1) * 1 < 41 / 10 ∧
    evaluate (construct 1 [10, 9, 8, 7, 6] ⟨0, 0, 0, 0⟩) (41 / 10) = some 6 := by
  refine ⟨build_construct 1 _ _ (by norm_num) (by simp), by norm_num, ?_⟩
  rw [evaluate_last_cell 1 _ _ (41 / 10) (by norm_num) (by simp) (by norm_num) (by norm_num)]
  simp

/-- C9 (amended): for a built engine with `n` samples and every `x` from the last knot
`(n-1)·dx` on whose product `x·inv_dx` is below `2^64` (`x < 2^64·dx`, the range in which
the conversion of line 138 is defined), forward evaluation returns `y[n-1]` while
`x < n·dx` and fails from `n·dx` on. -/
theorem evaluate_beyond_domain (dx : ℚ) (y : List ℚ) (past : Coefficients) (s : Spline)
    (x : ℚ) (hb : build dx y past = some s) (hx : ((y.length : ℚ) - 1) * dx ≤ x)
    (hr : x < 2 ^ 64 * dx) :
    evaluate s x
      = if x < (y.length : ℚ) * dx then some (y.getD (y.length - 1) 0) else none := by
  obtain ⟨hdx, hn, rfl⟩ := (build_eq_some_iff dx y past s).mp hb
  by_cases h : x < (y.length : ℚ) * dx
  · rw [if_pos h]
    exact evaluate_last_cell dx y past x hdx (by omega) hx h
  · rw [if_neg h]
    exact evaluate_out_of_range dx y past x hdx (not_lt.mp h) hr

/-- C9 (amended) at `y = [10, 9, 8, 7, 6]`, `dx = 1`: `x = 41/10`, in the last cell, and
`x = 5`, the first abscissa that fails. -/
theorem evaluate_beyond_domain_witness :
    evaluate (construct 1 [10, 9, 8, 7, 6] ⟨0, 0, 0, 0⟩) (41 / 10)
      = (if (41 / 10 : ℚ) < (([10, 9, 8, 7, 6] : List ℚ).length : ℚ) * 1 then
          some (([10, 9, 8, 7, 6] : List ℚ).getD (([10, 9, 8, 7, 6] : List ℚ).length - 1) 0)
        else none) ∧
    evaluate (construct 1 [10, 9, 8, 7, 6] ⟨0, 0, 0, 0⟩) 5
      = (if (5 : ℚ) < (([10, 9, 8, 7, 6] : List ℚ).length : ℚ) * 1 then
          some (([10, 9, 8, 7, 6] : List ℚ).getD (([10, 9, 8, 7, 6] : List ℚ).length - 1) 0)
        else none) :=
  ⟨evaluate_beyond_domain 1 [10, 9, 8, 7, 6] ⟨0, 0, 0, 0⟩ _ (41 / 10)
      (build_construct 1 _ _ (by norm_num) (by simp)) (by norm_num) (by norm_num),
    evaluate_beyond_domain 1 [10, 9, 8, 7, 6] ⟨0, 0, 0, 0⟩ _ 5
      (build_construct 1 _ _ (by norm_num) (by simp))
      (by simp only [List.length_cons, List.length_nil]; norm_num) (by norm_num)⟩

/-! ## The inverse search -/

theorem finish_eq_value (x x' : ℚ) (h : finish x = Outcome.value x') : 0 ≤ x ∧ x' = x := by
  unfold finish at h
  split_ifs at h with h0
  · exact ⟨h0, (Outcome.value.inj h).symm⟩

theorem finish_neg_one : finish (-1.0) = Outcome.failed := by
  unfold finish
  norm_num

theorem finish_nonneg (x : ℚ) (h : 0 ≤ x) : finish x = Outcome.value x := by
  unfold finish
  rw [if_pos h]

/-- One iteration through the first branch (`y0 <= y && y <= y1`), lines 163-170 and 185. -/
theorem reverseLoop_left (s : Spline) (t : ℚ) (n : Nat) (p : Probes) (y1 : ℚ)
    (h : p.y0 ≤ t ∧ t ≤ p.y1) (he : evaluate s (0.5 * (p.x0 + p.x1)) = some y1) :
    reverseLoop s t (n + 1) p
      = if |y1 - t| < epsilon then finish (0.5 * (p.x0 + p.x1))
        else if max_loops < p.counter then finish (-1.0)
        else reverseLoop s t n
          { p with x1 := 0.5 * (p.x0 + p.x1), y1 := y1, x2 := p.x1, y2 := p.y1 } := by
  rw [reverseLoop]
  simp only [if_pos h, he]

/-- One iteration through the second branch (`y1 < y && y <= y2`), lines 171-178 and 185. -/
theorem reverseLoop_right (s : Spline) (t : ℚ) (n : Nat) (p : Probes) (y1 : ℚ)
    (h1 : ¬ (p.y0 ≤ t ∧ t ≤ p.y1)) (h2 : p.y1 < t ∧ t ≤ p.y2)
    (he : evaluate s (0.5 * (p.x1 + p.x2)) = some y1) :
    reverseLoop s t (n + 1) p
      = if |y1 - t| < epsilon then finish (0.5 * (p.x1 + p.x2))
        else if max_loops < p.counter then finish (-1.0)
        else reverseLoop s t n
          { p with x0 := p.x1, y0 := p.y1, x1 := 0.5 * (p.x1 + p.x2), y1 := y1 } := by
  rw [reverseLoop]
  simp only [if_neg h1, if_pos h2, he]

/-- One iteration through the recovery branch, lines 179-185. -/
theorem reverseLoop_recover (s : Spline) (t : ℚ) (n : Nat) (p : Probes) (y1 : ℚ)
    (h1 : ¬ (p.y0 ≤ t ∧ t ≤ p.y1)) (h2 : ¬ (p.y1 < t ∧ t ≤ p.y2))
    (he : evaluate s (p.x1 * 0.5) = some y1) :
    reverseLoop s t (n + 1) p
      = if max_loops < p.counter + 1 then finish (-1.0)
        else reverseLoop s t n
          { p with x1 := p.x1 * 0.5, y1 := y1, counter := p.counter + 1 } := by
  rw [reverseLoop]
  simp only [if_neg h1, if_neg h2, he]

/-- An iteration whose forward evaluation fails ends the call with a failed assertion. -/
theorem reverseLoop_eval_none (s : Spline) (t : ℚ) (n : Nat) (p : Probes)
    (he : evaluate s
      (if p.y0 ≤ t ∧ t ≤ p.y1 then 0.5 * (p.x0 + p.x1)
       else if p.y1 < t ∧ t ≤ p.y2 then 0.5 * (p.x1 + p.x2) else p.x1 * 0.5) = none) :
    reverseLoop s t (n + 1) p = Outcome.failed := by
  rw [reverseLoop]
  split_ifs at he with h1 h2
  · simp only [if_pos h1, he]
  · simp only [if_neg h1, if_pos h2, he]
  · simp only [if_neg h1, if_neg h2, he]

/-- Partial correctness of the search loop: started from probes inside `[0, L]`, a value
it returns lies in `[0, L]` and its ordinate is within `epsilon` of the target. -/
theorem reverseLoop_value (s : Spline) (t L : ℚ) (fuel : Nat) :
    ∀ p : Probes, 0 ≤ p.x0 → p.x0 ≤ L → 0 ≤ p.x1 → p.x1 ≤ L → 0 ≤ p.x2 → p.x2 ≤ L →
      ∀ x, reverseLoop s t fuel p = Outcome.value x →
        0 ≤ x ∧ x ≤ L ∧ ∃ v, evaluate s x = some v ∧ |v - t| < epsilon := by
  induction fuel with
  | zero =>
    intro p _ _ _ _ _ _ x h
    simp [reverseLoop] at h
  | succ n ih =>
    intro p a0 b0 a1 b1 a2 b2 x h
    by_cases c1 : p.y0 ≤ t ∧ t ≤ p.y1
    · cases he : evaluate s (0.5 * (p.x0 + p.x1)) with
      | none =>
        rw [reverseLoop_eval_none s t n p (by rw [if_pos c1]; exact he)] at h
        cases h
      | some y1 =>
        rw [reverseLoop_left s t n p y1 c1 he] at h
        split_ifs at h with c3 c4
        · obtain ⟨_, rfl⟩ := finish_eq_value _ _ h
          refine ⟨by norm_num; linarith, by norm_num; linarith, y1, he, c3⟩
        · rw [finish_neg_one] at h
          cases h
        · exact ih { p with x1 := 0.5 * (p.x0 + p.x1), y1 := y1, x2 := p.x1, y2 := p.y1 }
            a0 b0 (by norm_num; linarith) (by norm_num; linarith) a1 b1 x h
    · by_cases c2 : p.y1 < t ∧ t ≤ p.y2
      · cases he : evaluate s (0.5 * (p.x1 + p.x2)) with
        | none =>
          rw [reverseLoop_eval_none s t n p (by rw [if_neg c1, if_pos c2]; exact he)] at h
          cases h
        | some y1 =>
          rw [reverseLoop_right s t n p y1 c1 c2 he] at h
          split_ifs at h with c3 c4
          · obtain ⟨_, rfl⟩ := finish_eq_value _ _ h
            refine ⟨by norm_num; linarith, by norm_num; linarith, y1, he, c3⟩
          · rw [finish_neg_one] at h
            cases h
          · exact ih { p with x0 := p.x1, y0 := p.y1, x1 := 0.5 * (p.x1 + p.x2), y1 := y1 }
              a1 b1 (by norm_num; linarith) (by norm_num; linarith) a2 b2 x h
      · cases he : evaluate s (p.x1 * 0.5) with
        | none =>
          rw [reverseLoop_eval_none s t n p (by rw [if_neg c1, if_neg c2]; exact he)] at h
          cases h
        | some y1 =>
          rw [reverseLoop_recover s t n p y1 c1 c2 he] at h
          split_ifs at h with c3
          · rw [finish_neg_one] at h
            cases h
          · exact ih { p with x1 := p.x1 * 0.5, y1 := y1, counter := p.counter + 1 }
              a0 b0 (by norm_num; linarith) (by norm_num; linarith) a2 b2 x h

/-- A search that can only take the recovery branch ends with the final assertion failing
once the counter has passed `max_loops`. -/
theorem reverseLoop_stuck (s : Spline) (t : ℚ) (I : Probes → Prop)
    (hI : ∀ p, I p → ¬ (p.y0 ≤ t ∧ t ≤ p.y1) ∧ ¬ (p.y1 < t ∧ t ≤ p.y2))
    (hstep : ∀ p v, I p → evaluate s (p.x1 * 0.5) = some v →
      I { p with x1 := p.x1 * 0.5, y1 := v, counter := p.counter + 1 })
    (fuel : Nat) :
    ∀ p : Probes, I p → 0 < fuel → max_loops < p.counter + fuel →
      reverseLoop s t fuel p = Outcome.failed := by
  induction fuel with
  | zero => intro p _ h; exact absurd h (Nat.lt_irrefl 0)
  | succ n ih =>
    intro p hp _ hc
    obtain ⟨c1, c2⟩ := hI p hp
    cases he : evaluate s (p.x1 * 0.5) with
    | none => exact reverseLoop_eval_none s t n p (by rw [if_neg c1, if_neg c2]; exact he)
    | some y1 =>
      rw [reverseLoop_recover s t n p y1 c1 c2 he]
      split_ifs with c3
      · exact finish_neg_one
      · exact ih _ (hstep p y1 hp he) (by omega) (by simp only; omega)

/-- The three initial probes of `reverse`, lines 149-159. -/
theorem initProbes_eq_some (s : Spline) (p : Probes) (h : initProbes s = some p) :
    p.x0 = 0 ∧ p.x1 = (s.c.length : ℚ) * 0.5 * (1.0 / s.inv_dx) ∧
    p.x2 = ((s.c.length - 1 : Nat) : ℚ) * (1.0 / s.inv_dx) ∧ p.counter = 0 ∧
    evaluate s p.x0 = some p.y0 ∧ evaluate s p.x1 = some p.y1 ∧
    evaluate s p.x2 = some p.y2 := by
  unfold initProbes at h
  simp only at h
  cases h0 : evaluate s 0.0 with
  | none => simp [h0] at h
  | some y0 =>
    cases h1 : evaluate s ((s.c.length : ℚ) * 0.5 * (1.0 / s.inv_dx)) with
    | none => simp [h0, h1] at h
    | some y1 =>
      cases h2 : evaluate s (((s.c.length - 1 : Nat) : ℚ) * (1.0 / s.inv_dx)) with
      | none => simp [h0, h1, h2] at h
      | some y2 =>
        simp only [h0, h1, h2, Option.some.injEq] at h
        subst h
        refine ⟨by norm_num, rfl, rfl, rfl, ?_, h1, h2⟩
        simpa using h0

/-- The initial probes of a built engine lie in the domain `[0, (n-1)·dx]`. -/
theorem initProbes_construct (dx : ℚ) (y : List ℚ) (past : Coefficients) (p : Probes)
    (hn : 3 < y.length) (h : initProbes (construct dx y past) = some p) :
    p.x0 = 0 ∧ p.x1 = (y.length : ℚ) * 0.5 * dx ∧ p.x2 = ((y.length : ℚ) - 1) * dx ∧
    p.counter = 0 ∧
    evaluate (construct dx y past) p.x0 = some p.y0 ∧
    evaluate (construct dx y past) p.x1 = some p.y1 ∧
    evaluate (construct dx y past) p.x2 = some p.y2 := by
  obtain ⟨e0, e1, e2, ec, v0, v1, v2⟩ := initProbes_eq_some _ p h
  have hd : (1.0 : ℚ) / (construct dx y past).inv_dx = dx := by
    simp [construct]
    norm_num
  rw [hd, construct_length] at e1 e2
  rw [Nat.cast_sub (by omega)] at e2
  refine ⟨e0, e1, ?_, ec, v0, v1, v2⟩
  rw [e2]
  simp

/-- The initial probes, given the three forward evaluations. -/
theorem initProbes_of_eval (s : Spline) (y0 y1 y2 : ℚ) (h0 : evaluate s 0 = some y0)
    (h1 : evaluate s ((s.c.length : ℚ) * 0.5 * (1.0 / s.inv_dx)) = some y1)
    (h2 : evaluate s (((s.c.length - 1 : Nat) : ℚ) * (1.0 / s.inv_dx)) = some y2) :
    initProbes s = some ⟨0, y0, (s.c.length : ℚ) * 0.5 * (1.0 / s.inv_dx), y1,
      ((s.c.length - 1 : Nat) : ℚ) * (1.0 / s.inv_dx), y2, 0⟩ := by
  have h0' : evaluate s 0.0 = some y0 := by
    rw [show (0.0 : ℚ) = 0 by norm_num]
    exact h0
  unfold initProbes
  simp only [h0', h1, h2]
  norm_num

/-- The engine built from `y = [0, 1, 2, 3]`, `dx = 1` is the line `evaluate(x) = x`. -/
theorem unit_line_eval (x : ℚ) (h0 : 0 ≤ x) (h1 : x ≤ 3) :
    evaluate (construct 1 [0, 1, 2, 3] ⟨0, 0, 0, 0⟩) x = some x := by
  have h := evaluate_linear 1 0 1 [0, 1, 2, 3] ⟨0, 0, 0, 0⟩ x (by norm_num) (by simp)
    (by
      intro i hi
      simp only [List.length_cons, List.length_nil] at hi
      interval_cases i <;> simp)
    (Or.inl (by norm_num)) h0 (by simp only [List.length_cons, List.length_nil]; norm_num; linarith)
  simpa using h

/-- The initial probes of the engine built from `y = [0, 1, 2, 3]`, `dx = 1`. -/
theorem unit_line_probes :
    initProbes (construct 1 [0, 1, 2, 3] ⟨0, 0, 0, 0⟩) = some ⟨0, 0, 2, 2, 3, 3, 0⟩ := by
  have e1 : (((construct 1 [0, 1, 2, 3] ⟨0, 0, 0, 0⟩).c.length : ℚ) * 0.5
      * (1.0 / (construct 1 [0, 1, 2, 3] ⟨0, 0, 0, 0⟩).inv_dx)) = 2 := by
    rw [construct_length]
    simp [construct]
    norm_num
  have e2 : ((((construct 1 [0, 1, 2, 3] ⟨0, 0, 0, 0⟩).c.length - 1 : Nat) : ℚ)
      * (1.0 / (construct 1 [0, 1, 2, 3] ⟨0, 0, 0, 0⟩).inv_dx)) = 3 := by
    rw [construct_length]
    simp [construct]
    norm_num
  rw [initProbes_of_eval _ 0 2 3 (unit_line_eval 0 (by norm_num) (by norm_num))
    (by rw [e1]; exact unit_line_eval 2 (by norm_num) (by norm_num))
    (by rw [e2]; exact unit_line_eval 3 (by norm_num) (by norm_num)), e1, e2]

/-! ## C3: the postcondition of the inverse search -/

/-- C3: for a built engine and every target `t`, whenever `reverse t` returns a value `x`
(whatever the number of iterations), `x` lies in `[0, (n-1)·dx]` and
`|evaluate(x) - t| < 1e-3`. -/
theorem reverse_postcondition (dx : ℚ) (y : List ℚ) (past : Coefficients) (s : Spline)
    (t : ℚ) (fuel : Nat) (x : ℚ) (hb : build dx y past = some s)
    (hr : reverse s t fuel = Outcome.value x) :
    0 ≤ x ∧ x ≤ ((y.length : ℚ) - 1) * dx ∧
      ∃ v, evaluate s x = some v ∧ |v - t| < 1 / 1000 := by
  obtain ⟨hdx, hn, rfl⟩ := (build_eq_some_iff dx y past s).mp hb
  unfold reverse at hr
  cases hp : initProbes (construct dx y past) with
  | none => simp [hp] at hr
  | some p =>
    simp only [hp] at hr
    obtain ⟨e0, e1, e2, -, -, -, -⟩ := initProbes_construct dx y past p hn hp
    have hn4 : (4 : ℚ) ≤ (y.length : ℚ) := by exact_mod_cast hn
    have hL : 0 ≤ ((y.length : ℚ) - 1) * dx := by nlinarith
    have h1a : 0 ≤ (y.length : ℚ) * 0.5 * dx := by positivity
    have h1b : (y.length : ℚ) * 0.5 * dx ≤ ((y.length : ℚ) - 1) * dx := by
      norm_num
      nlinarith
    exact reverseLoop_value _ t (((y.length : ℚ) - 1) * dx) fuel p (by rw [e0]) (by rw [e0]; exact hL)
      (by rw [e1]; exact h1a) (by rw [e1]; exact h1b) (by rw [e2]; exact hL) (by rw [e2]) x hr

/-- The search for the target `1` on the engine built from `y = [0, 1, 2, 3]`, `dx = 1`
returns `1` in its first iteration. -/
theorem unit_line_reverse_one :
    reverse (construct 1 [0, 1, 2, 3] ⟨0, 0, 0, 0⟩) 1 1 = Outcome.value 1 := by
  unfold reverse
  rw [unit_line_probes]
  simp only
  rw [reverseLoop_left _ 1 0 _ 1 (by norm_num)
    (by simp only; rw [show (0.5 : ℚ) * (0 + 2) = 1 by norm_num]
        exact unit_line_eval 1 (by norm_num) (by norm_num))]
  rw [if_pos (by simp [epsilon])]
  simp only
  rw [show (0.5 : ℚ) * (0 + 2) = 1 by norm_num]
  exact finish_nonneg 1 (by norm_num)

/-- C3 at `y = [0, 1, 2, 3]`, `dx = 1`, target `1`: the search returns `1`. -/
theorem reverse_postcondition_witness :
    (0 : ℚ) ≤ 1 ∧ (1 : ℚ) ≤ ((([0, 1, 2, 3] : List ℚ).length : ℚ) - 1) * 1 ∧
      ∃ v, evaluate (construct 1 [0, 1, 2, 3] ⟨0, 0, 0, 0⟩) 1 = some v ∧ |v - 1| < 1 / 1000 :=
  reverse_postcondition 1 [0, 1, 2, 3] ⟨0, 0, 0, 0⟩ _ 1 1 1
    (build_construct 1 _ _ (by norm_num) (by simp)) unit_line_reverse_one

/-! ## C10: unreachable targets -/

/-- C10: for a built engine and a target that is strictly greater than every value, or
strictly smaller than every value, that `evaluate` takes on `[0, (n-1)·dx]`, `reverse`
leaves its loop after `max_loops + 1` recovery steps and its final assertion fails: with
room for more than `max_loops` iterations the outcome is a failure, never a value. -/
theorem reverse_unreachable (dx : ℚ) (y : List ℚ) (past : Coefficients) (s : Spline)
    (t : ℚ) (fuel : Nat) (hb : build dx y past = some s) (hfuel : max_loops < fuel)
    (h : (∀ x v, 0 ≤ x → x ≤ ((y.length : ℚ) - 1) * dx → evaluate s x = some v → v < t) ∨
      (∀ x v, 0 ≤ x → x ≤ ((y.length : ℚ) - 1) * dx → evaluate s x = some v → t < v)) :
    reverse s t fuel = Outcome.failed := by
  obtain ⟨hdx, hn, rfl⟩ := (build_eq_some_iff dx y past s).mp hb
  unfold reverse
  cases hp : initProbes (construct dx y past) with
  | none => rfl
  | some p =>
    simp only
    obtain ⟨e0, e1, e2, ec, v0, v1, v2⟩ := initProbes_construct dx y past p hn hp
    have hn4 : (4 : ℚ) ≤ (y.length : ℚ) := by exact_mod_cast hn
    have hL : 0 ≤ ((y.length : ℚ) - 1) * dx := by nlinarith
    have h1a : 0 ≤ p.x1 := by rw [e1]; positivity
    have h1b : p.x1 ≤ ((y.length : ℚ) - 1) * dx := by
      rw [e1]
      norm_num
      nlinarith
    have hfuel0 : 0 < fuel := by omega
    rcases h with h | h
    · refine reverseLoop_stuck _ t
        (fun q => 0 ≤ q.x1 ∧ q.x1 ≤ ((y.length : ℚ) - 1) * dx ∧ q.y1 < t ∧ q.y2 < t)
        ?_ ?_ fuel p ⟨h1a, h1b, h _ _ h1a h1b v1, h _ _ (by rw [e2]; exact hL) (by rw [e2]) v2⟩
        hfuel0 (by omega)
      · rintro q ⟨-, -, q1, q2⟩
        exact ⟨fun c => absurd c.2 (not_le.mpr q1), fun c => absurd c.2 (not_le.mpr q2)⟩
      · rintro q v ⟨qa, qb, -, q2⟩ hv
        have ha : 0 ≤ q.x1 * 0.5 := by positivity
        have hb2 : q.x1 * 0.5 ≤ ((y.length : ℚ) - 1) * dx := by norm_num; linarith
        exact ⟨ha, hb2, h _ _ ha hb2 hv, q2⟩
    · refine reverseLoop_stuck _ t
        (fun q => 0 ≤ q.x1 ∧ q.x1 ≤ ((y.length : ℚ) - 1) * dx ∧ t < q.y0 ∧ t < q.y1)
        ?_ ?_ fuel p ⟨h1a, h1b, h _ _ (by rw [e0]) (by rw [e0]; exact hL) v0, h _ _ h1a h1b v1⟩
        hfuel0 (by omega)
      · rintro q ⟨-, -, q0, q1⟩
        exact ⟨fun c => absurd c.1 (not_le.mpr q0), fun c => absurd c.1 (not_lt.mpr q1.le)⟩
      · rintro q v ⟨qa, qb, q0, -⟩ hv
        have ha : 0 ≤ q.x1 * 0.5 := by positivity
        have hb2 : q.x1 * 0.5 ≤ ((y.length : ℚ) - 1) * dx := by norm_num; linarith
        exact ⟨ha, hb2, q0, h _ _ ha hb2 hv⟩


/-- C10 at `y = [0, 1, 2, 3]`, `dx = 1`, whose curve is `evaluate(x) = x ≤ 3`, and the
target `4`. -/
theorem reverse_unreachable_witness :
    reverse (construct 1 [0, 1, 2, 3] ⟨0, 0, 0, 0⟩) 4 129 = Outcome.failed :=
  reverse_unreachable 1 [0, 1, 2, 3] ⟨0, 0, 0, 0⟩ _ 4 129
    (build_construct 1 _ _ (by norm_num) (by simp)) (by decide)
    (Or.inl (fun x v h0 h1 hv => by
      have h3 : x ≤ 3 := by
        simp only [List.length_cons, List.length_nil] at h1
        norm_num at h1
        exact h1
      rw [unit_line_eval x h0 h3] at hv
      have := Option.some.inj hv
      linarith))

/-! ## The curve of a built engine: knots and slope bound -/

/-- Every slot of a built engine takes the sample value at its left knot. -/
theorem slot_value_left (dx : ℚ) (y : List ℚ) (past : Coefficients) (i : Nat)
    (hi : i < y.length) :
    horner ((fillBuffer dx y past).slot i) ((i : ℚ) * dx) = y.getD i 0 := by
  by_cases h : i + 1 < y.length
  · rw [fillBuffer_segment dx y past i h, segment_value_left]
  · have e : i = y.length - 1 := by omega
    rw [e, fillBuffer_last]
    simp [horner]

/-- Every segment of a built engine takes the next sample value at its right knot. -/
theorem slot_value_right (dx : ℚ) (y : List ℚ) (past : Coefficients) (i : Nat)
    (hdx : dx ≠ 0) (hi : i + 1 < y.length) :
    horner ((fillBuffer dx y past).slot i) (((i : ℚ) + 1) * dx) = y.getD (i + 1) 0 := by
  rw [fillBuffer_segment dx y past i hi, segment_value_right _ _ _ _ _ _ hdx]

theorem segmentBound_nonneg (k : Coefficients) (X : ℚ) (hX : 0 ≤ X) :
    0 ≤ segmentBound k X := by
  unfold segmentBound
  positivity

/-- The cubic of one segment changes by at most `segmentBound` times the distance. -/
theorem horner_lipschitz (k : Coefficients) (a b X : ℚ) (ha : 0 ≤ a) (hab : a ≤ b)
    (hb : b ≤ X) : |horner k b - horner k a| ≤ segmentBound k X * (b - a) := by
  have hX : 0 ≤ X := le_trans ha (le_trans hab hb)
  have e : horner k b - horner k a
      = (k.b + k.c * (a + b) + k.d * (a ^ 2 + a * b + b ^ 2)) * (b - a) := by
    unfold horner
    ring
  have h1 : |k.c * (a + b)| ≤ 2 * |k.c| * X := by
    rw [abs_mul, abs_of_nonneg (by linarith : 0 ≤ a + b)]
    nlinarith [abs_nonneg k.c]
  have h2 : |k.d * (a ^ 2 + a * b + b ^ 2)| ≤ 3 * |k.d| * X ^ 2 := by
    have hq : 0 ≤ a ^ 2 + a * b + b ^ 2 := by nlinarith
    have hq2 : a ^ 2 + a * b + b ^ 2 ≤ 3 * X ^ 2 := by nlinarith
    rw [abs_mul, abs_of_nonneg hq]
    nlinarith [abs_nonneg k.d]
  have h3 : |k.b + k.c * (a + b) + k.d * (a ^ 2 + a * b + b ^ 2)| ≤ segmentBound k X := by
    unfold segmentBound
    calc |k.b + k.c * (a + b) + k.d * (a ^ 2 + a * b + b ^ 2)|
        ≤ |k.b + k.c * (a + b)| + |k.d * (a ^ 2 + a * b + b ^ 2)| := abs_add _ _
      _ ≤ |k.b| + |k.c * (a + b)| + |k.d * (a ^ 2 + a * b + b ^ 2)| := by
          linarith [abs_add k.b (k.c * (a + b))]
      _ ≤ |k.b| + 2 * |k.c| * X + 3 * |k.d| * X ^ 2 := by linarith
  rw [e, abs_mul, abs_of_nonneg (by linarith : 0 ≤ b - a)]
  exact mul_le_mul_of_nonneg_right h3 (by linarith)

theorem segmentBound_le_slopeBound (s : Spline) (k : Coefficients) (X : ℚ) (hX : 0 ≤ X)
    (hk : k ∈ s.c) : segmentBound k X ≤ slopeBound s X := by
  unfold slopeBound
  refine List.single_le_sum ?_ _ (List.mem_map_of_mem _ hk)
  intro v hv
  obtain ⟨k', -, rfl⟩ := List.mem_map.mp hv
  exact segmentBound_nonneg k' X hX

theorem slopeBound_nonneg (s : Spline) (X : ℚ) (hX : 0 ≤ X) : 0 ≤ slopeBound s X := by
  unfold slopeBound
  refine List.sum_nonneg ?_
  intro v hv
  obtain ⟨k', -, rfl⟩ := List.mem_map.mp hv
  exact segmentBound_nonneg k' X hX

/-- Forward evaluation of a built engine is defined on `[0, n·dx)`. -/
theorem evaluate_defined (dx : ℚ) (y : List ℚ) (past : Coefficients) (x : ℚ) (hdx : 0 < dx)
    (hx0 : 0 ≤ x) (hx1 : x < (y.length : ℚ) * dx) :
    ∃ i, i < y.length ∧ (i : ℚ) * dx ≤ x ∧ x < ((i : ℚ) + 1) * dx ∧
      evaluate (construct dx y past) x = some (horner ((fillBuffer dx y past).slot i) x) := by
  obtain ⟨i, hi0, hi1⟩ := exists_cell dx x hdx hx0
  have hilt : i < y.length := by
    have : (i : ℚ) < (y.length : ℚ) := by
      by_contra hc
      push_neg at hc
      have : (y.length : ℚ) * dx ≤ (i : ℚ) * dx := by nlinarith
      linarith
    exact_mod_cast this
  exact ⟨i, hilt, hi0, hi1, evaluate_construct dx y past x i hdx hilt hi0 hi1⟩

/-- Over a distance of at most `dx` inside `[0, n·dx)` the curve of a built engine changes
by at most `slopeBound` times the distance. -/
theorem evaluate_lipschitz (dx : ℚ) (y : List ℚ) (past : Coefficients) (a b va vb : ℚ)
    (hdx : 0 < dx) (ha : 0 ≤ a) (hab : a ≤ b) (hb : b < (y.length : ℚ) * dx)
    (hd : b - a ≤ dx) (hva : evaluate (construct dx y past) a = some va)
    (hvb : evaluate (construct dx y past) b = some vb) :
    |vb - va| ≤ slopeBound (construct dx y past) ((y.length : ℚ) * dx) * (b - a) := by
  have hX : 0 ≤ (y.length : ℚ) * dx := by positivity
  obtain ⟨i, hi, hi0, hi1, hei⟩ := evaluate_defined dx y past a hdx ha (by linarith)
  obtain ⟨j, hj, hj0, hj1, hej⟩ := evaluate_defined dx y past b hdx (by linarith) hb
  rw [hei] at hva
  rw [hej] at hvb
  have hva' := Option.some.inj hva
  have hvb' := Option.some.inj hvb
  subst hva' hvb'
  have hKi := segmentBound_le_slopeBound (construct dx y past) _ _ hX
    (List.getElem?_mem (construct_get dx y past i hi))
  have hKj := segmentBound_le_slopeBound (construct dx y past) _ _ hX
    (List.getElem?_mem (construct_get dx y past j hj))
  have hij : i ≤ j := by
    have : (i : ℚ) < (j : ℚ) + 1 := by
      by_contra hc
      push_neg at hc
      have : ((j : ℚ) + 1) * dx ≤ (i : ℚ) * dx := by nlinarith
      linarith
    have : (i : ℚ) < ((j + 1 : Nat) : ℚ) := by push_cast; exact this
    have := Nat.cast_lt.mp this
    omega
  have hji : j ≤ i + 1 := by
    have : (j : ℚ) < (i : ℚ) + 2 := by
      by_contra hc
      push_neg at hc
      have : ((i : ℚ) + 2) * dx ≤ (j : ℚ) * dx := by nlinarith
      linarith
    have : (j : ℚ) < ((i + 2 : Nat) : ℚ) := by push_cast; exact this
    have := Nat.cast_lt.mp this
    omega
  rcases Nat.lt_or_ge i j with hlt | hge
  · have e : j = i + 1 := by omega
    subst e
    have hk : ((i : ℚ) + 1) * dx ≤ b := by push_cast at hj0; exact hj0
    have hmid : horner ((fillBuffer dx y past).slot i) (((i : ℚ) + 1) * dx)
        = horner ((fillBuffer dx y past).slot (i + 1)) (((i : ℚ) + 1) * dx) := by
      rw [slot_value_right dx y past i (ne_of_gt hdx) hj]
      have := slot_value_left dx y past (i + 1) hj
      push_cast at this
      rw [this]
    have h1 := horner_lipschitz ((fillBuffer dx y past).slot i) a (((i : ℚ) + 1) * dx)
      ((y.length : ℚ) * dx) ha hi1.le (by linarith)
    have h2 := horner_lipschitz ((fillBuffer dx y past).slot (i + 1)) (((i : ℚ) + 1) * dx) b
      ((y.length : ℚ) * dx) (by linarith) hk hb.le
    have hsplit : horner ((fillBuffer dx y past).slot (i + 1)) b
          - horner ((fillBuffer dx y past).slot i) a
        = (horner ((fillBuffer dx y past).slot (i + 1)) b
            - horner ((fillBuffer dx y past).slot (i + 1)) (((i : ℚ) + 1) * dx))
          + (horner ((fillBuffer dx y past).slot i) (((i : ℚ) + 1) * dx)
            - horner ((fillBuffer dx y past).slot i) a) := by
      rw [hmid]
      ring
    rw [hsplit]
    refine le_trans (abs_add _ _) ?_
    have g1 : segmentBound ((fillBuffer dx y past).slot i) ((y.length : ℚ) * dx)
          * ((((i : ℚ) + 1) * dx) - a)
        ≤ slopeBound (construct dx y past) ((y.length : ℚ) * dx)
          * ((((i : ℚ) + 1) * dx) - a) :=
      mul_le_mul_of_nonneg_right hKi (by linarith)
    have g2 : segmentBound ((fillBuffer dx y past).slot (i + 1)) ((y.length : ℚ) * dx)
          * (b - (((i : ℚ) + 1) * dx))
        ≤ slopeBound (construct dx y past) ((y.length : ℚ) * dx)
          * (b - (((i : ℚ) + 1) * dx)) :=
      mul_le_mul_of_nonneg_right hKj (by linarith)
    nlinarith
  · have e : j = i := by omega
    subst e
    have h1 := horner_lipschitz ((fillBuffer dx y past).slot j) a b
      ((y.length : ℚ) * dx) ha hab hb.le
    exact le_trans h1 (mul_le_mul_of_nonneg_right hKi (by linarith))

/-! ## Convergence of the search on a non-decreasing curve -/

/-- One iteration from a bracketed state on a non-decreasing curve: it returns a value, or
the bracket was wider than `δ` and the next state is bracketed with half the width. -/
theorem reverseLoop_bracket_step (s : Spline) (t L δ K : ℚ) (hK : 0 ≤ K)
    (hKδ : K * δ < epsilon)
    (hdef : ∀ x, 0 ≤ x → x ≤ L → ∃ v, evaluate s x = some v)
    (hmono : ∀ a b va vb, 0 ≤ a → a ≤ b → b ≤ L → evaluate s a = some va →
      evaluate s b = some vb → va ≤ vb)
    (hlip : ∀ a b va vb, 0 ≤ a → a ≤ b → b ≤ L → b - a ≤ δ → evaluate s a = some va →
      evaluate s b = some vb → vb - va ≤ K * (b - a))
    (n : Nat) (p : Probes) (W : ℚ) (hp : Bracketed s t L p)
    (hw0 : p.x1 - p.x0 ≤ W) (hw1 : p.x2 - p.x1 ≤ W) :
    (∃ x, reverseLoop s t (n + 1) p = Outcome.value x) ∨
    (δ < W ∧ ∃ q, reverseLoop s t (n + 1) p = reverseLoop s t n q ∧ Bracketed s t L q ∧
      q.x1 - q.x0 ≤ W / 2 ∧ q.x2 - q.x1 ≤ W / 2) := by
  obtain ⟨a0, a1, a2, a3, e0, e1, e2, b0, b2, hc⟩ := hp
  have hcn : ¬ max_loops < p.counter := by omega
  by_cases c1 : t ≤ p.y1
  · have hx0 : 0 ≤ 0.5 * (p.x0 + p.x1) := by norm_num; linarith
    have hxa : p.x0 ≤ 0.5 * (p.x0 + p.x1) := by norm_num; linarith
    have hxb : 0.5 * (p.x0 + p.x1) ≤ p.x1 := by norm_num; linarith
    obtain ⟨v, hv⟩ := hdef _ hx0 (by linarith)
    rw [reverseLoop_left s t n p v ⟨b0, c1⟩ hv]
    by_cases c3 : |v - t| < epsilon
    · left
      rw [if_pos c3]
      exact ⟨_, finish_nonneg _ hx0⟩
    · right
      rw [if_neg c3, if_neg hcn]
      constructor
      · by_contra hW
        push_neg at hW
        have h1 := hlip p.x0 p.x1 p.y0 p.y1 a0 a1 (by linarith) (by linarith) e0 e1
        have h2 := hmono p.x0 _ p.y0 v a0 hxa (by linarith) e0 hv
        have h3 := hmono _ p.x1 v p.y1 hx0 hxb (by linarith) hv e1
        have h4 : K * (p.x1 - p.x0) ≤ K * δ := mul_le_mul_of_nonneg_left (by linarith) hK
        apply c3
        rw [abs_lt]
        constructor <;> linarith
      · refine ⟨_, rfl, ⟨a0, hxa, hxb, by linarith, e0, hv, e1, b0, c1, hc⟩, ?_, ?_⟩
        · simp only
          norm_num
          linarith
        · simp only
          norm_num
          linarith
  · have c1' : p.y1 < t := not_le.mp c1
    have hx0 : 0 ≤ 0.5 * (p.x1 + p.x2) := by norm_num; linarith
    have hxa : p.x1 ≤ 0.5 * (p.x1 + p.x2) := by norm_num; linarith
    have hxb : 0.5 * (p.x1 + p.x2) ≤ p.x2 := by norm_num; linarith
    obtain ⟨v, hv⟩ := hdef _ hx0 (by linarith)
    rw [reverseLoop_right s t n p v (fun c => c1 c.2) ⟨c1', b2⟩ hv]
    by_cases c3 : |v - t| < epsilon
    · left
      rw [if_pos c3]
      exact ⟨_, finish_nonneg _ hx0⟩
    · right
      rw [if_neg c3, if_neg hcn]
      constructor
      · by_contra hW
        push_neg at hW
        have h1 := hlip p.x1 p.x2 p.y1 p.y2 (by linarith) a2 a3 (by linarith) e1 e2
        have h2 := hmono p.x1 _ p.y1 v (by linarith) hxa (by linarith) e1 hv
        have h3 := hmono _ p.x2 v p.y2 hx0 hxb a3 hv e2
        have h4 : K * (p.x2 - p.x1) ≤ K * δ := mul_le_mul_of_nonneg_left (by linarith) hK
        apply c3
        rw [abs_lt]
        constructor <;> linarith
      · refine ⟨_, rfl, ⟨by linarith, hxa, hxb, a3, e1, hv, e2, c1'.le, b2, hc⟩, ?_, ?_⟩
        · simp only
          norm_num
          linarith
        · simp only
          norm_num
          linarith

/-- On a non-decreasing curve a bracketed search returns a value within `fuel + 1`
iterations as soon as the bracket is at most `2^fuel · δ` wide. -/
theorem reverseLoop_converges (s : Spline) (t L δ K : ℚ) (hK : 0 ≤ K)
    (hKδ : K * δ < epsilon)
    (hdef : ∀ x, 0 ≤ x → x ≤ L → ∃ v, evaluate s x = some v)
    (hmono : ∀ a b va vb, 0 ≤ a → a ≤ b → b ≤ L → evaluate s a = some va →
      evaluate s b = some vb → va ≤ vb)
    (hlip : ∀ a b va vb, 0 ≤ a → a ≤ b → b ≤ L → b - a ≤ δ → evaluate s a = some va →
      evaluate s b = some vb → vb - va ≤ K * (b - a))
    (fuel : Nat) :
    ∀ (p : Probes) (W : ℚ), Bracketed s t L p → p.x1 - p.x0 ≤ W → p.x2 - p.x1 ≤ W →
      W ≤ 2 ^ fuel * δ → ∃ x, reverseLoop s t (fuel + 1) p = Outcome.value x := by
  induction fuel with
  | zero =>
    intro p W hp hw0 hw1 hW
    rcases reverseLoop_bracket_step s t L δ K hK hKδ hdef hmono hlip 0 p W hp hw0 hw1
      with h | ⟨h, -⟩
    · exact h
    · simp at hW
      linarith
  | succ m ih =>
    intro p W hp hw0 hw1 hW
    rcases reverseLoop_bracket_step s t L δ K hK hKδ hdef hmono hlip (m + 1) p W hp hw0 hw1
      with h | ⟨-, q, hq, hqb, hq0, hq1⟩
    · exact h
    · rw [hq]
      refine ih q (W / 2) hqb hq0 hq1 ?_
      rw [pow_succ] at hW
      linarith

/-- The initial probes of a built engine exist and are bracketed for every target between
`evaluate(0)` and `evaluate((n-1)·dx)`. -/
theorem initProbes_bracketed (dx : ℚ) (y : List ℚ) (past : Coefficients) (t : ℚ)
    (hdx : 0 < dx) (hn : 3 < y.length)
    (h0 : ∀ v, evaluate (construct dx y past) 0 = some v → v ≤ t)
    (h2 : ∀ v, evaluate (construct dx y past) (((y.length : ℚ) - 1) * dx) = some v → t ≤ v) :
    ∃ p, initProbes (construct dx y past) = some p ∧
      Bracketed (construct dx y past) t (((y.length : ℚ) - 1) * dx) p ∧
      p.x1 - p.x0 ≤ ((y.length : ℚ) - 1) * dx ∧ p.x2 - p.x1 ≤ ((y.length : ℚ) - 1) * dx := by
  have hn4 : (4 : ℚ) ≤ (y.length : ℚ) := by exact_mod_cast hn
  have hL : 0 ≤ ((y.length : ℚ) - 1) * dx := by nlinarith
  have hLn : ((y.length : ℚ) - 1) * dx < (y.length : ℚ) * dx := by nlinarith
  have hd : (1.0 : ℚ) / (construct dx y past).inv_dx = dx := by
    simp [construct]
    norm_num
  have hc : ((((construct dx y past).c.length - 1 : Nat) : ℚ)) = (y.length : ℚ) - 1 := by
    rw [construct_length, Nat.cast_sub (by omega)]
    simp
  have hm0 : 0 ≤ (y.length : ℚ) * 0.5 * dx := by positivity
  have hm1 : (y.length : ℚ) * 0.5 * dx ≤ ((y.length : ℚ) - 1) * dx := by
    norm_num
    nlinarith
  obtain ⟨i0, -, -, -, e0⟩ := evaluate_defined dx y past 0 hdx le_rfl (by linarith)
  obtain ⟨i1, -, -, -, e1⟩ := evaluate_defined dx y past _ hdx hm0 (by linarith)
  obtain ⟨i2, -, -, -, e2⟩ := evaluate_defined dx y past _ hdx hL hLn
  have hp := initProbes_of_eval (construct dx y past) _ _ _ e0
    (by rw [hd, construct_length]; exact e1) (by rw [hd, hc]; exact e2)
  rw [hd, hc, construct_length] at hp
  refine ⟨_, hp, ⟨le_rfl, hm0, hm1, le_rfl, e0, e1, e2, h0 _ e0, h2 _ e2, Nat.zero_le _⟩, ?_, ?_⟩
  · simp only
    linarith
  · simp only
    linarith

/-- Termination of the inverse search on a non-decreasing curve in exact arithmetic, where
every bracketing step is an exact bisection: for every built
engine whose curve is non-decreasing on `[0, (n-1)·dx]` and every `x` in that domain there
is a number of iterations from which on `reverse(evaluate(x))` returns a value, and that
value lies in the domain with its ordinate within `1e-3` of `evaluate(x)`. -/
theorem reverse_converges_of_monotone (dx : ℚ) (y : List ℚ) (past : Coefficients) (x v : ℚ)
    (hdx : 0 < dx) (hn : 3 < y.length)
    (hmono : ∀ a b va vb, 0 ≤ a → a ≤ b → b ≤ ((y.length : ℚ) - 1) * dx →
      evaluate (construct dx y past) a = some va →
      evaluate (construct dx y past) b = some vb → va ≤ vb)
    (hx0 : 0 ≤ x) (hx1 : x ≤ ((y.length : ℚ) - 1) * dx)
    (hv : evaluate (construct dx y past) x = some v) :
    ∃ N, ∀ fuel, N ≤ fuel → ∃ xs, reverse (construct dx y past) v fuel = Outcome.value xs ∧
      0 ≤ xs ∧ xs ≤ ((y.length : ℚ) - 1) * dx ∧
      ∃ w, evaluate (construct dx y past) xs = some w ∧ |w - v| < epsilon := by
  have hn4 : (4 : ℚ) ≤ (y.length : ℚ) := by exact_mod_cast hn
  have hL : 0 ≤ ((y.length : ℚ) - 1) * dx := by nlinarith
  have hLn : ((y.length : ℚ) - 1) * dx < (y.length : ℚ) * dx := by nlinarith
  have hX : 0 ≤ (y.length : ℚ) * dx := by positivity
  have hK := slopeBound_nonneg (construct dx y past) _ hX
  have heps : (0 : ℚ) < epsilon := by unfold epsilon; norm_num
  have hK1 : 0 < slopeBound (construct dx y past) ((y.length : ℚ) * dx) + 1 := by linarith
  have hδ : 0 < min dx (epsilon / (slopeBound (construct dx y past) ((y.length : ℚ) * dx) + 1)) :=
    lt_min hdx (div_pos heps hK1)
  have hKδ : slopeBound (construct dx y past) ((y.length : ℚ) * dx)
      * min dx (epsilon / (slopeBound (construct dx y past) ((y.length : ℚ) * dx) + 1))
      < epsilon := by
    have h1 : slopeBound (construct dx y past) ((y.length : ℚ) * dx)
        * min dx (epsilon / (slopeBound (construct dx y past) ((y.length : ℚ) * dx) + 1))
        ≤ slopeBound (construct dx y past) ((y.length : ℚ) * dx)
          * (epsilon / (slopeBound (construct dx y past) ((y.length : ℚ) * dx) + 1)) :=
      mul_le_mul_of_nonneg_left (min_le_right _ _) hK
    have h2 : slopeBound (construct dx y past) ((y.length : ℚ) * dx)
          * (epsilon / (slopeBound (construct dx y past) ((y.length : ℚ) * dx) + 1))
        < epsilon := by
      rw [mul_div_assoc', div_lt_iff₀ hK1]
      nlinarith
    linarith
  have hdef : ∀ z, 0 ≤ z → z ≤ ((y.length : ℚ) - 1) * dx →
      ∃ w, evaluate (construct dx y past) z = some w := fun z hz0 hz1 => by
    obtain ⟨i, -, -, -, e⟩ := evaluate_defined dx y past z hdx hz0 (by linarith)
    exact ⟨_, e⟩
  have hlip : ∀ a b va vb, 0 ≤ a → a ≤ b → b ≤ ((y.length : ℚ) - 1) * dx →
      b - a ≤ min dx (epsilon / (slopeBound (construct dx y past) ((y.length : ℚ) * dx) + 1)) →
      evaluate (construct dx y past) a = some va →
      evaluate (construct dx y past) b = some vb →
      vb - va ≤ slopeBound (construct dx y past) ((y.length : ℚ) * dx) * (b - a) :=
    fun a b va vb ha hab hb hd hva hvb =>
      le_trans (le_abs_self _) (evaluate_lipschitz dx y past a b va vb hdx ha hab
        (by linarith) (le_trans hd (min_le_left _ _)) hva hvb)
  obtain ⟨p, hp, hbr, hw0, hw1⟩ := initProbes_bracketed dx y past v hdx hn
    (fun w hw => hmono 0 x w v le_rfl hx0 hx1 hw hv)
    (fun w hw => hmono x _ v w hx0 hx1 le_rfl hv hw)
  obtain ⟨N, hN⟩ := pow_unbounded_of_one_lt
    ((((y.length : ℚ) - 1) * dx)
      / min dx (epsilon / (slopeBound (construct dx y past) ((y.length : ℚ) * dx) + 1)))
    (by norm_num : (1 : ℚ) < 2)
  rw [div_lt_iff₀ hδ] at hN
  refine ⟨N + 1, fun fuel hfuel => ?_⟩
  obtain ⟨m, rfl⟩ : ∃ m, fuel = m + 1 := ⟨fuel - 1, by omega⟩
  have hpow : (2 : ℚ) ^ N ≤ 2 ^ m := pow_le_pow_right₀ (by norm_num) (by omega)
  have hW : ((y.length : ℚ) - 1) * dx ≤ 2 ^ m
      * min dx (epsilon / (slopeBound (construct dx y past) ((y.length : ℚ) * dx) + 1)) := by
    have := mul_le_mul_of_nonneg_right hpow hδ.le
    linarith
  obtain ⟨xs, hxs⟩ := reverseLoop_converges (construct dx y past) v _ _ _ hK hKδ hdef hmono
    hlip m p _ hbr hw0 hw1 hW
  obtain ⟨a0, a1, a2, a3, -⟩ := hbr
  have hr : reverse (construct dx y past) v (m + 1) = Outcome.value xs := by
    unfold reverse
    rw [hp]
    exact hxs
  obtain ⟨r0, r1, w, hw, hwv⟩ := reverseLoop_value (construct dx y past) v _ (m + 1) p a0
    (by linarith) (by linarith) (by linarith) (by linarith) a3 xs hxs
  exact ⟨xs, hr, r0, r1, w, hw, hwv⟩

/-! ## C4: the round trip -/

/-- The engine built from `y = [0, 1/4000, 2/4000, 3/4000]`, `dx = 1` is the line
`evaluate(x) = x/4000`. -/
theorem flat_line_eval (x : ℚ) (h0 : 0 ≤ x) (h1 : x ≤ 3) :
    evaluate (construct 1 [0, 1 / 4000, 2 / 4000, 3 / 4000] ⟨0, 0, 0, 0⟩) x
      = some (x / 4000) := by
  have h := evaluate_linear 1 0 (1 / 4000) [0, 1 / 4000, 2 / 4000, 3 / 4000] ⟨0, 0, 0, 0⟩ x
    (by norm_num) (by simp)
    (by
      intro i hi
      simp only [List.length_cons, List.length_nil] at hi
      interval_cases i <;> simp <;> norm_num)
    (Or.inl (by norm_num)) h0 (by simp only [List.length_cons, List.length_nil]; norm_num; linarith)
  rw [h]
  congr 1
  ring

/-- The search for `1/8000 = evaluate(1/2)` on that engine returns `1` in its first
iteration. -/
theorem flat_line_reverse (fuel : Nat) :
    reverse (construct 1 [0, 1 / 4000, 2 / 4000, 3 / 4000] ⟨0, 0, 0, 0⟩) (1 / 8000) (fuel + 1)
      = Outcome.value 1 := by
  have e1 : (((construct 1 [0, 1 / 4000, 2 / 4000, 3 / 4000] ⟨0, 0, 0, 0⟩).c.length : ℚ) * 0.5
      * (1.0 / (construct 1 [0, 1 / 4000, 2 / 4000, 3 / 4000] ⟨0, 0, 0, 0⟩).inv_dx)) = 2 := by
    rw [construct_length]
    simp [construct]
    norm_num
  have e2 : ((((construct 1 [0, 1 / 4000, 2 / 4000, 3 / 4000] ⟨0, 0, 0, 0⟩).c.length - 1 : Nat)
      : ℚ) * (1.0 / (construct 1 [0, 1 / 4000, 2 / 4000, 3 / 4000] ⟨0, 0, 0, 0⟩).inv_dx))
      = 3 := by
    rw [construct_length]
    simp [construct]
    norm_num
  have hp := initProbes_of_eval (construct 1 [0, 1 / 4000, 2 / 4000, 3 / 4000] ⟨0, 0, 0, 0⟩)
    (0 / 4000) (2 / 4000) (3 / 4000) (flat_line_eval 0 (by norm_num) (by norm_num))
    (by rw [e1]; exact flat_line_eval 2 (by norm_num) (by norm_num))
    (by rw [e2]; exact flat_line_eval 3 (by norm_num) (by norm_num))
  rw [e1, e2] at hp
  unfold reverse
  rw [hp]
  simp only
  rw [reverseLoop_left _ (1 / 8000) fuel _ (1 / 4000) (by norm_num)
    (by simp only; rw [show (0.5 : ℚ) * (0 + 2) = 1 by norm_num]
        rw [flat_line_eval 1 (by norm_num) (by norm_num)])]
  rw [if_pos (by simp only [epsilon]; rw [abs_lt]; constructor <;> norm_num)]
  simp only
  rw [show (0.5 : ℚ) * (0 + 2) = 1 by norm_num]
  exact finish_nonneg 1 (by norm_num)

/-- The search for `17/2 = evaluate(3/2)` on the engine built from the decreasing samples
`y = [10, 9, 8, 7, 6]`, `dx = 1` only takes recovery steps and fails. -/
theorem decreasing_reverse_fails (fuel : Nat) (hfuel : max_loops < fuel) :
    reverse (construct 1 [10, 9, 8, 7, 6] ⟨0, 0, 0, 0⟩) (17 / 2) fuel = Outcome.failed := by
  unfold reverse
  cases hp : initProbes (construct 1 [10, 9, 8, 7, 6] ⟨0, 0, 0, 0⟩) with
  | none => rfl
  | some p =>
    simp only
    obtain ⟨e0, -, e2, ec, v0, -, v2⟩ :=
      initProbes_construct 1 [10, 9, 8, 7, 6] ⟨0, 0, 0, 0⟩ p (by simp) hp
    obtain ⟨k0, -, -, -, k4, -⟩ := decreasing_scenario_values ⟨0, 0, 0, 0⟩
    have hy0 : p.y0 = 10 := by
      rw [e0, k0] at v0
      exact (Option.some.inj v0).symm
    have hy2 : p.y2 = 6 := by
      have e4 : p.x2 = 4 := by
        rw [e2]
        simp only [List.length_cons, List.length_nil]
        norm_num
      rw [e4, k4] at v2
      exact (Option.some.inj v2).symm
    refine reverseLoop_stuck _ (17 / 2) (fun q => 17 / 2 < q.y0 ∧ q.y2 < 17 / 2) ?_ ?_ fuel p
      ⟨by rw [hy0]; norm_num, by rw [hy2]; norm_num⟩ (by omega) (by omega)
    · rintro q ⟨q0, q2⟩
      exact ⟨fun c => absurd c.1 (not_le.mpr q0), fun c => absurd c.2 (not_le.mpr q2)⟩
    · rintro q v ⟨q0, q2⟩ -
      exact ⟨q0, q2⟩

/-- C4 (counterexample): (a) the samples `[0, 1/4000, 2/4000, 3/4000]`, `dx = 1`, are
strictly increasing and `x = 1/2` is interior, yet `reverse(evaluate(1/2))` returns `1`,
which is `1/2` away from `x`; (b) the samples `[10, 9, 8, 7, 6]`, `dx = 1`, are strictly
decreasing and `x = 3/2` is interior, yet `reverse(evaluate(3/2))` fails. -/
theorem round_trip_counterexample :
    (List.Pairwise (fun a b : ℚ => a < b) [0, 1 / 4000, 2 / 4000, 3 / 4000] ∧
      build 1 [0, 1 / 4000, 2 / 4000, 3 / 4000] ⟨0, 0, 0, 0⟩
        = some (construct 1 [0, 1 / 4000, 2 / 4000, 3 / 4000] ⟨0, 0, 0, 0⟩) ∧
      evaluate (construct 1 [0, 1 / 4000, 2 / 4000, 3 / 4000] ⟨0, 0, 0, 0⟩) (1 / 2)
        = some (1 / 8000) ∧
      (∀ fuel, reverse (construct 1 [0, 1 / 4000, 2 / 4000, 3 / 4000] ⟨0, 0, 0, 0⟩)
        (1 / 8000) (fuel + 1) = Outcome.value 1) ∧
      ¬ (|(1 : ℚ) - 1 / 2| < 1 / 100)) ∧
    (List.Pairwise (fun a b : ℚ => b < a) [10, 9, 8, 7, 6] ∧
      build 1 [10, 9, 8, 7, 6] ⟨0, 0, 0, 0⟩ = some (construct 1 [10, 9, 8, 7, 6] ⟨0, 0, 0, 0⟩) ∧
      evaluate (construct 1 [10, 9, 8, 7, 6] ⟨0, 0, 0, 0⟩) (3 / 2) = some (17 / 2) ∧
      (∀ fuel, max_loops < fuel →
        reverse (construct 1 [10, 9, 8, 7, 6] ⟨0, 0, 0, 0⟩) (17 / 2) fuel = Outcome.failed)) := by
  refine ⟨⟨by simp; norm_num, build_construct 1 _ _ (by norm_num) (by simp), ?_,
    flat_line_reverse,
    by rw [show (1 : ℚ) - 1 / 2 = 1 / 2 by norm_num, abs_of_pos (by norm_num)]; norm_num⟩,
    ⟨by simp; norm_num, build_construct 1 _ _ (by norm_num) (by simp),
      (decreasing_scenario_values ⟨0, 0, 0, 0⟩).2.2.2.2.2, decreasing_reverse_fails⟩⟩
  rw [flat_line_eval (1 / 2) (by norm_num) (by norm_num)]
  norm_num

/-! ## The buffer the derivative loop works on -/

/-- The content of `c[j].b` when the derivative loop has run. -/
theorem estimateDerivatives_b (dx : ℚ) (y : List ℚ) (past : Coefficients) (j : Nat)
    (hn : 3 < y.length) :
    ((estimateDerivatives dx y past).slot j).b = slopeB dx y past j := by
  obtain ⟨m, hm⟩ : ∃ m, y.length = m + 4 := ⟨y.length - 4, by omega⟩
  unfold estimateDerivatives
  simp only [derivativeLoop, (derivativeLoop_bcd _ _ _ _ _).1, weightLoop, slopeLoop]
  simp only [hm, show m + 4 - 1 = m + 3 from rfl, show m + 4 - 2 = m + 2 from rfl,
    show m + 4 - 3 = m + 1 from rfl]
  simp only [setD_b, setC_b, weightSteps_b, setB_b, slopeLoop_init_b]
  unfold slopeB
  simp only [hm, show m + 4 - 2 = m + 2 from rfl]
  by_cases h2 : j = m + 3
  · subst h2
    simp
  by_cases h3 : j < m + 3
  · simp [h2, h3]
  · have f1 : ¬ j + 1 < m + 4 := by omega
    have f2 : j + 1 ≠ m + 4 := by omega
    have f3 : ¬ j < m + 4 := by omega
    simp [h2, h3, f1, f2, f3]

/-- The weight `c[j].c` when the derivative loop has run. -/
theorem estimateDerivatives_c (dx : ℚ) (y : List ℚ) (past : Coefficients) (j : Nat)
    (hn : 3 < y.length) (hj : j < y.length) :
    ((estimateDerivatives dx y past).slot j).c = weight1 dx y past j := by
  obtain ⟨m, hm⟩ : ∃ m, y.length = m + 4 := ⟨y.length - 4, by omega⟩
  unfold estimateDerivatives
  simp only [derivativeLoop, (derivativeLoop_bcd _ _ _ _ _).2.1, weightLoop, slopeLoop]
  simp only [hm, show m + 4 - 1 = m + 3 from rfl, show m + 4 - 2 = m + 2 from rfl,
    show m + 4 - 3 = m + 1 from rfl]
  simp only [setD_b, setC_b, setD_c, setC_c, weightSteps_b, weightLoop_c, setB_b, setB_c,
    slopeLoop_init_b]
  unfold weight1 slopeB
  simp only [hm, show m + 4 - 2 = m + 2 from rfl]
  rw [hm] at hj
  by_cases h0 : j = 0
  · subst h0
    simp
  by_cases h1 : j = 1
  · subst h1
    simp
  by_cases h2 : j = m + 3
  · subst h2
    simp
  by_cases h3 : j = m + 2
  · subst h3
    simp
  have f1 : 2 ≤ j ∧ j < m + 2 := by omega
  have f4 : j < m + 3 := by omega
  have f5 : j + 1 < m + 3 := by omega
  have f8 : j + 1 ≠ m + 3 := by omega
  have f11 : j + 1 < m + 4 := by omega
  have f12 : j + 1 + 1 < m + 4 := by omega
  have f13 : j + 1 ≠ m + 4 := by omega
  simp [h0, h1, h2, h3, f1, f4, f5, f8, f11, f12, f13]

/-- The weight `c[j].d` when the derivative loop has run. -/
theorem estimateDerivatives_d (dx : ℚ) (y : List ℚ) (past : Coefficients) (j : Nat)
    (hn : 3 < y.length) (hj : j < y.length) :
    ((estimateDerivatives dx y past).slot j).d = weight0 dx y past j := by
  obtain ⟨m, hm⟩ : ∃ m, y.length = m + 4 := ⟨y.length - 4, by omega⟩
  unfold estimateDerivatives
  simp only [derivativeLoop, (derivativeLoop_bcd _ _ _ _ _).2.2, weightLoop, slopeLoop]
  simp only [hm, show m + 4 - 1 = m + 3 from rfl, show m + 4 - 2 = m + 2 from rfl,
    show m + 4 - 3 = m + 1 from rfl]
  simp only [setD_b, setC_b, setD_d, setC_d, weightSteps_b, weightLoop_d, setB_b, setB_d,
    slopeLoop_init_b]
  unfold weight0 prevSlope prevSlope2 slopeB
  simp only [hm, show m + 4 - 2 = m + 2 from rfl]
  rw [hm] at hj
  by_cases h0 : j = 0
  · subst h0
    simp
  by_cases h1 : j = 1
  · subst h1
    simp
  by_cases h2 : j = m + 3
  · subst h2
    simp
  by_cases h3 : j = m + 2
  · subst h3
    simp
  have f1 : 2 ≤ j ∧ j < m + 2 := by omega
  have f2 : j - 2 < m + 3 := by omega
  have f3 : j - 1 < m + 3 := by omega
  have f6 : j - 2 ≠ m + 3 := by omega
  have f7 : j - 1 ≠ m + 3 := by omega
  have f9 : j - 2 + 1 < m + 4 := by omega
  have f10 : j - 1 + 1 < m + 4 := by omega
  simp [h0, h1, h2, h3, f1, f2, f3, f6, f7, f9, f10]

/-- The values the derivative loop reads for sample `i`, in closed form. -/
theorem builderInputs_eq (dx : ℚ) (y : List ℚ) (past : Coefficients) (i : Nat)
    (hn : 3 < y.length) (hi : i < y.length) :
    builderInputs dx y past i
      = ⟨prevSlope2 dx y past i, prevSlope dx y past i, slopeB dx y past i,
          slopeB dx y past (i + 1), weight0 dx y past i, weight1 dx y past i⟩ := by
  have e0 : slopeB dx y past 0 = slope dx y 0 := by
    unfold slopeB
    rw [if_pos (by omega)]
  have e1 : slopeB dx y past 1 = slope dx y 1 := by
    unfold slopeB
    rw [if_pos (by omega)]
  unfold builderInputs derivativeInputs
  simp only [estimateDerivatives_b dx y past _ hn, estimateDerivatives_c dx y past i hn hi,
    estimateDerivatives_d dx y past i hn hi, e0, e1]
  unfold prevSlope2 prevSlope
  rfl

/-- The derivative estimate of sample `i` is the case table of lines 97-107 applied to
the values the loop reads for sample `i`. -/
theorem tangent_eq_inputs (dx : ℚ) (y : List ℚ) (past : Coefficients) (i : Nat)
    (hn : 3 < y.length) (hi : i < y.length) :
    tangent dx y past i
      = derivative (builderInputs dx y past i).d_2 (builderInputs dx y past i).d_1
          (builderInputs dx y past i).d0 (builderInputs dx y past i).d1
          (builderInputs dx y past i).w0 (builderInputs dx y past i).w1 := by
  rw [builderInputs_eq dx y past i hn hi, tangent_eq dx y past i hn hi]

/-! ## C12: the Hermite conditions of a segment -/

/-- C12: for a built engine and every segment `i < n-1`, the stored cubic
`p_i(x) = a + b·x + c·x² + d·x³` satisfies `p_i(i·dx) = y[i]`, `p_i((i+1)·dx) = y[i+1]`,
`p_i'(i·dx) = t_i` and `p_i'((i+1)·dx) = t_{i+1}`, where `t_i`, `t_{i+1}` are the derivative
estimates the builder computed for the samples `i` and `i+1`. -/
theorem hermite_conditions (dx : ℚ) (y : List ℚ) (past : Coefficients) (s : Spline) (i : Nat)
    (hb : build dx y past = some s) (hi : i + 1 < y.length) :
    ∃ k : Coefficients, s.c[i]? = some k ∧
      k.a + k.b * ((i : ℚ) * dx) + k.c * ((i : ℚ) * dx) ^ 2 + k.d * ((i : ℚ) * dx) ^ 3
        = y.getD i 0 ∧
      k.a + k.b * (((i : ℚ) + 1) * dx) + k.c * (((i : ℚ) + 1) * dx) ^ 2
          + k.d * (((i : ℚ) + 1) * dx) ^ 3 = y.getD (i + 1) 0 ∧
      k.b + 2 * k.c * ((i : ℚ) * dx) + 3 * k.d * ((i : ℚ) * dx) ^ 2 = tangent dx y past i ∧
      k.b + 2 * k.c * (((i : ℚ) + 1) * dx) + 3 * k.d * (((i : ℚ) + 1) * dx) ^ 2
        = tangent dx y past (i + 1) := by
  obtain ⟨hdx, -, rfl⟩ := (build_eq_some_iff dx y past s).mp hb
  have hne : dx ≠ 0 := ne_of_gt hdx
  refine ⟨_, construct_get dx y past i (by omega), ?_, ?_, ?_, ?_⟩
  · rw [← horner_eq, fillBuffer_segment dx y past i hi, segment_value_left]
  · rw [← horner_eq, fillBuffer_segment dx y past i hi, segment_value_right _ _ _ _ _ _ hne]
  · have h := segment_deriv_left dx i (y.getD i 0) (y.getD (i + 1) 0) (tangent dx y past i)
      (tangent dx y past (i + 1)) hne
    rw [← fillBuffer_segment dx y past i hi] at h
    exact h
  · have h := segment_deriv_right dx i (y.getD i 0) (y.getD (i + 1) 0) (tangent dx y past i)
      (tangent dx y past (i + 1)) hne
    rw [← fillBuffer_segment dx y past i hi] at h
    exact h

/-- C12 at `y = [10, 9, 8, 7, 6]`, `dx = 1`, segment `i = 1`. -/
theorem hermite_conditions_witness :
    ∃ k : Coefficients, (construct 1 [10, 9, 8, 7, 6] ⟨0, 0, 0, 0⟩).c[1]? = some k ∧
      k.a + k.b * (((1 : Nat) : ℚ) * 1) + k.c * (((1 : Nat) : ℚ) * 1) ^ 2
          + k.d * (((1 : Nat) : ℚ) * 1) ^ 3 = ([10, 9, 8, 7, 6] : List ℚ).getD 1 0 ∧
      k.a + k.b * ((((1 : Nat) : ℚ) + 1) * 1) + k.c * ((((1 : Nat) : ℚ) + 1) * 1) ^ 2
          + k.d * ((((1 : Nat) : ℚ) + 1) * 1) ^ 3 = ([10, 9, 8, 7, 6] : List ℚ).getD (1 + 1) 0 ∧
      k.b + 2 * k.c * (((1 : Nat) : ℚ) * 1) + 3 * k.d * (((1 : Nat) : ℚ) * 1) ^ 2
        = tangent 1 [10, 9, 8, 7, 6] ⟨0, 0, 0, 0⟩ 1 ∧
      k.b + 2 * k.c * ((((1 : Nat) : ℚ) + 1) * 1) + 3 * k.d * ((((1 : Nat) : ℚ) + 1) * 1) ^ 2
        = tangent 1 [10, 9, 8, 7, 6] ⟨0, 0, 0, 0⟩ (1 + 1) :=
  hermite_conditions 1 [10, 9, 8, 7, 6] ⟨0, 0, 0, 0⟩ _ 1
    (build_construct 1 _ _ (by norm_num) (by simp)) (by simp)

/-! ## C13: the trailing extrapolated slopes -/

/-- The trailing extrapolation as the builder computes it: `z2` (held in `c[points-1].b`,
read as `d0` of the last sample and as `d1` of the sample before) is twice the last real
slope, because line 55 subtracts the still zero `c[points-1].b`; and the weight `|z3 - z2|`
of the last sample is `|z2|`, because line 56 subtracts the same zero. -/
theorem trailing_extrapolation (dx : ℚ) (y : List ℚ) (past : Coefficients)
    (hn : 3 < y.length) :
    (builderInputs dx y past (y.length - 1)).d0 = 2 * slope dx y (y.length - 2) ∧
    (builderInputs dx y past (y.length - 2)).d1 = 2 * slope dx y (y.length - 2) ∧
    (builderInputs dx y past (y.length - 1)).w1 = |2 * slope dx y (y.length - 2)| := by
  have e1 : y.length - 1 + 1 = y.length := by omega
  have e2 : y.length - 2 + 1 = y.length - 1 := by omega
  rw [builderInputs_eq dx y past _ hn (by omega), builderInputs_eq dx y past _ hn (by omega)]
  simp only [e2]
  unfold slopeB weight1
  simp only [e1, lt_irrefl, if_false, if_true]
  refine ⟨by norm_num, by norm_num, ?_⟩
  congr 1
  norm_num
  ring

/-- C13 (the code at a failing input): for `y = [0, 1, 3, 6, 10]`, `dx = 1` the real slopes
end with `m_2 = 3`, `m_3 = 4`, so the claim gives `m_4 = 5` and `m_5 = 6`; the builder holds
`z2 = 8` as the slope after the last sample and `|z3 - z2| = 8` (that is `z3 = 16`) as the
weight of the last sample. -/
theorem trailing_slopes_not_extrapolated :
    slope 1 [0, 1, 3, 6, 10] 2 = 3 ∧ slope 1 [0, 1, 3, 6, 10] 3 = 4 ∧
    (builderInputs 1 [0, 1, 3, 6, 10] ⟨0, 0, 0, 0⟩ 4).d0 = 8 ∧
    (builderInputs 1 [0, 1, 3, 6, 10] ⟨0, 0, 0, 0⟩ 3).d1 = 8 ∧
    (builderInputs 1 [0, 1, 3, 6, 10] ⟨0, 0, 0, 0⟩ 4).w1 = 8 ∧
    (8 : ℚ) ≠ 2 * 4 - 3 ∧ (8 : ℚ) ≠ |(2 * (2 * 4 - 3) - 4) - (2 * 4 - 3)| := by
  have h := trailing_extrapolation 1 [0, 1, 3, 6, 10] ⟨0, 0, 0, 0⟩ (by simp)
  simp only [List.length_cons, List.length_nil] at h
  have e3 : slope 1 [0, 1, 3, 6, 10] 3 = 4 := by simp [slope]; norm_num
  have e2 : slope 1 [0, 1, 3, 6, 10] 2 = 3 := by simp [slope]; norm_num
  rw [show (0 + 1 + 1 + 1 + 1 + 1 - 1 : Nat) = 4 from rfl,
    show (0 + 1 + 1 + 1 + 1 + 1 - 2 : Nat) = 3 from rfl, e3] at h
  refine ⟨e2, e3, ?_, ?_, ?_, by norm_num, by norm_num⟩
  · rw [h.1]; norm_num
  · rw [h.2.1]; norm_num
  · rw [h.2.2]; norm_num

/-! ## C14: the derivative estimates away from the trailing boundary -/

/-- The case table of the code, fed with the weights of the spec, is the case table of the
spec. -/
theorem derivative_eq_specDerivative (m_2 m_1 m0 m1 : ℚ) :
    derivative m_2 m_1 m0 m1 |m_1 - m_2| |m1 - m0| = specDerivative m_2 m_1 m0 m1 := by
  unfold derivative specDerivative
  norm_num

/-- C14: for every sample index `i ≤ n-3` the derivative estimate `t_i` of the builder is
the case table of the spec applied to `(m_{i-2}, m_{i-1}, m_i, m_{i+1})`, where
`m_j = (y[j+1]-y[j])/dx` for `0 ≤ j ≤ n-2`, `m_{-1} = 2·m_0 - m_1`, `m_{-2} = 2·m_{-1} - m_0`,
and the weights are `w1 = |m_{i+1} - m_i|`, `w0 = |m_{i-1} - m_{i-2}|`. -/
theorem derivative_table (dx : ℚ) (y : List ℚ) (past : Coefficients) (i : Nat)
    (hn : 3 < y.length) (hi : i + 2 < y.length) :
    tangent dx y past i
      = specDerivative (specSlope dx y ((i : ℤ) - 2)) (specSlope dx y ((i : ℤ) - 1))
          (specSlope dx y (i : ℤ)) (specSlope dx y ((i : ℤ) + 1)) := by
  have hB : ∀ j, j + 1 < y.length → slopeB dx y past j = slope dx y j := fun j hj => by
    unfold slopeB
    rw [if_pos hj]
  have s0 : specSlope dx y (i : ℤ) = slope dx y i := by
    unfold specSlope
    rw [if_neg (by omega), if_neg (by omega), Int.toNat_natCast]
  have s1 : specSlope dx y ((i : ℤ) + 1) = slope dx y (i + 1) := by
    unfold specSlope
    rw [if_neg (by omega), if_neg (by omega)]
    congr 1
  have p1 : prevSlope dx y past i = specSlope dx y ((i : ℤ) - 1) := by
    unfold prevSlope specSlope
    by_cases h0 : i = 0
    · subst h0
      norm_num
    · rw [if_neg h0, if_neg (by omega), if_neg (by omega), hB (i - 1) (by omega)]
      congr 1
      omega
  have p2 : prevSlope2 dx y past i = specSlope dx y ((i : ℤ) - 2) := by
    unfold prevSlope2 specSlope
    by_cases h0 : i = 0
    · subst h0
      norm_num
    · by_cases h1 : i = 1
      · subst h1
        norm_num
      · rw [if_neg h0, if_neg h1, if_neg (by omega), if_neg (by omega), hB (i - 2) (by omega)]
        congr 1
        omega
  have w1 : weight1 dx y past i = |slope dx y (i + 1) - slope dx y i| := by
    unfold weight1
    rw [if_neg (by omega), hB i (by omega), hB (i + 1) (by omega)]
  rw [tangent_eq dx y past i hn (by omega), w1]
  unfold weight0
  rw [hB i (by omega), hB (i + 1) (by omega), p1, p2, s0, s1]
  exact derivative_eq_specDerivative _ _ _ _

/-- C14 at `y = [0, 100, 200, 201, 203, 303, 403]`, `dx = 1`, sample `i = 3`. -/
theorem derivative_table_witness :
    tangent 1 [0, 100, 200, 201, 203, 303, 403] ⟨0, 0, 0, 0⟩ 3
      = specDerivative (specSlope 1 [0, 100, 200, 201, 203, 303, 403] (((3 : Nat) : ℤ) - 2))
          (specSlope 1 [0, 100, 200, 201, 203, 303, 403] (((3 : Nat) : ℤ) - 1))
          (specSlope 1 [0, 100, 200, 201, 203, 303, 403] ((3 : Nat) : ℤ))
          (specSlope 1 [0, 100, 200, 201, 203, 303, 403] (((3 : Nat) : ℤ) + 1)) :=
  derivative_table 1 [0, 100, 200, 201, 203, 303, 403] ⟨0, 0, 0, 0⟩ 3 (by simp) (by simp)

/-! ## C15: the denominator of the weighted average -/

/-- C15: for every sample index `i` in `[0, n-1]`, whenever the values the derivative loop
reads for sample `i` pass all four special cases, so that the weighted-average branch is
reached, the denominator `w1 + w0` is strictly positive (and the estimate is the weighted
average). -/
theorem weighted_average_denominator_pos (dx : ℚ) (y : List ℚ) (past : Coefficients) (i : Nat)
    (hn : 3 < y.length) (hi : i < y.length)
    (h1 : ¬ ((builderInputs dx y past i).d_2 = (builderInputs dx y past i).d_1 ∧
      (builderInputs dx y past i).d0 ≠ (builderInputs dx y past i).d1))
    (h2 : ¬ ((builderInputs dx y past i).d0 = (builderInputs dx y past i).d1 ∧
      (builderInputs dx y past i).d_2 = (builderInputs dx y past i).d_1))
    (h3 : ¬ (builderInputs dx y past i).d_1 = (builderInputs dx y past i).d0)
    (h4 : ¬ ((builderInputs dx y past i).d_2 = (builderInputs dx y past i).d_1 ∧
      (builderInputs dx y past i).d0 = (builderInputs dx y past i).d1 ∧
      (builderInputs dx y past i).d0 ≠ (builderInputs dx y past i).d_1)) :
    0 < (builderInputs dx y past i).w1 + (builderInputs dx y past i).w0 ∧
    tangent dx y past i
      = ((builderInputs dx y past i).d_1 * (builderInputs dx y past i).w1
          + (builderInputs dx y past i).d0 * (builderInputs dx y past i).w0)
        / ((builderInputs dx y past i).w1 + (builderInputs dx y past i).w0) := by
  constructor
  · have hne : (builderInputs dx y past i).d_2 ≠ (builderInputs dx y past i).d_1 := by
      intro e
      by_cases c : (builderInputs dx y past i).d0 = (builderInputs dx y past i).d1
      · exact h2 ⟨c, e⟩
      · exact h1 ⟨e, c⟩
    rw [builderInputs_eq dx y past i hn hi] at hne ⊢
    simp only at hne ⊢
    have hw0 : 0 < weight0 dx y past i := by
      unfold weight0
      exact abs_pos.mpr (sub_ne_zero.mpr (Ne.symm hne))
    have hw1 : 0 ≤ weight1 dx y past i := by
      unfold weight1
      split_ifs <;> exact abs_nonneg _
    linarith
  · rw [tangent_eq_inputs dx y past i hn hi]
    unfold derivative
    rw [if_neg h1, if_neg h2, if_neg h3, if_neg h4]

/-- The values the derivative loop reads for sample 3 of
`y = [0, 100, 200, 201, 203, 303, 403]`, `dx = 1`. -/
theorem overshoot_inputs :
    builderInputs 1 [0, 100, 200, 201, 203, 303, 403] ⟨0, 0, 0, 0⟩ 3
      = ⟨100, 1, 2, 100, 99, 98⟩ := by
  rw [builderInputs_eq 1 _ _ 3 (by simp) (by simp)]
  simp [prevSlope2, prevSlope, slopeB, weight0, weight1, slope]
  norm_num

/-- C15 at `y = [0, 100, 200, 201, 203, 303, 403]`, `dx = 1`, sample `i = 3`, where the loop
reads `d_2 = 100`, `d_1 = 1`, `d0 = 2`, `d1 = 100` and takes the weighted average. -/
theorem weighted_average_denominator_pos_witness :
    0 < (builderInputs 1 [0, 100, 200, 201, 203, 303, 403] ⟨0, 0, 0, 0⟩ 3).w1
        + (builderInputs 1 [0, 100, 200, 201, 203, 303, 403] ⟨0, 0, 0, 0⟩ 3).w0 ∧
    tangent 1 [0, 100, 200, 201, 203, 303, 403] ⟨0, 0, 0, 0⟩ 3
      = ((builderInputs 1 [0, 100, 200, 201, 203, 303, 403] ⟨0, 0, 0, 0⟩ 3).d_1
            * (builderInputs 1 [0, 100, 200, 201, 203, 303, 403] ⟨0, 0, 0, 0⟩ 3).w1
          + (builderInputs 1 [0, 100, 200, 201, 203, 303, 403] ⟨0, 0, 0, 0⟩ 3).d0
            * (builderInputs 1 [0, 100, 200, 201, 203, 303, 403] ⟨0, 0, 0, 0⟩ 3).w0)
        / ((builderInputs 1 [0, 100, 200, 201, 203, 303, 403] ⟨0, 0, 0, 0⟩ 3).w1
          + (builderInputs 1 [0, 100, 200, 201, 203, 303, 403] ⟨0, 0, 0, 0⟩ 3).w0) :=
  weighted_average_denominator_pos 1 [0, 100, 200, 201, 203, 303, 403] ⟨0, 0, 0, 0⟩ 3
    (by simp) (by simp)
    (by rw [overshoot_inputs]; norm_num)
    (by rw [overshoot_inputs]; norm_num)
    (by rw [overshoot_inputs]; norm_num)
    (by rw [overshoot_inputs]; norm_num)

/-! ## C18: the indices the builder uses -/

/-- For the last sample the derivative loop reads `d1` from `c[points]`, the word behind
the coefficient array: its value is whatever that memory holds. -/
theorem last_sample_reads_past (dx : ℚ) (y : List ℚ) (past : Coefficients)
    (hn : 3 < y.length) :
    y.length ∈ derivativeReadIndices (y.length - 1) ∧
    (builderInputs dx y past (y.length - 1)).d1 = past.b := by
  constructor
  · unfold derivativeReadIndices
    rw [if_neg (by omega), if_neg (by omega)]
    have e : y.length - 1 + 1 = y.length := by omega
    simp [e]
  · rw [builderInputs_eq dx y past _ hn (by omega)]
    have e : y.length - 1 + 1 = y.length := by omega
    simp only [e]
    unfold slopeB
    rw [if_neg (by omega), if_neg (by omega)]

/-- C18 (the code at a failing input): for the 5 samples `y = [0, 1, 2, 3, 4]`, `dx = 1`,
the coefficient array has the indices `0 .. 4`; the derivative loop for the last sample
`i = 4` reads index `5`, and the derivative estimate it stores for that sample is `1` or
`2` depending on what the word `c[5].b` behind the array holds (`0` or `2`). -/
theorem builder_reads_out_of_range :
    ([0, 1, 2, 3, 4] : List ℚ).length = 5 ∧ 5 ∈ derivativeReadIndices 4 ∧
    (builderInputs 1 [0, 1, 2, 3, 4] ⟨0, 2, 0, 0⟩ 4).d1 = 2 ∧
    (builderInputs 1 [0, 1, 2, 3, 4] ⟨0, 0, 0, 0⟩ 4).d1 = 0 ∧
    tangent 1 [0, 1, 2, 3, 4] ⟨0, 2, 0, 0⟩ 4 = 2 ∧
    tangent 1 [0, 1, 2, 3, 4] ⟨0, 0, 0, 0⟩ 4 = 1 := by
  have h2 := last_sample_reads_past 1 [0, 1, 2, 3, 4] ⟨0, 2, 0, 0⟩ (by simp)
  have h0 := last_sample_reads_past 1 [0, 1, 2, 3, 4] ⟨0, 0, 0, 0⟩ (by simp)
  simp only [List.length_cons, List.length_nil] at h2 h0
  rw [show (0 + 1 + 1 + 1 + 1 + 1 - 1 : Nat) = 4 from rfl,
    show (0 + 1 + 1 + 1 + 1 + 1 : Nat) = 5 from rfl] at h2 h0
  refine ⟨rfl, h2.1, h2.2, h0.2, ?_, ?_⟩
  · rw [tangent_eq 1 _ _ 4 (by simp) (by simp)]
    simp [prevSlope2, prevSlope, slopeB, weight0, weight1, slope, derivative]
    norm_num
  · rw [tangent_eq 1 _ _ 4 (by simp) (by simp)]
    simp [prevSlope2, prevSlope, slopeB, weight0, weight1, slope, derivative]
    norm_num

/-! ## One iteration of the search loop -/

/-- One iteration of the search loop whose forward evaluation succeeds: a probe computed
in a bracketing branch is accepted when its ordinate is within `epsilon` of the target;
otherwise the loop is left through the cap or goes on from `stepProbes`. -/
theorem reverseLoop_step (s : Spline) (t : ℚ) (n : Nat) (p : Probes) (v : ℚ)
    (he : evaluate s (nextProbe t p) = some v) :
    reverseLoop s t (n + 1) p
      = if ((p.y0 ≤ t ∧ t ≤ p.y1) ∨ (p.y1 < t ∧ t ≤ p.y2)) ∧ |v - t| < epsilon then
          finish (nextProbe t p)
        else if max_loops < (stepProbes t p v).counter then finish (-1.0)
        else reverseLoop s t n (stepProbes t p v) := by
  unfold nextProbe at he ⊢
  unfold stepProbes
  by_cases c1 : p.y0 ≤ t ∧ t ≤ p.y1
  · rw [if_pos c1] at he
    rw [reverseLoop_left s t n p v c1 he]
    have hc : ((p.y0 ≤ t ∧ t ≤ p.y1) ∨ (p.y1 < t ∧ t ≤ p.y2)) := Or.inl c1
    simp only [if_pos c1, hc, true_and]
  · rw [if_neg c1] at he
    by_cases c2 : p.y1 < t ∧ t ≤ p.y2
    · rw [if_pos c2] at he
      rw [reverseLoop_right s t n p v c1 c2 he]
      have hc : ((p.y0 ≤ t ∧ t ≤ p.y1) ∨ (p.y1 < t ∧ t ≤ p.y2)) := Or.inr c2
      simp only [if_neg c1, if_pos c2, hc, true_and]
    · rw [if_neg c2] at he
      rw [reverseLoop_recover s t n p v c1 c2 he]
      have hc : ¬ ((p.y0 ≤ t ∧ t ≤ p.y1) ∨ (p.y1 < t ∧ t ≤ p.y2)) := fun h => h.elim c1 c2
      simp only [if_neg c1, if_neg c2, hc, false_and, if_false]

/-- One iteration of the search loop whose forward evaluation fails. -/
theorem reverseLoop_step_none (s : Spline) (t : ℚ) (n : Nat) (p : Probes)
    (he : evaluate s (nextProbe t p) = none) :
    reverseLoop s t (n + 1) p = Outcome.failed :=
  reverseLoop_eval_none s t n p he

/-- The abscissa of the next forward evaluation and the abscissas of the next state stay
in the domain. -/
theorem inDomain_step (t L : ℚ) (p : Probes) (v : ℚ) (hp : InDomain L p) :
    0 ≤ nextProbe t p ∧ nextProbe t p ≤ L ∧ InDomain L (stepProbes t p v) := by
  obtain ⟨a0, b0, a1, b1, a2, b2⟩ := hp
  unfold nextProbe stepProbes InDomain
  by_cases c1 : p.y0 ≤ t ∧ t ≤ p.y1
  · simp only [if_pos c1]
    refine ⟨?_, ?_, a0, b0, ?_, ?_, a1, b1⟩ <;> norm_num <;> linarith
  · by_cases c2 : p.y1 < t ∧ t ≤ p.y2
    · simp only [if_neg c1, if_pos c2]
      refine ⟨?_, ?_, a1, b1, ?_, ?_, a2, b2⟩ <;> norm_num <;> linarith
    · simp only [if_neg c1, if_neg c2]
      refine ⟨?_, ?_, a0, b0, ?_, ?_, a2, b2⟩ <;> norm_num <;> linarith

/-- The initial probes of a built engine exist. -/
theorem initProbes_construct_some (dx : ℚ) (y : List ℚ) (past : Coefficients)
    (hdx : 0 < dx) (hn : 3 < y.length) :
    ∃ p, initProbes (construct dx y past) = some p ∧
      p.x0 = 0 ∧ p.x1 = (y.length : ℚ) * 0.5 * dx ∧ p.x2 = ((y.length : ℚ) - 1) * dx ∧
      p.counter = 0 ∧
      evaluate (construct dx y past) p.x0 = some p.y0 ∧
      evaluate (construct dx y past) p.x1 = some p.y1 ∧
      evaluate (construct dx y past) p.x2 = some p.y2 ∧
      InDomain (((y.length : ℚ) - 1) * dx) p := by
  have hn4 : (4 : ℚ) ≤ (y.length : ℚ) := by exact_mod_cast hn
  have hL : 0 ≤ ((y.length : ℚ) - 1) * dx := by nlinarith
  have hLn : ((y.length : ℚ) - 1) * dx < (y.length : ℚ) * dx := by nlinarith
  have hd : (1.0 : ℚ) / (construct dx y past).inv_dx = dx := by
    simp [construct]
    norm_num
  have hc : ((((construct dx y past).c.length - 1 : Nat) : ℚ)) = (y.length : ℚ) - 1 := by
    rw [construct_length, Nat.cast_sub (by omega)]
    simp
  have hm0 : 0 ≤ (y.length : ℚ) * 0.5 * dx := by positivity
  have hm1 : (y.length : ℚ) * 0.5 * dx ≤ ((y.length : ℚ) - 1) * dx := by
    norm_num
    nlinarith
  obtain ⟨i0, -, -, -, e0⟩ := evaluate_defined dx y past 0 hdx le_rfl (by linarith)
  obtain ⟨i1, -, -, -, e1⟩ := evaluate_defined dx y past _ hdx hm0 (by linarith)
  obtain ⟨i2, -, -, -, e2⟩ := evaluate_defined dx y past _ hdx hL hLn
  have hp := initProbes_of_eval (construct dx y past) _ _ _ e0
    (by rw [hd, construct_length]; exact e1) (by rw [hd, hc]; exact e2)
  rw [hd, hc, construct_length] at hp
  exact ⟨_, hp, rfl, rfl, rfl, rfl, e0, e1, e2, le_rfl, hL, hm0, hm1, hL, le_rfl⟩

/-! ## C16: the initial probes -/

/-- C16 (counterexample): for the 4 samples `y = [0, 1, 2, 3]`, `dx = 1` the search starts
from `x0 = 0`, `x1 = 2`, `x2 = 3`; the middle probe is not the domain midpoint
`0.5·(4-1)·1 = 1.5`. -/
theorem initial_probe_counterexample :
    build 1 [0, 1, 2, 3] ⟨0, 0, 0, 0⟩ = some (construct 1 [0, 1, 2, 3] ⟨0, 0, 0, 0⟩) ∧
    initProbes (construct 1 [0, 1, 2, 3] ⟨0, 0, 0, 0⟩) = some ⟨0, 0, 2, 2, 3, 3, 0⟩ ∧
    (2 : ℚ) ≠ 0.5 * ((([0, 1, 2, 3] : List ℚ).length : ℚ) - 1) * 1 := by
  refine ⟨build_construct 1 _ _ (by norm_num) (by simp), unit_line_probes, ?_⟩
  simp only [List.length_cons, List.length_nil]
  norm_num

/-- C16 (amended): for a built engine with `n` samples and spacing `dx`, `reverse` starts
its loop from the probes `x0 = 0`, `x1 = 0.5·n·dx` and `x2 = (n-1)·dx`, with `y0`, `y1`, `y2`
their evaluated ordinates. -/
theorem initial_probes (dx : ℚ) (y : List ℚ) (past : Coefficients) (s : Spline)
    (hb : build dx y past = some s) :
    ∃ p, initProbes s = some p ∧
      p.x0 = 0 ∧ p.x1 = 0.5 * (y.length : ℚ) * dx ∧ p.x2 = ((y.length : ℚ) - 1) * dx ∧
      evaluate s p.x0 = some p.y0 ∧ evaluate s p.x1 = some p.y1 ∧
      evaluate s p.x2 = some p.y2 ∧
      ∀ t fuel, reverse s t fuel = reverseLoop s t fuel p := by
  obtain ⟨hdx, hn, rfl⟩ := (build_eq_some_iff dx y past s).mp hb
  obtain ⟨p, hp, e0, e1, e2, -, v0, v1, v2, -⟩ := initProbes_construct_some dx y past hdx hn
  refine ⟨p, hp, e0, ?_, e2, v0, v1, v2, ?_⟩
  · rw [e1]
    ring
  · intro t fuel
    unfold reverse
    rw [hp]

/-- C16 (amended) at `y = [0, 1, 2, 3]`, `dx = 1`. -/
theorem initial_probes_witness :
    ∃ p, initProbes (construct 1 [0, 1, 2, 3] ⟨0, 0, 0, 0⟩) = some p ∧
      p.x0 = 0 ∧ p.x1 = 0.5 * (([0, 1, 2, 3] : List ℚ).length : ℚ) * 1 ∧
      p.x2 = ((([0, 1, 2, 3] : List ℚ).length : ℚ) - 1) * 1 ∧
      evaluate (construct 1 [0, 1, 2, 3] ⟨0, 0, 0, 0⟩) p.x0 = some p.y0 ∧
      evaluate (construct 1 [0, 1, 2, 3] ⟨0, 0, 0, 0⟩) p.x1 = some p.y1 ∧
      evaluate (construct 1 [0, 1, 2, 3] ⟨0, 0, 0, 0⟩) p.x2 = some p.y2 ∧
      ∀ t fuel, reverse (construct 1 [0, 1, 2, 3] ⟨0, 0, 0, 0⟩) t fuel
        = reverseLoop (construct 1 [0, 1, 2, 3] ⟨0, 0, 0, 0⟩) t fuel p :=
  initial_probes 1 [0, 1, 2, 3] ⟨0, 0, 0, 0⟩ _ (build_construct 1 _ _ (by norm_num) (by simp))

/-! ## C17: which probes are tested against the tolerance -/

/-- The engine built from `y = [10, 9, 8, 7, 6]`, `dx = 1` (with a zero word behind the
buffer) is the line `evaluate(x) = 10 - x`. -/
theorem decreasing_line_eval (x : ℚ) (h0 : 0 ≤ x) (h1 : x ≤ 4) :
    evaluate (construct 1 [10, 9, 8, 7, 6] ⟨0, 0, 0, 0⟩) x = some (10 - x) := by
  have h := evaluate_linear 1 10 (-1) [10, 9, 8, 7, 6] ⟨0, 0, 0, 0⟩ x (by norm_num) (by simp)
    (by
      intro i hi
      simp only [List.length_cons, List.length_nil] at hi
      interval_cases i <;> simp <;> norm_num)
    (Or.inl (by norm_num)) h0 (by simp only [List.length_cons, List.length_nil]; norm_num; linarith)
  rw [h]
  congr 1
  ring

/-- The initial probes of the engine built from `y = [10, 9, 8, 7, 6]`, `dx = 1`. -/
theorem decreasing_line_probes :
    initProbes (construct 1 [10, 9, 8, 7, 6] ⟨0, 0, 0, 0⟩)
      = some ⟨0, 10, 5 / 2, 15 / 2, 4, 6, 0⟩ := by
  have e1 : (((construct 1 [10, 9, 8, 7, 6] ⟨0, 0, 0, 0⟩).c.length : ℚ) * 0.5
      * (1.0 / (construct 1 [10, 9, 8, 7, 6] ⟨0, 0, 0, 0⟩).inv_dx)) = 5 / 2 := by
    rw [construct_length]
    simp [construct]
    norm_num
  have e2 : ((((construct 1 [10, 9, 8, 7, 6] ⟨0, 0, 0, 0⟩).c.length - 1 : Nat) : ℚ)
      * (1.0 / (construct 1 [10, 9, 8, 7, 6] ⟨0, 0, 0, 0⟩).inv_dx)) = 4 := by
    rw [construct_length]
    simp [construct]
    norm_num
  have v0 : evaluate (construct 1 [10, 9, 8, 7, 6] ⟨0, 0, 0, 0⟩) 0 = some 10 := by
    rw [decreasing_line_eval 0 (by norm_num) (by norm_num)]
    norm_num
  have v1 : evaluate (construct 1 [10, 9, 8, 7, 6] ⟨0, 0, 0, 0⟩) (5 / 2) = some (15 / 2) := by
    rw [decreasing_line_eval (5 / 2) (by norm_num) (by norm_num)]
    norm_num
  have v2 : evaluate (construct 1 [10, 9, 8, 7, 6] ⟨0, 0, 0, 0⟩) 4 = some 6 := by
    rw [decreasing_line_eval 4 (by norm_num) (by norm_num)]
    norm_num
  rw [initProbes_of_eval _ 10 (15 / 2) 6 v0 (by rw [e1]; exact v1) (by rw [e2]; exact v2),
    e1, e2]

/-- On the engine built from `y = [10, 9, 8, 7, 6]`, `dx = 1` the search for any target
strictly between `6` and `10` only takes recovery steps and fails. -/
theorem decreasing_line_reverse_fails (t : ℚ) (fuel : Nat) (h6 : 6 < t) (h10 : t < 10)
    (hfuel : max_loops < fuel) :
    reverse (construct 1 [10, 9, 8, 7, 6] ⟨0, 0, 0, 0⟩) t fuel = Outcome.failed := by
  unfold reverse
  rw [decreasing_line_probes]
  simp only
  refine reverseLoop_stuck _ t (fun q => t < q.y0 ∧ q.y2 < t) ?_ ?_ fuel _
    ⟨h10, h6⟩ (by omega) (by simp only; omega)
  · rintro q ⟨q0, q2⟩
    exact ⟨fun c => absurd c.1 (not_le.mpr q0), fun c => absurd c.2 (not_le.mpr q2)⟩
  · rintro q v ⟨q0, q2⟩ -
    exact ⟨q0, q2⟩

/-- C17 (counterexample): on the engine built from `y = [10, 9, 8, 7, 6]`, `dx = 1`,
(a) the search for `15/2` starts with the probe `x1 = 5/2` whose ordinate is exactly `15/2`,
and (b) the search for `35/4` evaluates in its first (recovery) iteration the probe `5/4`
whose ordinate is exactly `35/4`; both searches fail. -/
theorem probe_within_tolerance_counterexample :
    (initProbes (construct 1 [10, 9, 8, 7, 6] ⟨0, 0, 0, 0⟩)
        = some ⟨0, 10, 5 / 2, 15 / 2, 4, 6, 0⟩ ∧
      evaluate (construct 1 [10, 9, 8, 7, 6] ⟨0, 0, 0, 0⟩) (5 / 2) = some (15 / 2) ∧
      |(15 / 2 : ℚ) - 15 / 2| < 1 / 1000 ∧
      ∀ fuel, max_loops < fuel →
        reverse (construct 1 [10, 9, 8, 7, 6] ⟨0, 0, 0, 0⟩) (15 / 2) fuel = Outcome.failed) ∧
    (nextProbe (35 / 4) ⟨0, 10, 5 / 2, 15 / 2, 4, 6, 0⟩ = 5 / 4 ∧
      evaluate (construct 1 [10, 9, 8, 7, 6] ⟨0, 0, 0, 0⟩) (5 / 4) = some (35 / 4) ∧
      |(35 / 4 : ℚ) - 35 / 4| < 1 / 1000 ∧
      ∀ fuel, max_loops < fuel →
        reverse (construct 1 [10, 9, 8, 7, 6] ⟨0, 0, 0, 0⟩) (35 / 4) fuel = Outcome.failed) := by
  refine ⟨⟨decreasing_line_probes, ?_, by norm_num,
    fun fuel hf => decreasing_line_reverse_fails _ fuel (by norm_num) (by norm_num) hf⟩,
    ⟨?_, ?_, by norm_num,
    fun fuel hf => decreasing_line_reverse_fails _ fuel (by norm_num) (by norm_num) hf⟩⟩
  · rw [decreasing_line_eval (5 / 2) (by norm_num) (by norm_num)]
    norm_num
  · unfold nextProbe
    norm_num
  · rw [decreasing_line_eval (5 / 4) (by norm_num) (by norm_num)]
    norm_num

/-- C17 (amended): in every iteration of the search loop that takes one of the two
bracketing branches, the probe `x1` computed by that branch is returned as soon as its
ordinate is within `1e-3` of the target (the abscissas being non-negative); the initial
probes and the probes of recovery steps are not tested. -/
theorem bracket_probe_accepted (s : Spline) (t : ℚ) (n : Nat) (p : Probes) (v : ℚ)
    (hx0 : 0 ≤ p.x0) (hx1 : 0 ≤ p.x1) (hx2 : 0 ≤ p.x2)
    (hbr : (p.y0 ≤ t ∧ t ≤ p.y1) ∨ (p.y1 < t ∧ t ≤ p.y2))
    (he : evaluate s (nextProbe t p) = some v) (htol : |v - t| < 1 / 1000) :
    reverseLoop s t (n + 1) p = Outcome.value (nextProbe t p) := by
  have hx : 0 ≤ nextProbe t p := by
    unfold nextProbe
    split_ifs <;> norm_num <;> linarith
  rw [reverseLoop_step s t n p v he, if_pos ⟨hbr, htol⟩]
  exact finish_nonneg _ hx

/-- C17 (amended) at `y = [0, 1, 2, 3]`, `dx = 1`, target `1`, from the initial probes. -/
theorem bracket_probe_accepted_witness :
    reverseLoop (construct 1 [0, 1, 2, 3] ⟨0, 0, 0, 0⟩) 1 (0 + 1) ⟨0, 0, 2, 2, 3, 3, 0⟩
      = Outcome.value (nextProbe 1 ⟨0, 0, 2, 2, 3, 3, 0⟩) :=
  bracket_probe_accepted (construct 1 [0, 1, 2, 3] ⟨0, 0, 0, 0⟩) 1 0 ⟨0, 0, 2, 2, 3, 3, 0⟩ 1
    (by norm_num) (by norm_num) (by norm_num) (Or.inl (by norm_num))
    (by
      have e : nextProbe 1 ⟨0, 0, 2, 2, 3, 3, 0⟩ = 1 := by
        unfold nextProbe
        norm_num
      rw [e]
      exact unit_line_eval 1 (by norm_num) (by norm_num))
    (by norm_num)

/-! ## C19: the probes stay in the domain -/

theorem stepProbes_counter_le (t : ℚ) (p : Probes) (v : ℚ) :
    (stepProbes t p v).counter ≤ p.counter + 1 := by
  unfold stepProbes
  split_ifs <;> simp

/-- With forward evaluation defined on `[0, L]`, a search started inside `[0, L]` can only
fail through the final assertion, after the counter has passed `max_loops`. -/
theorem reverseLoop_failed_counter (s : Spline) (t L : ℚ)
    (hdef : ∀ x, 0 ≤ x → x ≤ L → ∃ v, evaluate s x = some v) (fuel : Nat) :
    ∀ p : Probes, InDomain L p → reverseLoop s t fuel p = Outcome.failed →
      max_loops < p.counter + fuel := by
  induction fuel with
  | zero =>
    intro p _ h
    simp [reverseLoop] at h
  | succ n ih =>
    intro p hp h
    obtain ⟨h0, h1, -⟩ := inDomain_step t L p 0 hp
    obtain ⟨v, hv⟩ := hdef _ h0 h1
    obtain ⟨-, -, hq⟩ := inDomain_step t L p v hp
    have hc := stepProbes_counter_le t p v
    rw [reverseLoop_step s t n p v hv] at h
    split_ifs at h with c1 c2
    · rw [finish_nonneg _ h0] at h
      cases h
    · omega
    · have := ih _ hq h
      omega

/-- C19: for a built engine and every target, the three initial probes and every abscissa
at which an iteration of the search calls forward evaluation lie in `[0, (n-1)·dx]`, forward
evaluation succeeds there, and `reverse` can only fail through its final assertion, that
is after more than `max_loops` iterations. -/
theorem probes_stay_in_domain (dx : ℚ) (y : List ℚ) (past : Coefficients) (s : Spline)
    (t : ℚ) (hb : build dx y past = some s) :
    (∃ p, initProbes s = some p ∧ InDomain (((y.length : ℚ) - 1) * dx) p) ∧
    (∀ p, InDomain (((y.length : ℚ) - 1) * dx) p →
      0 ≤ nextProbe t p ∧ nextProbe t p ≤ ((y.length : ℚ) - 1) * dx ∧
      ∃ v, evaluate s (nextProbe t p) = some v ∧
        InDomain (((y.length : ℚ) - 1) * dx) (stepProbes t p v)) ∧
    (∀ fuel, reverse s t fuel = Outcome.failed → max_loops < fuel) := by
  obtain ⟨hdx, hn, rfl⟩ := (build_eq_some_iff dx y past s).mp hb
  have hn4 : (4 : ℚ) ≤ (y.length : ℚ) := by exact_mod_cast hn
  have hLn : ((y.length : ℚ) - 1) * dx < (y.length : ℚ) * dx := by nlinarith
  have hdef : ∀ z, 0 ≤ z → z ≤ ((y.length : ℚ) - 1) * dx →
      ∃ w, evaluate (construct dx y past) z = some w := fun z hz0 hz1 => by
    obtain ⟨i, -, -, -, e⟩ := evaluate_defined dx y past z hdx hz0 (by linarith)
    exact ⟨_, e⟩
  obtain ⟨p0, hp0, -, -, -, hc0, -, -, -, hd0⟩ := initProbes_construct_some dx y past hdx hn
  refine ⟨⟨p0, hp0, hd0⟩, ?_, ?_⟩
  · intro p hp
    obtain ⟨h0, h1, -⟩ := inDomain_step t _ p 0 hp
    obtain ⟨v, hv⟩ := hdef _ h0 h1
    exact ⟨h0, h1, v, hv, (inDomain_step t _ p v hp).2.2⟩
  · intro fuel hf
    unfold reverse at hf
    rw [hp0] at hf
    have := reverseLoop_failed_counter _ t _ hdef fuel p0 hd0 hf
    omega

/-- C19 at `y = [0, 1, 2, 3]`, `dx = 1`, target `4`. -/
theorem probes_stay_in_domain_witness :
    (∃ p, initProbes (construct 1 [0, 1, 2, 3] ⟨0, 0, 0, 0⟩) = some p ∧
      InDomain (((([0, 1, 2, 3] : List ℚ).length : ℚ) - 1) * 1) p) ∧
    (∀ p, InDomain (((([0, 1, 2, 3] : List ℚ).length : ℚ) - 1) * 1) p →
      0 ≤ nextProbe 4 p ∧ nextProbe 4 p ≤ ((([0, 1, 2, 3] : List ℚ).length : ℚ) - 1) * 1 ∧
      ∃ v, evaluate (construct 1 [0, 1, 2, 3] ⟨0, 0, 0, 0⟩) (nextProbe 4 p) = some v ∧
        InDomain (((([0, 1, 2, 3] : List ℚ).length : ℚ) - 1) * 1) (stepProbes 4 p v)) ∧
    (∀ fuel, reverse (construct 1 [0, 1, 2, 3] ⟨0, 0, 0, 0⟩) 4 fuel = Outcome.failed →
      max_loops < fuel) :=
  probes_stay_in_domain 1 [0, 1, 2, 3] ⟨0, 0, 0, 0⟩ _ 4
    (build_construct 1 _ _ (by norm_num) (by simp))

/-! ## C20: the bracket invariant -/

/-- From a bracketed state the next iteration takes a bracketing branch, its forward
evaluation being inside the bracket, and the next state is bracketed again, with `x1` the
midpoint of the new `(x0, x2)`. -/
theorem bracketed_step (s : Spline) (t L : ℚ) (p : Probes) (v : ℚ)
    (hp : Bracketed s t L p) (hv : evaluate s (nextProbe t p) = some v) :
    ((p.y0 ≤ t ∧ t ≤ p.y1) ∨ (p.y1 < t ∧ t ≤ p.y2)) ∧
    Bracketed s t L (stepProbes t p v) ∧
    (stepProbes t p v).counter = p.counter ∧
    (stepProbes t p v).x1 = ((stepProbes t p v).x0 + (stepProbes t p v).x2) / 2 ∧
    ((stepProbes t p v).x0 = p.x0 ∧ (stepProbes t p v).x2 = p.x1 ∨
      (stepProbes t p v).x0 = p.x1 ∧ (stepProbes t p v).x2 = p.x2) := by
  obtain ⟨a0, a1, a2, a3, e0, e1, e2, b0, b2, hc⟩ := hp
  unfold nextProbe at hv
  unfold stepProbes Bracketed
  by_cases c1 : p.y0 ≤ t ∧ t ≤ p.y1
  · rw [if_pos c1] at hv
    simp only [if_pos c1]
    refine ⟨Or.inl c1, ⟨a0, ?_, ?_, by linarith, e0, hv, e1, b0, c1.2, hc⟩, ?_⟩
    · norm_num; linarith
    · norm_num; linarith
    · norm_num
      ring
  · have c2 : p.y1 < t ∧ t ≤ p.y2 := ⟨not_le.mp (fun h => c1 ⟨b0, h⟩), b2⟩
    rw [if_neg c1, if_pos c2] at hv
    simp only [if_neg c1, if_pos c2]
    refine ⟨Or.inr c2, ⟨by linarith, ?_, ?_, a3, e1, hv, e2, c2.1.le, b2, hc⟩, ?_⟩
    · norm_num; linarith
    · norm_num; linarith
    · norm_num
      ring

theorem inDomain_of_bracketed (s : Spline) (t L : ℚ) (p : Probes) (hp : Bracketed s t L p) :
    InDomain L p := by
  obtain ⟨a0, a1, a2, a3, -⟩ := hp
  exact ⟨a0, by linarith, by linarith, by linarith, by linarith, a3⟩

/-- A bracketed search never fails. -/
theorem reverseLoop_bracketed_not_failed (s : Spline) (t L : ℚ)
    (hdef : ∀ x, 0 ≤ x → x ≤ L → ∃ v, evaluate s x = some v) (fuel : Nat) :
    ∀ p : Probes, Bracketed s t L p → reverseLoop s t fuel p ≠ Outcome.failed := by
  induction fuel with
  | zero =>
    intro p _ h
    simp [reverseLoop] at h
  | succ n ih =>
    intro p hp h
    obtain ⟨h0, h1, -⟩ := inDomain_step t L p 0 (inDomain_of_bracketed s t L p hp)
    obtain ⟨v, hv⟩ := hdef _ h0 h1
    obtain ⟨-, hq, hc, -⟩ := bracketed_step s t L p v hp hv
    have hcp : p.counter ≤ max_loops := hp.2.2.2.2.2.2.2.2.2
    rw [reverseLoop_step s t n p v hv] at h
    split_ifs at h with c1 c2
    · rw [finish_nonneg _ h0] at h
      cases h
    · omega
    · exact ih _ hq h

/-- One iteration from a bracketed state, on a curve that changes by at most `K` times the
distance over distances up to `δ`: it returns a value, or the bracket was wider than `δ`
and the next state is bracketed with half the width. -/
theorem reverseLoop_bracket_halving (s : Spline) (t L δ K : ℚ) (hK : 0 ≤ K)
    (hKδ : 2 * (K * δ) < epsilon)
    (hdef : ∀ x, 0 ≤ x → x ≤ L → ∃ v, evaluate s x = some v)
    (hlip : ∀ a b va vb, 0 ≤ a → a ≤ b → b ≤ L → b - a ≤ δ → evaluate s a = some va →
      evaluate s b = some vb → |vb - va| ≤ K * (b - a))
    (n : Nat) (p : Probes) (W : ℚ) (hp : Bracketed s t L p)
    (hw0 : p.x1 - p.x0 ≤ W) (hw1 : p.x2 - p.x1 ≤ W) :
    (∃ x, reverseLoop s t (n + 1) p = Outcome.value x) ∨
    (δ < W ∧ ∃ q, reverseLoop s t (n + 1) p = reverseLoop s t n q ∧ Bracketed s t L q ∧
      q.x1 - q.x0 ≤ W / 2 ∧ q.x2 - q.x1 ≤ W / 2) := by
  obtain ⟨h0, h1, -⟩ := inDomain_step t L p 0 (inDomain_of_bracketed s t L p hp)
  obtain ⟨v, hv⟩ := hdef _ h0 h1
  obtain ⟨hbr, hq, hc, hmid, hends⟩ := bracketed_step s t L p v hp hv
  obtain ⟨a0, a1, a2, a3, e0, e1, e2, b0, b2, hcp⟩ := hp
  rw [reverseLoop_step s t n p v hv]
  by_cases c3 : |v - t| < epsilon
  · left
    rw [if_pos ⟨hbr, c3⟩]
    exact ⟨_, finish_nonneg _ h0⟩
  · right
    rw [if_neg (fun h => c3 h.2), if_neg (by omega)]
    have hwidth : (stepProbes t p v).x2 - (stepProbes t p v).x0 ≤ W := by
      rcases hends with ⟨ea, eb⟩ | ⟨ea, eb⟩
      · rw [ea, eb]; exact hw0
      · rw [ea, eb]; exact hw1
    obtain ⟨q0, q1, q2, q3, f0, f1, f2, g0, g2, -⟩ := hq
    constructor
    · by_contra hW
      push_neg at hW
      have k1 := hlip _ _ _ _ q0 (by linarith) q3 (by linarith) f0 f2
      have k2 := hlip _ _ _ _ q0 q1 (by linarith) (by linarith) f0 f1
      have k3 : K * ((stepProbes t p v).x2 - (stepProbes t p v).x0) ≤ K * δ :=
        mul_le_mul_of_nonneg_left (by linarith) hK
      have k4 : K * ((stepProbes t p v).x1 - (stepProbes t p v).x0) ≤ K * δ :=
        mul_le_mul_of_nonneg_left (by linarith) hK
      have hy1 : (stepProbes t p v).y1 = v := by
        unfold stepProbes
        split_ifs <;> rfl
      rw [hy1] at k2
      rw [abs_le] at k1 k2
      apply c3
      rw [abs_lt]
      constructor <;> linarith
    · refine ⟨_, rfl, ⟨q0, q1, q2, q3, f0, f1, f2, g0, g2, by omega⟩, ?_, ?_⟩
      · rw [hmid]; linarith
      · rw [hmid]; linarith

/-- A bracketed search returns a value within `fuel + 1` iterations as soon as the bracket is
at most `2^fuel · δ` wide. -/
theorem reverseLoop_bracket_converges (s : Spline) (t L δ K : ℚ) (hK : 0 ≤ K)
    (hKδ : 2 * (K * δ) < epsilon)
    (hdef : ∀ x, 0 ≤ x → x ≤ L → ∃ v, evaluate s x = some v)
    (hlip : ∀ a b va vb, 0 ≤ a → a ≤ b → b ≤ L → b - a ≤ δ → evaluate s a = some va →
      evaluate s b = some vb → |vb - va| ≤ K * (b - a))
    (fuel : Nat) :
    ∀ (p : Probes) (W : ℚ), Bracketed s t L p → p.x1 - p.x0 ≤ W → p.x2 - p.x1 ≤ W →
      W ≤ 2 ^ fuel * δ → ∃ x, reverseLoop s t (fuel + 1) p = Outcome.value x := by
  induction fuel with
  | zero =>
    intro p W hp hw0 hw1 hW
    rcases reverseLoop_bracket_halving s t L δ K hK hKδ hdef hlip 0 p W hp hw0 hw1
      with h | ⟨h, -⟩
    · exact h
    · simp at hW
      linarith
  | succ m ih =>
    intro p W hp hw0 hw1 hW
    rcases reverseLoop_bracket_halving s t L δ K hK hKδ hdef hlip (m + 1) p W hp hw0 hw1
      with h | ⟨-, q, hq, hqb, hq0, hq1⟩
    · exact h
    · rw [hq]
      refine ih q (W / 2) hqb hq0 hq1 ?_
      rw [pow_succ] at hW
      linarith

/-- Termination of the inverse search for bracketed targets in exact arithmetic, where
every bracketing step is an exact bisection: for every built engine
and every target between `evaluate(0)` and `evaluate((n-1)·dx)` there is a number of
iterations from which on `reverse` returns a value, and that value lies in the domain with
its ordinate within `epsilon` of the target. -/
theorem reverse_converges_of_bracket (dx : ℚ) (y : List ℚ) (past : Coefficients) (t : ℚ)
    (hdx : 0 < dx) (hn : 3 < y.length)
    (h0 : ∀ v, evaluate (construct dx y past) 0 = some v → v ≤ t)
    (h2 : ∀ v, evaluate (construct dx y past) (((y.length : ℚ) - 1) * dx) = some v → t ≤ v) :
    ∃ N, ∀ fuel, N ≤ fuel → ∃ xs, reverse (construct dx y past) t fuel = Outcome.value xs ∧
      0 ≤ xs ∧ xs ≤ ((y.length : ℚ) - 1) * dx ∧
      ∃ w, evaluate (construct dx y past) xs = some w ∧ |w - t| < epsilon := by
  have hn4 : (4 : ℚ) ≤ (y.length : ℚ) := by exact_mod_cast hn
  have hL : 0 ≤ ((y.length : ℚ) - 1) * dx := by nlinarith
  have hLn : ((y.length : ℚ) - 1) * dx < (y.length : ℚ) * dx := by nlinarith
  have hX : 0 ≤ (y.length : ℚ) * dx := by positivity
  have hK := slopeBound_nonneg (construct dx y past) _ hX
  have heps : (0 : ℚ) < epsilon := by unfold epsilon; norm_num
  have hK1 : 0 < 2 * (slopeBound (construct dx y past) ((y.length : ℚ) * dx) + 1) := by
    linarith
  have hδ : 0 < min dx
      (epsilon / (2 * (slopeBound (construct dx y past) ((y.length : ℚ) * dx) + 1))) :=
    lt_min hdx (div_pos heps hK1)
  have hKδ : 2 * (slopeBound (construct dx y past) ((y.length : ℚ) * dx)
      * min dx (epsilon / (2 * (slopeBound (construct dx y past) ((y.length : ℚ) * dx) + 1))))
      < epsilon := by
    have h1 : slopeBound (construct dx y past) ((y.length : ℚ) * dx)
        * min dx (epsilon / (2 * (slopeBound (construct dx y past) ((y.length : ℚ) * dx) + 1)))
        ≤ slopeBound (construct dx y past) ((y.length : ℚ) * dx)
          * (epsilon / (2 * (slopeBound (construct dx y past) ((y.length : ℚ) * dx) + 1))) :=
      mul_le_mul_of_nonneg_left (min_le_right _ _) hK
    have h3 : 2 * (slopeBound (construct dx y past) ((y.length : ℚ) * dx)
          * (epsilon / (2 * (slopeBound (construct dx y past) ((y.length : ℚ) * dx) + 1))))
        < epsilon := by
      rw [mul_div_assoc', ← mul_div_assoc, div_lt_iff₀ hK1]
      nlinarith
    linarith
  have hdef : ∀ z, 0 ≤ z → z ≤ ((y.length : ℚ) - 1) * dx →
      ∃ w, evaluate (construct dx y past) z = some w := fun z hz0 hz1 => by
    obtain ⟨i, -, -, -, e⟩ := evaluate_defined dx y past z hdx hz0 (by linarith)
    exact ⟨_, e⟩
  have hlip : ∀ a b va vb, 0 ≤ a → a ≤ b → b ≤ ((y.length : ℚ) - 1) * dx →
      b - a ≤ min dx
        (epsilon / (2 * (slopeBound (construct dx y past) ((y.length : ℚ) * dx) + 1))) →
      evaluate (construct dx y past) a = some va →
      evaluate (construct dx y past) b = some vb →
      |vb - va| ≤ slopeBound (construct dx y past) ((y.length : ℚ) * dx) * (b - a) :=
    fun a b va vb ha hab hb hd hva hvb =>
      evaluate_lipschitz dx y past a b va vb hdx ha hab
        (by linarith) (le_trans hd (min_le_left _ _)) hva hvb
  obtain ⟨p, hp, hbr, hw0, hw1⟩ := initProbes_bracketed dx y past t hdx hn h0 h2
  obtain ⟨N, hN⟩ := pow_unbounded_of_one_lt
    ((((y.length : ℚ) - 1) * dx)
      / min dx (epsilon / (2 * (slopeBound (construct dx y past) ((y.length : ℚ) * dx) + 1))))
    (by norm_num : (1 : ℚ) < 2)
  rw [div_lt_iff₀ hδ] at hN
  refine ⟨N + 1, fun fuel hfuel => ?_⟩
  obtain ⟨m, rfl⟩ : ∃ m, fuel = m + 1 := ⟨fuel - 1, by omega⟩
  have hpow : (2 : ℚ) ^ N ≤ 2 ^ m := pow_le_pow_right₀ (by norm_num) (by omega)
  have hW : ((y.length : ℚ) - 1) * dx ≤ 2 ^ m * min dx
      (epsilon / (2 * (slopeBound (construct dx y past) ((y.length : ℚ) * dx) + 1))) := by
    have := mul_le_mul_of_nonneg_right hpow hδ.le
    linarith
  obtain ⟨xs, hxs⟩ := reverseLoop_bracket_converges (construct dx y past) t _ _ _ hK hKδ hdef
    hlip m p _ hbr hw0 hw1 hW
  obtain ⟨a0, a1, a2, a3, -⟩ := hbr
  have hr : reverse (construct dx y past) t (m + 1) = Outcome.value xs := by
    unfold reverse
    rw [hp]
    exact hxs
  obtain ⟨r0, r1, w, hw, hwv⟩ := reverseLoop_value (construct dx y past) t _ (m + 1) p a0
    (by linarith) (by linarith) (by linarith) (by linarith) a3 xs hxs
  exact ⟨xs, hr, r0, r1, w, hw, hwv⟩

/-- C20 (counterexample): on the engine built from `y = [0, 1, 2, 3]`, `dx = 1`, the target
`1/2` lies between `evaluate(0) = 0` and `y[3] = 3`; the search starts with
`x0 = 0, x1 = 2, x2 = 3` and its first iteration goes on with `x0 = 0, x1 = 1, x2 = 2`:
`x2 - x0` drops from `3` to `2`, not to `3/2`. -/
theorem bracket_halving_counterexample :
    initProbes (construct 1 [0, 1, 2, 3] ⟨0, 0, 0, 0⟩) = some ⟨0, 0, 2, 2, 3, 3, 0⟩ ∧
    evaluate (construct 1 [0, 1, 2, 3] ⟨0, 0, 0, 0⟩) 0 = some 0 ∧
    (0 : ℚ) ≤ 1 / 2 ∧ (1 / 2 : ℚ) ≤ ([0, 1, 2, 3] : List ℚ).getD 3 0 ∧
    (∀ n, reverseLoop (construct 1 [0, 1, 2, 3] ⟨0, 0, 0, 0⟩) (1 / 2) (n + 1)
        ⟨0, 0, 2, 2, 3, 3, 0⟩
      = reverseLoop (construct 1 [0, 1, 2, 3] ⟨0, 0, 0, 0⟩) (1 / 2) n
        ⟨0, 0, 1, 1, 2, 2, 0⟩) ∧
    ((2 : ℚ) - 0 ≠ (3 - 0) / 2) := by
  refine ⟨unit_line_probes, unit_line_eval 0 (by norm_num) (by norm_num), by norm_num,
    by simp; norm_num, ?_, by norm_num⟩
  intro n
  have e : nextProbe (1 / 2) ⟨0, 0, 2, 2, 3, 3, 0⟩ = 1 := by
    unfold nextProbe
    norm_num
  have hv : evaluate (construct 1 [0, 1, 2, 3] ⟨0, 0, 0, 0⟩)
      (nextProbe (1 / 2) ⟨0, 0, 2, 2, 3, 3, 0⟩) = some 1 := by
    rw [e]
    exact unit_line_eval 1 (by norm_num) (by norm_num)
  have hs : stepProbes (1 / 2) ⟨0, 0, 2, 2, 3, 3, 0⟩ 1 = ⟨0, 0, 1, 1, 2, 2, 0⟩ := by
    unfold stepProbes
    norm_num
  rw [reverseLoop_step _ _ n _ 1 hv, hs]
  have h1 : ¬ (((0 : ℚ) ≤ 1 / 2 ∧ (1 / 2 : ℚ) ≤ 2 ∨ (2 : ℚ) < 1 / 2 ∧ (1 / 2 : ℚ) ≤ 3) ∧
      |(1 : ℚ) - 1 / 2| < epsilon) := by
    rintro ⟨-, h⟩
    unfold epsilon at h
    rw [abs_lt] at h
    norm_num at h
  rw [if_neg h1, if_neg (by decide)]

/-- C20 (amended): for a built engine and a target with `evaluate(0) ≤ target ≤ y[n-1]`,
the search starts bracketed (`y0 ≤ target ≤ y2`, `0 ≤ x0 ≤ x1 ≤ x2 ≤ (n-1)·dx`), every
iteration from a bracketed state takes a bracketing branch (never the recovery branch, the
counter is unchanged) and leaves a bracketed state in which `x1` is the midpoint of
`(x0, x2)`, so that an iteration started with `x1` at the midpoint halves `x2 - x0`; and
the search never fails. -/
theorem bracket_invariant (dx : ℚ) (y : List ℚ) (past : Coefficients) (s : Spline) (t : ℚ)
    (hb : build dx y past = some s)
    (hlo : ∀ v, evaluate s 0 = some v → v ≤ t) (hhi : t ≤ y.getD (y.length - 1) 0) :
    (∃ p, initProbes s = some p ∧ Bracketed s t (((y.length : ℚ) - 1) * dx) p) ∧
    (∀ p, Bracketed s t (((y.length : ℚ) - 1) * dx) p →
      ∃ v, evaluate s (nextProbe t p) = some v ∧
        ((p.y0 ≤ t ∧ t ≤ p.y1) ∨ (p.y1 < t ∧ t ≤ p.y2)) ∧
        Bracketed s t (((y.length : ℚ) - 1) * dx) (stepProbes t p v) ∧
        (stepProbes t p v).counter = p.counter ∧
        (stepProbes t p v).x1 = ((stepProbes t p v).x0 + (stepProbes t p v).x2) / 2 ∧
        (p.x1 = (p.x0 + p.x2) / 2 →
          (stepProbes t p v).x2 - (stepProbes t p v).x0 = (p.x2 - p.x0) / 2)) ∧
    (∀ fuel, reverse s t fuel ≠ Outcome.failed) := by
  obtain ⟨hdx, hn, rfl⟩ := (build_eq_some_iff dx y past s).mp hb
  have hn4 : (4 : ℚ) ≤ (y.length : ℚ) := by exact_mod_cast hn
  have hLn : ((y.length : ℚ) - 1) * dx < (y.length : ℚ) * dx := by nlinarith
  have hdef : ∀ z, 0 ≤ z → z ≤ ((y.length : ℚ) - 1) * dx →
      ∃ w, evaluate (construct dx y past) z = some w := fun z hz0 hz1 => by
    obtain ⟨i, -, -, -, e⟩ := evaluate_defined dx y past z hdx hz0 (by linarith)
    exact ⟨_, e⟩
  have h2 : ∀ v, evaluate (construct dx y past) (((y.length : ℚ) - 1) * dx) = some v →
      t ≤ v := fun v hv => by
    rw [evaluate_last_cell dx y past _ hdx (by omega) le_rfl hLn] at hv
    rw [← Option.some.inj hv]
    exact hhi
  obtain ⟨p0, hp0, hbr0, -, -⟩ := initProbes_bracketed dx y past t hdx hn hlo h2
  refine ⟨⟨p0, hp0, hbr0⟩, ?_, ?_⟩
  · intro p hp
    obtain ⟨h0, h1, -⟩ := inDomain_step t _ p 0 (inDomain_of_bracketed _ t _ p hp)
    obtain ⟨v, hv⟩ := hdef _ h0 h1
    obtain ⟨hbr, hq, hc, hmid, hends⟩ := bracketed_step _ t _ p v hp hv
    refine ⟨v, hv, hbr, hq, hc, hmid, fun hm => ?_⟩
    rcases hends with ⟨ea, eb⟩ | ⟨ea, eb⟩
    · rw [ea, eb, hm]; ring
    · rw [ea, eb, hm]; ring
  · intro fuel
    unfold reverse
    rw [hp0]
    exact reverseLoop_bracketed_not_failed _ t _ hdef fuel p0 hbr0

/-- C20 (amended) at `y = [0, 1, 2, 3]`, `dx = 1`, target `1/2`. -/
theorem bracket_invariant_witness :
    (∃ p, initProbes (construct 1 [0, 1, 2, 3] ⟨0, 0, 0, 0⟩) = some p ∧
      Bracketed (construct 1 [0, 1, 2, 3] ⟨0, 0, 0, 0⟩) (1 / 2)
        (((([0, 1, 2, 3] : List ℚ).length : ℚ) - 1) * 1) p) ∧
    (∀ p, Bracketed (construct 1 [0, 1, 2, 3] ⟨0, 0, 0, 0⟩) (1 / 2)
        (((([0, 1, 2, 3] : List ℚ).length : ℚ) - 1) * 1) p →
      ∃ v, evaluate (construct 1 [0, 1, 2, 3] ⟨0, 0, 0, 0⟩) (nextProbe (1 / 2) p) = some v ∧
        ((p.y0 ≤ 1 / 2 ∧ 1 / 2 ≤ p.y1) ∨ (p.y1 < 1 / 2 ∧ 1 / 2 ≤ p.y2)) ∧
        Bracketed (construct 1 [0, 1, 2, 3] ⟨0, 0, 0, 0⟩) (1 / 2)
          (((([0, 1, 2, 3] : List ℚ).length : ℚ) - 1) * 1) (stepProbes (1 / 2) p v) ∧
        (stepProbes (1 / 2) p v).counter = p.counter ∧
        (stepProbes (1 / 2) p v).x1
          = ((stepProbes (1 / 2) p v).x0 + (stepProbes (1 / 2) p v).x2) / 2 ∧
        (p.x1 = (p.x0 + p.x2) / 2 →
          (stepProbes (1 / 2) p v).x2 - (stepProbes (1 / 2) p v).x0 = (p.x2 - p.x0) / 2)) ∧
    (∀ fuel, reverse (construct 1 [0, 1, 2, 3] ⟨0, 0, 0, 0⟩) (1 / 2) fuel ≠ Outcome.failed) :=
  bracket_invariant 1 [0, 1, 2, 3] ⟨0, 0, 0, 0⟩ _ (1 / 2)
    (build_construct 1 _ _ (by norm_num) (by simp))
    (fun v hv => by
      rw [unit_line_eval 0 (by norm_num) (by norm_num)] at hv
      rw [← Option.some.inj hv]
      norm_num)
    (by simp; norm_num)

/-! ## C11: the iteration cap -/

/-- A search that can only take the recovery branch is still in its loop as long as the
counter has not passed `max_loops`. -/
theorem reverseLoop_recovery_timeout (s : Spline) (t : ℚ) (I : Probes → Prop)
    (hI : ∀ p, I p → ¬ (p.y0 ≤ t ∧ t ≤ p.y1) ∧ ¬ (p.y1 < t ∧ t ≤ p.y2))
    (hstep : ∀ p, I p → ∃ v, evaluate s (p.x1 * 0.5) = some v ∧
      I { p with x1 := p.x1 * 0.5, y1 := v, counter := p.counter + 1 })
    (fuel : Nat) :
    ∀ p : Probes, I p → p.counter + fuel ≤ max_loops →
      reverseLoop s t fuel p = Outcome.timeout := by
  induction fuel with
  | zero =>
    intro p _ _
    simp [reverseLoop]
  | succ n ih =>
    intro p hp hc
    obtain ⟨c1, c2⟩ := hI p hp
    obtain ⟨v, hv, hq⟩ := hstep p hp
    rw [reverseLoop_recover s t n p v c1 c2 hv, if_neg (by omega)]
    exact ih _ hq (by simp only; omega)

/-- On the engine built from `y = [0, 1, 2, 3]`, `dx = 1` the search for the target `4` is
still in its loop after 128 iterations. -/
theorem unit_line_reverse_running :
    reverse (construct 1 [0, 1, 2, 3] ⟨0, 0, 0, 0⟩) 4 128 = Outcome.timeout := by
  unfold reverse
  rw [unit_line_probes]
  simp only
  refine reverseLoop_recovery_timeout _ 4
    (fun q => 0 ≤ q.x1 ∧ q.x1 ≤ 3 ∧ q.y1 < 4 ∧ q.y2 < 4) ?_ ?_ 128 _
    ⟨by norm_num, by norm_num, by norm_num, by norm_num⟩ (by decide)
  · rintro q ⟨-, -, q1, q2⟩
    exact ⟨fun c => absurd c.2 (not_le.mpr q1), fun c => absurd c.2 (not_le.mpr q2)⟩
  · rintro q ⟨qa, qb, -, q2⟩
    have ha : 0 ≤ q.x1 * 0.5 := by positivity
    have hb : q.x1 * 0.5 ≤ 3 := by norm_num; linarith
    exact ⟨_, unit_line_eval _ ha hb, ha, hb, by linarith, q2⟩

/-- On the engine built from `y = [0, 1, 2, 3]`, `dx = 1` the search for the target `4`
leaves its loop in iteration 129 and fails. -/
theorem unit_line_reverse_fails :
    reverse (construct 1 [0, 1, 2, 3] ⟨0, 0, 0, 0⟩) 4 129 = Outcome.failed := by
  unfold reverse
  rw [unit_line_probes]
  simp only
  refine reverseLoop_stuck _ 4
    (fun q => 0 ≤ q.x1 ∧ q.x1 ≤ 3 ∧ q.y1 < 4 ∧ q.y2 < 4) ?_ ?_ 129 _
    ⟨by norm_num, by norm_num, by norm_num, by norm_num⟩ (by decide) (by decide)
  · rintro q ⟨-, -, q1, q2⟩
    exact ⟨fun c => absurd c.2 (not_le.mpr q1), fun c => absurd c.2 (not_le.mpr q2)⟩
  · rintro q v ⟨qa, qb, -, q2⟩ hv
    have ha : 0 ≤ q.x1 * 0.5 := by positivity
    have hb : q.x1 * 0.5 ≤ 3 := by norm_num; linarith
    rw [unit_line_eval _ ha hb] at hv
    have := Option.some.inj hv
    exact ⟨ha, hb, by linarith, q2⟩

theorem stepProbes_x1 (t : ℚ) (p : Probes) (v : ℚ) :
    (stepProbes t p v).x1 = nextProbe t p := by
  unfold stepProbes nextProbe
  split_ifs <;> rfl

/-- The engine built from `y = [0, 2^140, 2·2^140, 3·2^140]`, `dx = 1` is the line
`evaluate(x) = 2^140·x`. -/
theorem steep_line_eval (x : ℚ) (h0 : 0 ≤ x) (h1 : x ≤ 3) :
    evaluate (construct 1 [0, 2 ^ 140, 2 * 2 ^ 140, 3 * 2 ^ 140] ⟨0, 0, 0, 0⟩) x
      = some (2 ^ 140 * x) := by
  have h := evaluate_linear 1 0 (2 ^ 140) [0, 2 ^ 140, 2 * 2 ^ 140, 3 * 2 ^ 140] ⟨0, 0, 0, 0⟩ x
    (by norm_num) (by simp)
    (by
      intro i hi
      simp only [List.length_cons, List.length_nil] at hi
      interval_cases i <;> simp <;> ring)
    (Or.inl (by norm_num)) h0 (by simp only [List.length_cons, List.length_nil]; norm_num; linarith)
  rw [h]
  congr 1
  ring

/-- No power of two is three times a natural number. -/
theorem three_mul_ne_two_pow (c j : Nat) : 3 * c ≠ 2 ^ j := by
  intro h
  have h3 : 3 ∣ 2 ^ j := ⟨c, h.symm⟩
  have := Nat.Prime.dvd_of_dvd_pow Nat.prime_three h3
  omega

/-- A dyadic abscissa with denominator at most `2^135` has an ordinate on the steep line
that is not within `epsilon` of `2^140/3`. -/
theorem steep_line_far (c j : Nat) (hj : j ≤ 135) :
    ¬ |(2 : ℚ) ^ 140 * ((c : ℚ) / 2 ^ j) - 2 ^ 140 / 3| < epsilon := by
  intro h
  have hz : (3 * (c : ℤ) - 2 ^ j) ≠ 0 := by
    intro e
    have e2 : (3 * (c : ℤ)) = 2 ^ j := by linarith
    exact three_mul_ne_two_pow c j (by exact_mod_cast e2)
  have h1 : (1 : ℚ) ≤ |3 * (c : ℚ) - 2 ^ j| := by
    have := Int.one_le_abs hz
    exact_mod_cast this
  have hpj : (0 : ℚ) < 2 ^ j := by positivity
  have hle : (2 : ℚ) ^ j ≤ 2 ^ 135 := pow_le_pow_right₀ (by norm_num) hj
  have e : (2 : ℚ) ^ 140 * ((c : ℚ) / 2 ^ j) - 2 ^ 140 / 3
      = (2 ^ 140 / (3 * 2 ^ j)) * (3 * (c : ℚ) - 2 ^ j) := by
    field_simp
    ring
  rw [e, abs_mul, abs_of_pos (by positivity)] at h
  have h2 : (2 : ℚ) ^ 140 / (3 * 2 ^ j) ≤ (2 ^ 140 / (3 * 2 ^ j)) * |3 * (c : ℚ) - 2 ^ j| := by
    have hp : (0 : ℚ) < 2 ^ 140 / (3 * 2 ^ j) := by positivity
    nlinarith
  have h3 : (2 : ℚ) ^ 140 / (3 * 2 ^ 135) ≤ 2 ^ 140 / (3 * 2 ^ j) := by
    apply div_le_div_of_nonneg_left (by positivity) (by positivity)
    linarith
  have h4 : epsilon < (2 : ℚ) ^ 140 / (3 * 2 ^ 135) := by
    unfold epsilon
    norm_num
  linarith

/-- On the steep line a bracketed search for `2^140/3` whose abscissas are dyadic with
denominator `2^k` is still in its loop after `fuel` iterations when `k + fuel ≤ 135`: every
iteration is a bracketing step (which the counter does not count) that is not accepted. -/
theorem steep_line_running (fuel : Nat) :
    ∀ (k : Nat) (p : Probes),
      Bracketed (construct 1 [0, 2 ^ 140, 2 * 2 ^ 140, 3 * 2 ^ 140] ⟨0, 0, 0, 0⟩)
        (2 ^ 140 / 3) 3 p →
      (∃ a0 a1 a2 : Nat, p.x0 = (a0 : ℚ) / 2 ^ k ∧ p.x1 = (a1 : ℚ) / 2 ^ k ∧
        p.x2 = (a2 : ℚ) / 2 ^ k) →
      k + fuel ≤ 135 →
      reverseLoop (construct 1 [0, 2 ^ 140, 2 * 2 ^ 140, 3 * 2 ^ 140] ⟨0, 0, 0, 0⟩)
        (2 ^ 140 / 3) fuel p = Outcome.timeout := by
  induction fuel with
  | zero =>
    intro k p _ _ _
    simp [reverseLoop]
  | succ n ih =>
    intro k p hp hdy hk
    obtain ⟨h0, h1, -⟩ := inDomain_step (2 ^ 140 / 3) 3 p 0 (inDomain_of_bracketed _ _ _ p hp)
    have hv := steep_line_eval _ h0 h1
    obtain ⟨hbr, hq, hc, hmid, hends⟩ := bracketed_step _ _ _ p _ hp hv
    have hcp : p.counter ≤ max_loops := hp.2.2.2.2.2.2.2.2.2
    obtain ⟨a0, a1, a2, d0, d1, d2⟩ := hdy
    have hpk : (2 : ℚ) ^ (k + 1) = 2 ^ k * 2 := pow_succ 2 k
    have hk0 : (2 : ℚ) ^ k ≠ 0 := by positivity
    have hdy' : ∃ b0 b1 b2 : Nat,
        (stepProbes (2 ^ 140 / 3) p (2 ^ 140 * nextProbe (2 ^ 140 / 3) p)).x0
          = (b0 : ℚ) / 2 ^ (k + 1) ∧
        (stepProbes (2 ^ 140 / 3) p (2 ^ 140 * nextProbe (2 ^ 140 / 3) p)).x1
          = (b1 : ℚ) / 2 ^ (k + 1) ∧
        (stepProbes (2 ^ 140 / 3) p (2 ^ 140 * nextProbe (2 ^ 140 / 3) p)).x2
          = (b2 : ℚ) / 2 ^ (k + 1) := by
      rcases hends with ⟨ea, eb⟩ | ⟨ea, eb⟩
      · refine ⟨2 * a0, a0 + a1, 2 * a1, ?_, ?_, ?_⟩
        · rw [ea, d0, hpk]; push_cast; field_simp; ring
        · rw [hmid, ea, eb, d0, d1, hpk]; push_cast; field_simp
        · rw [eb, d1, hpk]; push_cast; field_simp; ring
      · refine ⟨2 * a1, a1 + a2, 2 * a2, ?_, ?_, ?_⟩
        · rw [ea, d1, hpk]; push_cast; field_simp; ring
        · rw [hmid, ea, eb, d1, d2, hpk]; push_cast; field_simp
        · rw [eb, d2, hpk]; push_cast; field_simp; ring
    have hfar : ¬ |(2 : ℚ) ^ 140 * nextProbe (2 ^ 140 / 3) p - 2 ^ 140 / 3| < epsilon := by
      obtain ⟨b0, b1, b2, -, f1, -⟩ := hdy'
      rw [stepProbes_x1] at f1
      rw [f1]
      exact steep_line_far b1 (k + 1) (by omega)
    rw [reverseLoop_step _ _ n p _ hv, if_neg (fun h => hfar h.2), if_neg (by omega)]
    exact ih (k + 1) _ hq hdy' (by omega)

/-- C11 (the code at two failing inputs): (a) on the engine built from `y = [0, 1, 2, 3]`,
`dx = 1` the search for the unreachable target `4` is still running after 128 iterations
and fails in iteration 129; (b) on the engine built from
`y = [0, 2^140, 2·2^140, 3·2^140]`, `dx = 1` the search for the target `2^140/3` (the value
at `x = 1/3`) is still running after 135 iterations, all of them bracketing steps, and
returns a value when given enough iterations. -/
theorem iteration_cap_exceeded :
    (reverse (construct 1 [0, 1, 2, 3] ⟨0, 0, 0, 0⟩) 4 128 = Outcome.timeout ∧
      reverse (construct 1 [0, 1, 2, 3] ⟨0, 0, 0, 0⟩) 4 129 = Outcome.failed) ∧
    (build 1 [0, 2 ^ 140, 2 * 2 ^ 140, 3 * 2 ^ 140] ⟨0, 0, 0, 0⟩
        = some (construct 1 [0, 2 ^ 140, 2 * 2 ^ 140, 3 * 2 ^ 140] ⟨0, 0, 0, 0⟩) ∧
      evaluate (construct 1 [0, 2 ^ 140, 2 * 2 ^ 140, 3 * 2 ^ 140] ⟨0, 0, 0, 0⟩) (1 / 3)
        = some (2 ^ 140 / 3) ∧
      reverse (construct 1 [0, 2 ^ 140, 2 * 2 ^ 140, 3 * 2 ^ 140] ⟨0, 0, 0, 0⟩)
        (2 ^ 140 / 3) 135 = Outcome.timeout ∧
      ∃ N, ∀ fuel, N ≤ fuel → ∃ xs,
        reverse (construct 1 [0, 2 ^ 140, 2 * 2 ^ 140, 3 * 2 ^ 140] ⟨0, 0, 0, 0⟩)
          (2 ^ 140 / 3) fuel = Outcome.value xs) := by
  have hlo : ∀ v, evaluate (construct 1 [0, 2 ^ 140, 2 * 2 ^ 140, 3 * 2 ^ 140] ⟨0, 0, 0, 0⟩) 0
      = some v → v ≤ 2 ^ 140 / 3 := fun v hv => by
    rw [steep_line_eval 0 (by norm_num) (by norm_num)] at hv
    rw [← Option.some.inj hv]
    norm_num
  have hhi : ∀ v, evaluate (construct 1 [0, 2 ^ 140, 2 * 2 ^ 140, 3 * 2 ^ 140] ⟨0, 0, 0, 0⟩)
      (((([0, 2 ^ 140, 2 * 2 ^ 140, 3 * 2 ^ 140] : List ℚ).length : ℚ) - 1) * 1) = some v →
      2 ^ 140 / 3 ≤ v := fun v hv => by
    simp only [List.length_cons, List.length_nil] at hv
    rw [steep_line_eval _ (by norm_num) (by norm_num)] at hv
    rw [← Option.some.inj hv]
    norm_num
  refine ⟨⟨unit_line_reverse_running, unit_line_reverse_fails⟩,
    build_construct 1 _ _ (by norm_num) (by simp), ?_, ?_, ?_⟩
  · rw [steep_line_eval (1 / 3) (by norm_num) (by norm_num)]
    norm_num
  · obtain ⟨p, hp, hbr, -, -⟩ := initProbes_bracketed 1 _ ⟨0, 0, 0, 0⟩ (2 ^ 140 / 3)
      (by norm_num) (by simp) hlo hhi
    obtain ⟨e0, e1, e2, -⟩ := initProbes_construct 1 _ ⟨0, 0, 0, 0⟩ p (by simp) hp
    simp only [List.length_cons, List.length_nil] at hbr e1 e2
    have hL : (((0 + 1 + 1 + 1 + 1 : Nat) : ℚ) - 1) * 1 = 3 := by norm_num
    rw [hL] at hbr
    unfold reverse
    rw [hp]
    refine steep_line_running 135 0 p hbr ⟨0, 2, 3, ?_, ?_, ?_⟩ (by omega)
    · rw [e0]; norm_num
    · rw [e1]; norm_num
    · rw [e2]; norm_num
  · obtain ⟨N, hN⟩ := reverse_converges_of_bracket 1 _ ⟨0, 0, 0, 0⟩ (2 ^ 140 / 3)
      (by norm_num) (by simp) hlo hhi
    exact ⟨N, fun fuel hf => (hN fuel hf).imp (fun xs h => h.1)⟩

/-! ## C23: the fourth case of the table -/

/-- The case table of lines 97-107 is the value of the case its chain selects. -/
theorem derivative_eq_caseValue (d_2 d_1 d0 d1 w0 w1 : ℚ) :
    derivative d_2 d_1 d0 d1 w0 w1 = caseValue (derivativeCase d_2 d_1 d0 d1) d_1 d0 w0 w1 := by
  unfold derivative derivativeCase caseValue
  split_ifs <;> simp_all

/-- C23: for all slope values `d_2, d_1, d0, d1` (and all weights) the guard of the fourth
case, `d_2 == d_1 && d0 == d1 && d0 != d_1`, implies the guard of the second,
`d0 == d1 && d_2 == d_1`, which is tested before it; so the chain never selects the fourth
case, and the estimate is the value of case 1, 2, 3 or 5: `d_1`, `d0`, `d0` or the
weighted average. -/
theorem fourth_case_dead (d_2 d_1 d0 d1 w0 w1 : ℚ) :
    ((d_2 = d_1 ∧ d0 = d1 ∧ d0 ≠ d_1) → (d0 = d1 ∧ d_2 = d_1)) ∧
    derivativeCase d_2 d_1 d0 d1 ≠ 4 ∧
    (derivativeCase d_2 d_1 d0 d1 = 1 ∨ derivativeCase d_2 d_1 d0 d1 = 2 ∨
      derivativeCase d_2 d_1 d0 d1 = 3 ∨ derivativeCase d_2 d_1 d0 d1 = 5) ∧
    derivative d_2 d_1 d0 d1 w0 w1 = caseValue (derivativeCase d_2 d_1 d0 d1) d_1 d0 w0 w1 ∧
    derivative d_2 d_1 d0 d1 w0 w1
      = (if d_2 = d_1 ∧ d0 ≠ d1 then d_1
         else if d0 = d1 ∧ d_2 = d_1 then d0
         else if d_1 = d0 then d0
         else (d_1 * w1 + d0 * w0) / (w1 + w0)) := by
  have hcase : derivativeCase d_2 d_1 d0 d1 = 1 ∨ derivativeCase d_2 d_1 d0 d1 = 2 ∨
      derivativeCase d_2 d_1 d0 d1 = 3 ∨ derivativeCase d_2 d_1 d0 d1 = 5 := by
    unfold derivativeCase
    by_cases c1 : d_2 = d_1 ∧ d0 ≠ d1
    · rw [if_pos c1]
      exact Or.inl rfl
    · rw [if_neg c1]
      by_cases c2 : d0 = d1 ∧ d_2 = d_1
      · rw [if_pos c2]
        exact Or.inr (Or.inl rfl)
      · rw [if_neg c2]
        by_cases c3 : d_1 = d0
        · rw [if_pos c3]
          exact Or.inr (Or.inr (Or.inl rfl))
        · rw [if_neg c3, if_neg (fun c4 => c2 ⟨c4.2.1, c4.1⟩)]
          exact Or.inr (Or.inr (Or.inr rfl))
  refine ⟨fun h => ⟨h.2.1, h.1⟩, ?_, hcase, derivative_eq_caseValue _ _ _ _ _ _, ?_⟩
  · rcases hcase with h | h | h | h <;> rw [h] <;> decide
  · unfold derivative
    by_cases c1 : d_2 = d_1 ∧ d0 ≠ d1
    · rw [if_pos c1, if_pos c1]
    · rw [if_neg c1, if_neg c1]
      by_cases c2 : d0 = d1 ∧ d_2 = d_1
      · rw [if_pos c2, if_pos c2]
      · rw [if_neg c2, if_neg c2]
        by_cases c3 : d_1 = d0
        · rw [if_pos c3, if_pos c3]
        · rw [if_neg c3, if_neg c3, if_neg (fun c4 => c2 ⟨c4.2.1, c4.1⟩)]

/-! ## C22: the derivative estimate and the adjacent slopes -/

/-- With `w0 = |d_1 - d_2|` and a non-negative `w1`, the value of the case table lies
between `d_1` and `d0`. -/
theorem derivative_between (d_2 d_1 d0 d1 w1 : ℚ) (hw1 : 0 ≤ w1) :
    min d_1 d0 ≤ derivative d_2 d_1 d0 d1 |d_1 - d_2| w1 ∧
    derivative d_2 d_1 d0 d1 |d_1 - d_2| w1 ≤ max d_1 d0 := by
  unfold derivative
  by_cases c1 : d_2 = d_1 ∧ d0 ≠ d1
  · rw [if_pos c1]
    exact ⟨min_le_left _ _, le_max_left _ _⟩
  · rw [if_neg c1]
    by_cases c2 : d0 = d1 ∧ d_2 = d_1
    · rw [if_pos c2]
      exact ⟨min_le_right _ _, le_max_right _ _⟩
    · rw [if_neg c2]
      by_cases c3 : d_1 = d0
      · rw [if_pos c3]
        exact ⟨min_le_right _ _, le_max_right _ _⟩
      · rw [if_neg c3, if_neg (fun c4 => c2 ⟨c4.2.1, c4.1⟩)]
        have hne : d_2 ≠ d_1 := by
          intro e
          by_cases c : d0 = d1
          · exact c2 ⟨c, e⟩
          · exact c1 ⟨e, c⟩
        have hw0 : 0 < |d_1 - d_2| := abs_pos.mpr (sub_ne_zero.mpr (Ne.symm hne))
        have hW : 0 < w1 + |d_1 - d_2| := by linarith
        have m1 : min d_1 d0 ≤ d_1 := min_le_left _ _
        have m0 : min d_1 d0 ≤ d0 := min_le_right _ _
        have M1 : d_1 ≤ max d_1 d0 := le_max_left _ _
        have M0 : d0 ≤ max d_1 d0 := le_max_right _ _
        constructor
        · rw [le_div_iff₀ hW]
          nlinarith
        · rw [div_le_iff₀ hW]
          nlinarith

/-- The weights the derivative loop reads: `w0` is `|d_1 - d_2|` and `w1` is not
negative. -/
theorem builderInputs_weights (dx : ℚ) (y : List ℚ) (past : Coefficients) (i : Nat)
    (hn : 3 < y.length) (hi : i < y.length) :
    (builderInputs dx y past i).w0
      = |(builderInputs dx y past i).d_1 - (builderInputs dx y past i).d_2| ∧
    0 ≤ (builderInputs dx y past i).w1 := by
  rw [builderInputs_eq dx y past i hn hi]
  simp only
  constructor
  · rfl
  · unfold weight1
    split_ifs <;> exact abs_nonneg _

/-- The two slopes adjacent to sample `i ≤ n-2` that the derivative loop holds are the
slope `m_{i-1}` (the extrapolated `m_{-1} = 2·m_0 - m_1` for the first sample) and the
slope `m_i`. -/
theorem builderInputs_adjacent (dx : ℚ) (y : List ℚ) (past : Coefficients) (i : Nat)
    (hn : 3 < y.length) (hi : i + 2 ≤ y.length) :
    (builderInputs dx y past i).d_1 = specSlope dx y ((i : ℤ) - 1) ∧
    (builderInputs dx y past i).d0 = specSlope dx y (i : ℤ) := by
  have hB : ∀ j, j + 1 < y.length → slopeB dx y past j = slope dx y j := fun j hj => by
    unfold slopeB
    rw [if_pos hj]
  rw [builderInputs_eq dx y past i hn (by omega)]
  simp only
  constructor
  · unfold prevSlope specSlope
    by_cases h0 : i = 0
    · subst h0
      norm_num
    · rw [if_neg h0, if_neg (by omega), if_neg (by omega), hB (i - 1) (by omega)]
      congr 1
      omega
  · unfold specSlope
    rw [if_neg (by omega), if_neg (by omega), Int.toNat_natCast, hB i (by omega)]

/-- C22: for every sample sequence with `n > 3`, `dx > 0` and every sample index `i ≤ n-2`,
the derivative estimate `t_i` of the builder lies between the two slopes `d_1` and `d0`
that the derivative loop holds for sample `i`: `min(d_1, d0) ≤ t_i ≤ max(d_1, d0)`; these
are the slopes `m_{i-1}` (for `i = 0` the extrapolated `2·m_0 - m_1`) and `m_i`. -/
theorem derivative_within_adjacent_slopes (dx : ℚ) (y : List ℚ) (past : Coefficients)
    (i : Nat) (hdx : 0 < dx) (hn : 3 < y.length) (hi : i + 2 ≤ y.length) :
    (min (builderInputs dx y past i).d_1 (builderInputs dx y past i).d0 ≤ tangent dx y past i ∧
      tangent dx y past i
        ≤ max (builderInputs dx y past i).d_1 (builderInputs dx y past i).d0) ∧
    (builderInputs dx y past i).d_1 = specSlope dx y ((i : ℤ) - 1) ∧
    (builderInputs dx y past i).d0 = specSlope dx y (i : ℤ) ∧
    build dx y past = some (construct dx y past) := by
  obtain ⟨hw0, hw1⟩ := builderInputs_weights dx y past i hn (by omega)
  refine ⟨?_, (builderInputs_adjacent dx y past i hn hi).1,
    (builderInputs_adjacent dx y past i hn hi).2, build_construct dx y past hdx hn⟩
  rw [tangent_eq_inputs dx y past i hn (by omega), hw0]
  exact derivative_between _ _ _ _ _ hw1

/-- C22 at `y = [0, 100, 200, 201, 203, 303, 403]`, `dx = 1`, sample `i = 3`, where the
loop holds `d_1 = 1` and `d0 = 2`. -/
theorem derivative_within_adjacent_slopes_witness :
    (min (builderInputs 1 [0, 100, 200, 201, 203, 303, 403] ⟨0, 0, 0, 0⟩ 3).d_1
        (builderInputs 1 [0, 100, 200, 201, 203, 303, 403] ⟨0, 0, 0, 0⟩ 3).d0
        ≤ tangent 1 [0, 100, 200, 201, 203, 303, 403] ⟨0, 0, 0, 0⟩ 3 ∧
      tangent 1 [0, 100, 200, 201, 203, 303, 403] ⟨0, 0, 0, 0⟩ 3
        ≤ max (builderInputs 1 [0, 100, 200, 201, 203, 303, 403] ⟨0, 0, 0, 0⟩ 3).d_1
            (builderInputs 1 [0, 100, 200, 201, 203, 303, 403] ⟨0, 0, 0, 0⟩ 3).d0) ∧
    (builderInputs 1 [0, 100, 200, 201, 203, 303, 403] ⟨0, 0, 0, 0⟩ 3).d_1
      = specSlope 1 [0, 100, 200, 201, 203, 303, 403] (((3 : Nat) : ℤ) - 1) ∧
    (builderInputs 1 [0, 100, 200, 201, 203, 303, 403] ⟨0, 0, 0, 0⟩ 3).d0
      = specSlope 1 [0, 100, 200, 201, 203, 303, 403] ((3 : Nat) : ℤ) ∧
    build 1 [0, 100, 200, 201, 203, 303, 403] ⟨0, 0, 0, 0⟩
      = some (construct 1 [0, 100, 200, 201, 203, 303, 403] ⟨0, 0, 0, 0⟩) :=
  derivative_within_adjacent_slopes 1 [0, 100, 200, 201, 203, 303, 403] ⟨0, 0, 0, 0⟩ 3
    (by norm_num) (by simp) (by simp)

/-! ## C21: descending brackets -/

/-- Forward evaluation of a built engine at the knot `i·dx` returns the sample `y[i]`, the
last knot included. -/
theorem evaluate_knot (dx : ℚ) (y : List ℚ) (past : Coefficients) (i : Nat)
    (hdx : 0 < dx) (hi : i < y.length) :
    evaluate (construct dx y past) ((i : ℚ) * dx) = some (y.getD i 0) := by
  have h1 : (i : ℚ) * dx < ((i : ℚ) + 1) * dx := by nlinarith
  rw [evaluate_construct dx y past _ i hdx hi le_rfl h1, slot_value_left dx y past i hi]

/-- While the loop keeps running for `k` iterations, the search goes on from the state
`loopState` gives. -/
theorem reverseLoop_loopState (s : Spline) (t : ℚ) (k : Nat) :
    ∀ (p q : Probes) (n : Nat), loopState s t k p = some q →
      reverseLoop s t (k + n) p = reverseLoop s t n q := by
  induction k with
  | zero =>
    intro p q n h
    have e : p = q := Option.some.inj h
    rw [e, Nat.zero_add]
  | succ k ih =>
    intro p q n h
    have hu : loopState s t (k + 1) p = (loopStep s t p).bind (loopState s t k) := rfl
    rw [hu] at h
    obtain ⟨r, hr, hq⟩ := Option.bind_eq_some.mp h
    unfold loopStep at hr
    cases he : evaluate s (nextProbe t p) with
    | none => simp [he] at hr
    | some v =>
      simp only [he] at hr
      rw [show k + 1 + n = (k + n) + 1 by omega, reverseLoop_step s t (k + n) p v he]
      split_ifs at hr with c1 c2
      rw [if_neg c1, if_neg c2, Option.some.inj hr]
      exact ih _ q n hq

/-- A search whose target lies strictly below `y0` and strictly above `y2` runs recovery
steps only: after `k` iterations, as long as the counter has not passed `max_loops`, the
counter has grown by `k`, the outer probes are unchanged and `x1` has been halved `k`
times. -/
theorem loopState_recovery (s : Spline) (t L : ℚ)
    (hdef : ∀ x, 0 ≤ x → x ≤ L → ∃ v, evaluate s x = some v) (k : Nat) :
    ∀ p : Probes, InDomain L p → t < p.y0 → p.y2 < t → p.counter + k ≤ max_loops →
      ∃ q, loopState s t k p = some q ∧ q.counter = p.counter + k ∧
        q.x0 = p.x0 ∧ q.y0 = p.y0 ∧ q.x2 = p.x2 ∧ q.y2 = p.y2 ∧
        q.x1 = p.x1 * 0.5 ^ k ∧ InDomain L q := by
  induction k with
  | zero =>
    intro p hp _ _ _
    exact ⟨p, rfl, rfl, rfl, rfl, rfl, rfl, by simp, hp⟩
  | succ k ih =>
    intro p hp h0 h2 hc
    have c1 : ¬ (p.y0 ≤ t ∧ t ≤ p.y1) := fun c => absurd c.1 (not_le.mpr h0)
    have c2 : ¬ (p.y1 < t ∧ t ≤ p.y2) := fun c => absurd c.2 (not_le.mpr h2)
    have hc12 : ¬ ((p.y0 ≤ t ∧ t ≤ p.y1) ∨ (p.y1 < t ∧ t ≤ p.y2)) := fun h => h.elim c1 c2
    obtain ⟨a0, a1, -⟩ := inDomain_step t L p 0 hp
    obtain ⟨v, hv⟩ := hdef _ a0 a1
    obtain ⟨-, -, hq⟩ := inDomain_step t L p v hp
    have hs : stepProbes t p v = { p with x1 := p.x1 * 0.5, y1 := v, counter := p.counter + 1 } := by
      unfold stepProbes
      rw [if_neg c1, if_neg c2]
    rw [hs] at hq
    obtain ⟨q, e, ec, e0, f0, e2, f2, e1, hd⟩ :=
      ih { p with x1 := p.x1 * 0.5, y1 := v, counter := p.counter + 1 } hq h0 h2
        (by simp only; omega)
    refine ⟨q, ?_, ?_, e0, f0, e2, f2, ?_, hd⟩
    · have hu : loopState s t (k + 1) p = (loopStep s t p).bind (loopState s t k) := rfl
      have hl : loopStep s t p
          = some { p with x1 := p.x1 * 0.5, y1 := v, counter := p.counter + 1 } := by
        unfold loopStep
        simp only [hv]
        rw [if_neg (fun c => hc12 c.1), hs, if_neg (by simp only; omega)]
      rw [hu, hl]
      exact e
    · rw [ec]
      simp only
      omega
    · rw [e1]
      simp only
      ring

/-- C21: for every built engine and every target with `y[n-1] < target < y[0]`, the search
starts with `y0 = y[0]` and `y2 = y[n-1]`; at the start of each of its iterations (the
state after `k ≤ max_loops` iterations) neither bracketing condition holds, every
iteration so far was a recovery step (the counter is `k`, `x0`, `y0`, `x2`, `y2` are those
of the start and `x1` has been halved `k` times); the loop is still running after
`max_loops` iterations, is left through the cap in the next one, and `reverse` fails with
its final assertion. -/
theorem reverse_fails_on_descending_bracket (dx : ℚ) (y : List ℚ) (past : Coefficients)
    (s : Spline) (t : ℚ) (hb : build dx y past = some s)
    (hlo : y.getD (y.length - 1) 0 < t) (hhi : t < y.getD 0 0) :
    (∃ p, initProbes s = some p ∧ p.y0 = y.getD 0 0 ∧ p.y2 = y.getD (y.length - 1) 0 ∧
      ∀ k, k ≤ max_loops → ∃ q, loopState s t k p = some q ∧
        ¬ (q.y0 ≤ t ∧ t ≤ q.y1) ∧ ¬ (q.y1 < t ∧ t ≤ q.y2) ∧ q.counter = k ∧
        q.x0 = p.x0 ∧ q.y0 = p.y0 ∧ q.x2 = p.x2 ∧ q.y2 = p.y2 ∧ q.x1 = p.x1 * 0.5 ^ k) ∧
    (∀ fuel, fuel ≤ max_loops → reverse s t fuel = Outcome.timeout) ∧
    (∀ fuel, max_loops < fuel → reverse s t fuel = Outcome.failed) := by
  obtain ⟨hdx, hn, rfl⟩ := (build_eq_some_iff dx y past s).mp hb
  have hn4 : (4 : ℚ) ≤ (y.length : ℚ) := by exact_mod_cast hn
  have hLn : ((y.length : ℚ) - 1) * dx < (y.length : ℚ) * dx := by nlinarith
  have hdef : ∀ z, 0 ≤ z → z ≤ ((y.length : ℚ) - 1) * dx →
      ∃ w, evaluate (construct dx y past) z = some w := fun z hz0 hz1 => by
    obtain ⟨i, -, -, -, e⟩ := evaluate_defined dx y past z hdx hz0 (by linarith)
    exact ⟨_, e⟩
  obtain ⟨p0, hp0, e0, -, e2, hc0, v0, -, v2, hd0⟩ :=
    initProbes_construct_some dx y past hdx hn
  have hy0 : p0.y0 = y.getD 0 0 := by
    have h := evaluate_knot dx y past 0 hdx (by omega)
    rw [Nat.cast_zero, zero_mul] at h
    rw [e0, h] at v0
    exact (Option.some.inj v0).symm
  have hy2 : p0.y2 = y.getD (y.length - 1) 0 := by
    have h := evaluate_knot dx y past (y.length - 1) hdx (by omega)
    rw [Nat.cast_sub (by omega), Nat.cast_one] at h
    rw [e2, h] at v2
    exact (Option.some.inj v2).symm
  have g0 : t < p0.y0 := by rw [hy0]; exact hhi
  have g2 : p0.y2 < t := by rw [hy2]; exact hlo
  refine ⟨⟨p0, hp0, hy0, hy2, ?_⟩, ?_, ?_⟩
  · intro k hk
    obtain ⟨q, e, ec, f0, f1, f2, f3, f4, -⟩ :=
      loopState_recovery _ t _ hdef k p0 hd0 g0 g2 (by omega)
    refine ⟨q, e, fun c => absurd c.1 (not_le.mpr (by rw [f1]; exact g0)),
      fun c => absurd c.2 (not_le.mpr (by rw [f3]; exact g2)), by omega, f0, f1, f2, f3, f4⟩
  · intro fuel hf
    unfold reverse
    rw [hp0]
    simp only
    refine reverseLoop_recovery_timeout _ t
      (fun q => InDomain (((y.length : ℚ) - 1) * dx) q ∧ t < q.y0 ∧ q.y2 < t) ?_ ?_ fuel p0
      ⟨hd0, g0, g2⟩ (by omega)
    · rintro q ⟨-, q0, q2⟩
      exact ⟨fun c => absurd c.1 (not_le.mpr q0), fun c => absurd c.2 (not_le.mpr q2)⟩
    · rintro q ⟨⟨a0, b0, a1, b1, a2, b2⟩, q0, q2⟩
      have ha : 0 ≤ q.x1 * 0.5 := by positivity
      have hb2 : q.x1 * 0.5 ≤ ((y.length : ℚ) - 1) * dx := by norm_num; linarith
      obtain ⟨v, hv⟩ := hdef _ ha hb2
      exact ⟨v, hv, ⟨a0, b0, ha, hb2, a2, b2⟩, q0, q2⟩
  · intro fuel hf
    unfold reverse
    rw [hp0]
    simp only
    refine reverseLoop_stuck _ t (fun q => t < q.y0 ∧ q.y2 < t) ?_ ?_ fuel p0
      ⟨g0, g2⟩ (by omega) (by omega)
    · rintro q ⟨q0, q2⟩
      exact ⟨fun c => absurd c.1 (not_le.mpr q0), fun c => absurd c.2 (not_le.mpr q2)⟩
    · rintro q v ⟨q0, q2⟩ -
      exact ⟨q0, q2⟩

/-- C21 at the strictly decreasing samples `y = [10, 9, 8, 7, 6]`, `dx = 1`, target `8`. -/
theorem reverse_fails_on_descending_bracket_witness :
    (∃ p, initProbes (construct 1 [10, 9, 8, 7, 6] ⟨0, 0, 0, 0⟩) = some p ∧
      p.y0 = ([10, 9, 8, 7, 6] : List ℚ).getD 0 0 ∧
      p.y2 = ([10, 9, 8, 7, 6] : List ℚ).getD (([10, 9, 8, 7, 6] : List ℚ).length - 1) 0 ∧
      ∀ k, k ≤ max_loops →
        ∃ q, loopState (construct 1 [10, 9, 8, 7, 6] ⟨0, 0, 0, 0⟩) 8 k p = some q ∧
        ¬ (q.y0 ≤ 8 ∧ 8 ≤ q.y1) ∧ ¬ (q.y1 < 8 ∧ 8 ≤ q.y2) ∧ q.counter = k ∧
        q.x0 = p.x0 ∧ q.y0 = p.y0 ∧ q.x2 = p.x2 ∧ q.y2 = p.y2 ∧ q.x1 = p.x1 * 0.5 ^ k) ∧
    (∀ fuel, fuel ≤ max_loops →
      reverse (construct 1 [10, 9, 8, 7, 6] ⟨0, 0, 0, 0⟩) 8 fuel = Outcome.timeout) ∧
    (∀ fuel, max_loops < fuel →
      reverse (construct 1 [10, 9, 8, 7, 6] ⟨0, 0, 0, 0⟩) 8 fuel = Outcome.failed) :=
  reverse_fails_on_descending_bracket 1 [10, 9, 8, 7, 6] ⟨0, 0, 0, 0⟩ _ 8
    (build_construct 1 _ _ (by norm_num) (by simp)) (by norm_num) (by norm_num)

/-! ## C4: the round trip on a rising curve -/

/-- On the engine built from `y = [0, 1, 2, 3]`, `dx = 1` the search for `1/2` probes `1`,
then `1/2`, and returns `1/2` in its second iteration. -/
theorem unit_line_reverse_half (fuel : Nat) :
    reverse (construct 1 [0, 1, 2, 3] ⟨0, 0, 0, 0⟩) (1 / 2) (fuel + 2)
      = Outcome.value (1 / 2) := by
  have e : nextProbe (1 / 2) ⟨0, 0, 2, 2, 3, 3, 0⟩ = 1 := by
    unfold nextProbe
    norm_num
  have hv : evaluate (construct 1 [0, 1, 2, 3] ⟨0, 0, 0, 0⟩)
      (nextProbe (1 / 2) ⟨0, 0, 2, 2, 3, 3, 0⟩) = some 1 := by
    rw [e]
    exact unit_line_eval 1 (by norm_num) (by norm_num)
  have hs : stepProbes (1 / 2) ⟨0, 0, 2, 2, 3, 3, 0⟩ 1 = ⟨0, 0, 1, 1, 2, 2, 0⟩ := by
    unfold stepProbes
    norm_num
  have h1 : ¬ (((0 : ℚ) ≤ 1 / 2 ∧ (1 / 2 : ℚ) ≤ 2 ∨ (2 : ℚ) < 1 / 2 ∧ (1 / 2 : ℚ) ≤ 3) ∧
      |(1 : ℚ) - 1 / 2| < epsilon) := by
    rintro ⟨-, h⟩
    unfold epsilon at h
    rw [abs_lt] at h
    norm_num at h
  have e2 : nextProbe (1 / 2) ⟨0, 0, 1, 1, 2, 2, 0⟩ = 1 / 2 := by
    unfold nextProbe
    norm_num
  have hv2 : evaluate (construct 1 [0, 1, 2, 3] ⟨0, 0, 0, 0⟩)
      (nextProbe (1 / 2) ⟨0, 0, 1, 1, 2, 2, 0⟩) = some (1 / 2) := by
    rw [e2]
    exact unit_line_eval (1 / 2) (by norm_num) (by norm_num)
  have h2 : ((0 : ℚ) ≤ 1 / 2 ∧ (1 / 2 : ℚ) ≤ 1 ∨ (1 : ℚ) < 1 / 2 ∧ (1 / 2 : ℚ) ≤ 2) ∧
      |(1 / 2 : ℚ) - 1 / 2| < epsilon := by
    refine ⟨Or.inl ⟨by norm_num, by norm_num⟩, ?_⟩
    unfold epsilon
    norm_num
  unfold reverse
  rw [unit_line_probes]
  simp only
  rw [show fuel + 2 = (fuel + 1) + 1 from rfl, reverseLoop_step _ _ (fuel + 1) _ 1 hv, hs,
    if_neg h1, if_neg (by decide), reverseLoop_step _ _ fuel _ (1 / 2) hv2, if_pos h2, e2]
  exact finish_nonneg _ (by norm_num)

/-- C4 (amended): for every built engine whose curve rises at rate at least `1/10` on the
domain (`evaluate(b) - evaluate(a) ≥ (b - a)/10` for `0 ≤ a ≤ b ≤ (n-1)·dx`) and every `x`
in the domain, the search `reverse(evaluate(x))` never fails, however long it runs, and
every value it returns lies in the domain and is within `1e-2` of `x`.  (That it returns
is not part of the statement: the loop has no cap on its bracketing steps.) -/
theorem round_trip (dx : ℚ) (y : List ℚ) (past : Coefficients) (s : Spline) (x v : ℚ)
    (hb : build dx y past = some s)
    (hrate : ∀ a b va vb, 0 ≤ a → a ≤ b → b ≤ ((y.length : ℚ) - 1) * dx →
      evaluate s a = some va → evaluate s b = some vb → (b - a) / 10 ≤ vb - va)
    (hx0 : 0 ≤ x) (hx1 : x ≤ ((y.length : ℚ) - 1) * dx) (hv : evaluate s x = some v) :
    ∀ fuel, reverse s v fuel ≠ Outcome.failed ∧
      ∀ xs, reverse s v fuel = Outcome.value xs →
        0 ≤ xs ∧ xs ≤ ((y.length : ℚ) - 1) * dx ∧ |xs - x| < 1 / 100 := by
  obtain ⟨hdx, hn, rfl⟩ := (build_eq_some_iff dx y past s).mp hb
  have hn4 : (4 : ℚ) ≤ (y.length : ℚ) := by exact_mod_cast hn
  have hLn : ((y.length : ℚ) - 1) * dx < (y.length : ℚ) * dx := by nlinarith
  have hmono : ∀ a b va vb, 0 ≤ a → a ≤ b → b ≤ ((y.length : ℚ) - 1) * dx →
      evaluate (construct dx y past) a = some va →
      evaluate (construct dx y past) b = some vb → va ≤ vb :=
    fun a b va vb ha hab hbL hva hvb => by
      have := hrate a b va vb ha hab hbL hva hvb
      have h2 : 0 ≤ (b - a) / 10 := by linarith
      linarith
  have hdef : ∀ z, 0 ≤ z → z ≤ ((y.length : ℚ) - 1) * dx →
      ∃ w, evaluate (construct dx y past) z = some w := fun z hz0 hz1 => by
    obtain ⟨i, -, -, -, e⟩ := evaluate_defined dx y past z hdx hz0 (by linarith)
    exact ⟨_, e⟩
  obtain ⟨p, hp, hbr, -, -⟩ := initProbes_bracketed dx y past v hdx hn
    (fun w hw => hmono 0 x w v le_rfl hx0 hx1 hw hv)
    (fun w hw => hmono x _ v w hx0 hx1 le_rfl hv hw)
  intro fuel
  have hrev : reverse (construct dx y past) v fuel
      = reverseLoop (construct dx y past) v fuel p := by
    unfold reverse
    rw [hp]
  refine ⟨?_, ?_⟩
  · rw [hrev]
    exact reverseLoop_bracketed_not_failed _ v _ hdef fuel p hbr
  · intro xs hxs
    rw [hrev] at hxs
    obtain ⟨a0, a1, a2, a3, -⟩ := hbr
    obtain ⟨r0, r1, w, hw, hwv⟩ := reverseLoop_value (construct dx y past) v _ fuel p a0
      (by linarith) (by linarith) (by linarith) (by linarith) a3 xs hxs
    refine ⟨r0, r1, ?_⟩
    unfold epsilon at hwv
    rw [abs_lt] at hwv ⊢
    rcases le_total x xs with h | h
    · have := hrate x xs v w hx0 h r1 hv hw
      constructor <;> linarith
    · have := hrate xs x w v r0 h hx1 hw hv
      constructor <;> linarith

/-- C4 (amended) at `y = [0, 1, 2, 3]`, `dx = 1`, whose curve is `evaluate(x) = x`, and
`x = 1/2`, where the search does return, in its second iteration, the value `1/2`. -/
theorem round_trip_witness :
    (∀ fuel, reverse (construct 1 [0, 1, 2, 3] ⟨0, 0, 0, 0⟩) (1 / 2) fuel ≠ Outcome.failed ∧
      ∀ xs, reverse (construct 1 [0, 1, 2, 3] ⟨0, 0, 0, 0⟩) (1 / 2) fuel = Outcome.value xs →
        0 ≤ xs ∧ xs ≤ ((([0, 1, 2, 3] : List ℚ).length : ℚ) - 1) * 1 ∧
          |xs - 1 / 2| < 1 / 100) ∧
    reverse (construct 1 [0, 1, 2, 3] ⟨0, 0, 0, 0⟩) (1 / 2) 2 = Outcome.value (1 / 2) :=
  ⟨round_trip 1 [0, 1, 2, 3] ⟨0, 0, 0, 0⟩ _ (1 / 2) (1 / 2)
      (build_construct 1 _ _ (by norm_num) (by simp))
      (fun a b va vb ha hab hbL hva hvb => by
        have h3 : b ≤ 3 := by
          simp only [List.length_cons, List.length_nil] at hbL
          norm_num at hbL
          exact hbL
        rw [unit_line_eval a ha (by linarith)] at hva
        rw [unit_line_eval b (by linarith) h3] at hvb
        have e1 := Option.some.inj hva
        have e2 := Option.some.inj hvb
        have : 0 ≤ b - a := by linarith
        linarith)
      (by norm_num) (by simp only [List.length_cons, List.length_nil]; norm_num)
      (unit_line_eval (1 / 2) (by norm_num) (by norm_num)),
    unit_line_reverse_half 0⟩

/-! ## C8: the conversion of the index -/

/-- C8 (the code at a failing input): on the engine built from `y = [10, 9, 8, 7, 6]`,
`dx = 1`, the abscissa `x = 10^30` has `floor(x·inv_dx) = 10^30`, not below `n = 5`, so the
claim has forward evaluation fail; but the product is beyond the range of `size_t`, the
unchecked conversion of line 138 leaves index `0`, the assertion `index < c.size()` passes
and the polynomial of segment 0 is returned: `10 - 10^30`.  For every product below `2^64`
forward evaluation is as the claim says. -/
theorem evaluate_unchecked_conversion :
    build 1 [10, 9, 8, 7, 6] ⟨0, 0, 0, 0⟩ = some (construct 1 [10, 9, 8, 7, 6] ⟨0, 0, 0, 0⟩) ∧
    ¬ ((0 : ℚ) ≤ 10 ^ 30 ∧
      ⌊(10 ^ 30 : ℚ) * (construct 1 [10, 9, 8, 7, 6] ⟨0, 0, 0, 0⟩).inv_dx⌋
        < (([10, 9, 8, 7, 6] : List ℚ).length : ℤ)) ∧
    indexOf (construct 1 [10, 9, 8, 7, 6] ⟨0, 0, 0, 0⟩) (10 ^ 30) = 0 ∧
    evaluate (construct 1 [10, 9, 8, 7, 6] ⟨0, 0, 0, 0⟩) (10 ^ 30) = some (10 - 10 ^ 30) ∧
    (∀ (dx : ℚ) (y : List ℚ) (past : Coefficients) (s : Spline) (x : ℚ),
      build dx y past = some s → x * s.inv_dx < 2 ^ 64 →
        ((evaluate s x).isSome ↔ 0 ≤ x ∧ ⌊x * s.inv_dx⌋ < (y.length : ℤ)) ∧
        evaluate s x = (if x < 0 then none else
          (s.c[Int.toNat ⌊x * s.inv_dx⌋]?).map
            (fun k => k.a + x * (k.b + x * (k.c + x * k.d)))) ∧
        evaluate s x = (if x < 0 then none else
          (s.c[Int.toNat ⌊x * s.inv_dx⌋]?).map
            (fun k => k.a + k.b * x + k.c * x ^ 2 + k.d * x ^ 3))) := by
  have hfl : ⌊(10 ^ 30 : ℚ) / 1⌋ = (10 : ℤ) ^ 30 := by
    rw [Int.floor_eq_iff]
    norm_num
  have hidx : indexOf (construct 1 [10, 9, 8, 7, 6] ⟨0, 0, 0, 0⟩) (10 ^ 30) = 0 := by
    refine construct_indexOf_wide 1 _ _ _ ?_
    rw [hfl]
    simp only [List.length_cons, List.length_nil]
    norm_num
  refine ⟨build_construct 1 _ _ (by norm_num) (by simp), ?_, hidx, ?_,
    fun dx y past s x hb hr => evaluate_in_range dx y past s x hb hr⟩
  · rintro ⟨-, h⟩
    rw [construct_product, hfl] at h
    simp only [List.length_cons, List.length_nil] at h
    norm_num at h
  · unfold evaluate
    rw [if_neg (by norm_num), hidx, construct_get 1 _ _ 0 (by simp),
      fillBuffer_segment 1 _ _ 0 (by simp),
      tangent_eq 1 _ _ 0 (by simp) (by simp), tangent_eq 1 _ _ (0 + 1) (by simp) (by simp)]
    simp [prevSlope2, prevSlope, slopeB, weight0, weight1, slope, derivative, segment, horner]
    norm_num

end EPH_Spline
